import Mathlib

/-!
# The heo simulator: paged memory and the out-of-order thread

A shallow embedding of `PagedMemory` (`cpu/mem/paged_memory.go`) and of the out-of-order thread
(`cpu/static_inst_meta.go`, `cpu/ooo_fu.go`, `cpu/thread_ooo.go`) with their operations, followed
by the properties proved about them.

* `uint32` values are natural numbers; every addition or subtraction that Go
  performs in `uint32` is reduced with `u32`.
* A Go `panic` is a value of `Fault` (of `Cpu.Panic` for the thread); a call yields an `Outcome`:
  the state as the call leaves it together with either the returned value or the fault.
* A loop is a function recursing on a list or on a step budget; running out of budget is the
  fault `OutOfFuel` (or `none` for `Unmap`), never a result.
-/
namespace Heo

/-! ## Machine integers -/

/-- Reduction of a natural number to a `uint32`. -/
def u32 (x : Nat) : Nat := x % 4294967296

/-! ## Geometry -/

/-- Modelled from the spec: `Geometry.LineSize` (the type `Geometry` and `NewGeometry` are not among
the sources); `NewPagedMemory` builds the geometry with line size `1 << 12`, the 4 KiB page of the
spec, and it is never reassigned. -/
def pageSize : Nat := 4096

/-- Modelled from the spec: `Geometry.LineSizeInLog2` for the 4 KiB page. -/
def pageSizeInLog2 : Nat := 12

/-- Modelled from the spec: `Geometry.GetDisplacement`, the offset of an address inside its 4 KiB
page (the spec decomposes an address into page and displacement). -/
def GetDisplacement (virtualAddress : Nat) : Nat := virtualAddress % pageSize

/-- Modelled from the spec: `Geometry.GetTag`, the address of the first byte of the page holding
the address (the page-aligned base). -/
def GetTag (virtualAddress : Nat) : Nat := virtualAddress - virtualAddress % pageSize

/-- Modelled from the spec: `Geometry.GetLineId`, the 20-bit page index of a 32-bit address. -/
def GetIndex (virtualAddress : Nat) : Nat := virtualAddress / pageSize

/-! ## Data model -/

/-- The ways a call can fail: the three explicit panics of the source, the run-time panic of a
slice expression out of range, and the exhaustion of the step budget of a loop. -/
inductive Fault where
  | Unimplemented
  | Impossible
  | NotSupported
  | SliceBounds
  | OutOfFuel
  deriving DecidableEq, Repr

/-- One page: `Buffer` gives the byte at each displacement below `pageSize`. -/
structure MemoryPage where
  Id : Nat
  PhysicalAddress : Nat
  Buffer : Nat → Nat

/-- The memory: `Pages` is the Go map from page index to page (`none`: no entry). -/
structure PagedMemory where
  LittleEndian : Bool
  Pages : Nat → Option MemoryPage
  NumPages : Nat

/-- The result of a call: the memory left behind and the value returned or the fault raised. -/
structure Outcome (α : Type) where
  mem : PagedMemory
  res : Except Fault α

/-- Source `NewMemoryPage`: a zero-filled page with the given id. -/
def NewMemoryPage (id : Nat) : MemoryPage :=
  { Id := id, PhysicalAddress := u32 (id <<< pageSizeInLog2), Buffer := fun _ => 0 }

/-- Source `NewPagedMemory`: no page, byte order fixed by the flag. -/
def NewPagedMemory (littleEndian : Bool) : PagedMemory :=
  { LittleEndian := littleEndian, Pages := fun _ => none, NumPages := 0 }

/-! ## Byte order (`encoding/binary`) -/

/-- The `n` low bytes of `v`, least significant first. -/
def putLittle : Nat → Nat → List Nat
  | 0, _ => []
  | n + 1, v => (v &&& 0xFF) :: putLittle n (v >>> 8)

/-- The number whose bytes, least significant first, are `b`. -/
def getLittle : List Nat → Nat
  | [] => 0
  | x :: xs => x ||| (getLittle xs <<< 8)

/-- Source `ByteOrder.PutUint16`. -/
def ByteOrder.PutUint16 (littleEndian : Bool) (v : Nat) : List Nat :=
  if littleEndian then putLittle 2 v else (putLittle 2 v).reverse

/-- Source `ByteOrder.PutUint32`. -/
def ByteOrder.PutUint32 (littleEndian : Bool) (v : Nat) : List Nat :=
  if littleEndian then putLittle 4 v else (putLittle 4 v).reverse

/-- Source `ByteOrder.PutUint64`. -/
def ByteOrder.PutUint64 (littleEndian : Bool) (v : Nat) : List Nat :=
  if littleEndian then putLittle 8 v else (putLittle 8 v).reverse

/-- Source `ByteOrder.Uint16`, `Uint32` and `Uint64`: the value of a buffer of 2, 4 or 8 bytes. -/
def ByteOrder.Uint (littleEndian : Bool) (b : List Nat) : Nat :=
  if littleEndian then getLittle b else getLittle b.reverse

/-! ## Page access -/

/-- Source `MemoryPage.Access`: copy `size` bytes between the page, from the displacement of the
address, and the caller's buffer, from `offset`. Either slice expression panics when it leaves its
array. -/
def MemoryPage.Access (page : MemoryPage) (virtualAddress : Nat) (buffer : List Nat)
    (offset size : Nat) (write : Bool) : Except Fault (MemoryPage × List Nat) :=
  let displacement := GetDisplacement virtualAddress
  if displacement + size ≤ pageSize ∧ offset + size ≤ buffer.length then
    if write then
      .ok ({ page with
              Buffer := fun j =>
                if displacement ≤ j ∧ j < displacement + size then
                  buffer.getD (offset + (j - displacement)) 0
                else page.Buffer j },
           buffer)
    else
      .ok (page,
           buffer.take offset
             ++ (List.range size).map (fun k => page.Buffer (displacement + k))
             ++ buffer.drop (offset + size))
  else
    .error Fault.SliceBounds

/-- Source `GetPage`: the page of an address, if mapped. -/
def GetPage (memory : PagedMemory) (virtualAddress : Nat) : Option MemoryPage :=
  memory.Pages (GetIndex virtualAddress)

/-- Source `addPage`: a fresh zero page under the index of the address; `NumPages` is incremented. -/
def addPage (memory : PagedMemory) (virtualAddress : Nat) : PagedMemory × MemoryPage :=
  let index := GetIndex virtualAddress
  let page := NewMemoryPage memory.NumPages
  ({ memory with
      NumPages := u32 (memory.NumPages + 1),
      Pages := fun i => if i = index then some page else memory.Pages i },
   page)

/-- Source `removePage`: delete the entry of the index of the address. -/
def removePage (memory : PagedMemory) (virtualAddress : Nat) : PagedMemory :=
  let index := GetIndex virtualAddress
  { memory with Pages := fun i => if i = index then none else memory.Pages i }

/-- Source `accessPageBoundary`: one chunk, inside one page. -/
def accessPageBoundary (memory : PagedMemory) (virtualAddress size : Nat) (buffer : List Nat)
    (offset : Nat) (write createNewPageIfNecessary : Bool) : Outcome (List Nat) :=
  let created : PagedMemory × Option MemoryPage :=
    match GetPage memory virtualAddress with
    | some page => (memory, some page)
    | none =>
      if createNewPageIfNecessary then
        let r := addPage memory (GetTag virtualAddress)
        (r.1, some r.2)
      else (memory, none)
  match created.2 with
  | none => ⟨created.1, .ok buffer⟩
  | some page =>
    match page.Access virtualAddress buffer offset size write with
    | .error e => ⟨created.1, .error e⟩
    | .ok (page1, buffer1) =>
      if write then
        ⟨{ created.1 with
            Pages := fun i =>
              if i = GetIndex virtualAddress then some page1 else created.1.Pages i },
         .ok buffer1⟩
      else ⟨created.1, .ok buffer1⟩

/-- The chunk size chosen by `access`: what is left of the request, at most up to the end of the
page (`math.Min` on two `uint32` values converted to `float64` is exact). -/
def chunkSize (virtualAddress size : Nat) : Nat :=
  min size (pageSize - GetDisplacement virtualAddress)

/-- The loop of `access`. -/
def accessLoop : Nat → PagedMemory → Nat → Nat → List Nat → Nat → Bool → Bool → Outcome (List Nat)
  | 0, memory, _, size, buffer, _, _, _ =>
    if size > 0 then ⟨memory, .error Fault.OutOfFuel⟩ else ⟨memory, .ok buffer⟩
  | fuel + 1, memory, virtualAddress, size, buffer, offset, write, create =>
    if size > 0 then
      match accessPageBoundary memory virtualAddress (chunkSize virtualAddress size) buffer offset
              write create with
      | ⟨memory1, .error e⟩ => ⟨memory1, .error e⟩
      | ⟨memory1, .ok buffer1⟩ =>
        accessLoop fuel memory1 (u32 (virtualAddress + chunkSize virtualAddress size))
          (size - chunkSize virtualAddress size) buffer1
          (u32 (offset + chunkSize virtualAddress size)) write create
    else ⟨memory, .ok buffer⟩

/-- Source `access`: every chunk moves at least one byte, so `size` steps are enough. -/
def access (memory : PagedMemory) (virtualAddress size : Nat) (buffer : List Nat)
    (write createNewPageIfNecessary : Bool) : Outcome (List Nat) :=
  accessLoop size memory virtualAddress size buffer 0 write createNewPageIfNecessary

/-! ## Accessors -/

/-- Source `ReadBlockAt`. -/
def ReadBlockAt (memory : PagedMemory) (virtualAddress size : Nat) : Outcome (List Nat) :=
  access memory virtualAddress size (List.replicate size 0) false true

/-- Source `ReadByteAt`. -/
def ReadByteAt (memory : PagedMemory) (virtualAddress : Nat) : Outcome Nat :=
  match access memory virtualAddress 1 (List.replicate 1 0) false true with
  | ⟨m, .ok buffer⟩ => ⟨m, .ok (buffer.getD 0 0)⟩
  | ⟨m, .error e⟩ => ⟨m, .error e⟩

/-- Source `ReadHalfWordAt`. -/
def ReadHalfWordAt (memory : PagedMemory) (virtualAddress : Nat) : Outcome Nat :=
  match access memory virtualAddress 2 (List.replicate 2 0) false true with
  | ⟨m, .ok buffer⟩ => ⟨m, .ok (ByteOrder.Uint memory.LittleEndian buffer)⟩
  | ⟨m, .error e⟩ => ⟨m, .error e⟩

/-- Source `ReadWordAt`. -/
def ReadWordAt (memory : PagedMemory) (virtualAddress : Nat) : Outcome Nat :=
  match access memory virtualAddress 4 (List.replicate 4 0) false true with
  | ⟨m, .ok buffer⟩ => ⟨m, .ok (ByteOrder.Uint memory.LittleEndian buffer)⟩
  | ⟨m, .error e⟩ => ⟨m, .error e⟩

/-- Source `ReadDoubleWordAt`. -/
def ReadDoubleWordAt (memory : PagedMemory) (virtualAddress : Nat) : Outcome Nat :=
  match access memory virtualAddress 8 (List.replicate 8 0) false true with
  | ⟨m, .ok buffer⟩ => ⟨m, .ok (ByteOrder.Uint memory.LittleEndian buffer)⟩
  | ⟨m, .error e⟩ => ⟨m, .error e⟩

/-- The part of a write that follows `access`: nothing is returned. -/
def discard (r : Outcome (List Nat)) : Outcome Unit :=
  match r with
  | ⟨m, .ok _⟩ => ⟨m, .ok ()⟩
  | ⟨m, .error e⟩ => ⟨m, .error e⟩

/-- Source `WriteByteAt`. -/
def WriteByteAt (memory : PagedMemory) (virtualAddress data : Nat) : Outcome Unit :=
  discard (access memory virtualAddress 1 [data] true true)

/-- Source `WriteHalfWordAt`. -/
def WriteHalfWordAt (memory : PagedMemory) (virtualAddress data : Nat) : Outcome Unit :=
  discard (access memory virtualAddress 2 (ByteOrder.PutUint16 memory.LittleEndian data) true true)

/-- Source `WriteWordAt`. -/
def WriteWordAt (memory : PagedMemory) (virtualAddress data : Nat) : Outcome Unit :=
  discard (access memory virtualAddress 4 (ByteOrder.PutUint32 memory.LittleEndian data) true true)

/-- Source `WriteDoubleWordAt`. -/
def WriteDoubleWordAt (memory : PagedMemory) (virtualAddress data : Nat) : Outcome Unit :=
  discard (access memory virtualAddress 8 (ByteOrder.PutUint64 memory.LittleEndian data) true true)

/-- Source `WriteBlockAt`. -/
def WriteBlockAt (memory : PagedMemory) (virtualAddress size : Nat) (data : List Nat) :
    Outcome Unit :=
  discard (access memory virtualAddress size data true true)

/-! ## Map, Unmap, Remap -/

/-- The page count computed at the head of `Map`'s first loop, in `uint32` arithmetic. -/
def pageCount (virtualAddress size : Nat) : Nat :=
  u32 (GetTag (u32 (virtualAddress + size + 4294967296 - 1)) + 4294967296 - GetTag virtualAddress)
    / pageSize + 1

/-- The first loop of `Map`: the search for a run of unmapped pages. It changes nothing. -/
def mapSearch : Nat → PagedMemory → Nat → Nat → Nat → Except Fault (Nat × Nat)
  | 0, _, _, _, _ => .error Fault.OutOfFuel
  | fuel + 1, memory, count, tagStart, tagEnd =>
    if tagEnd = 0 then .error Fault.Unimplemented
    else if (GetPage memory tagEnd).isSome then
      mapSearch fuel memory count (u32 (tagEnd + pageSize)) (u32 (tagEnd + pageSize))
    else if u32 (tagEnd + 4294967296 - tagStart) / pageSize + 1 = count then
      .ok (tagStart, tagEnd)
    else mapSearch fuel memory count tagStart (u32 (tagEnd + pageSize))

/-- The second loop of `Map`: add the pages from `tag` to `tagEnd`. -/
def mapAdd : Nat → PagedMemory → Nat → Nat → Outcome Unit
  | 0, memory, _, _ => ⟨memory, .error Fault.OutOfFuel⟩
  | fuel + 1, memory, tag, tagEnd =>
    if tag ≤ tagEnd then
      if (GetPage memory tag).isSome then ⟨memory, .error Fault.Impossible⟩
      else mapAdd fuel (addPage memory tag).1 (u32 (tag + pageSize)) tagEnd
    else ⟨memory, .ok ()⟩

/-- The step budget of the loops of `Map`: each visits a page of the 2^20 at every step. -/
def mapFuel : Nat := 1048578

/-- Source `Map`. -/
def Map (memory : PagedMemory) (virtualAddress size : Nat) : Outcome Nat :=
  match mapSearch mapFuel memory (pageCount virtualAddress size)
          (GetTag virtualAddress) (GetTag virtualAddress) with
  | .error e => ⟨memory, .error e⟩
  | .ok (tagStart, tagEnd) =>
    match mapAdd mapFuel memory tagStart tagEnd with
    | ⟨memory1, .error e⟩ => ⟨memory1, .error e⟩
    | ⟨memory1, .ok _⟩ => ⟨memory1, .ok tagStart⟩

/-- The loop of `Unmap`; `none` when the budget is spent before the loop ends. -/
def unmapLoop : Nat → PagedMemory → Nat → Nat → Option PagedMemory
  | 0, _, _, _ => none
  | fuel + 1, memory, tag, tagEnd =>
    if tag ≤ tagEnd then unmapLoop fuel (removePage memory tag) (u32 (tag + pageSize)) tagEnd
    else some memory

/-- Source `Unmap`, run for at most `fuel` steps of its loop. -/
def Unmap (fuel : Nat) (memory : PagedMemory) (virtualAddress size : Nat) : Option PagedMemory :=
  unmapLoop fuel memory (GetTag virtualAddress)
    (GetTag (u32 (virtualAddress + size + 4294967296 - 1)))

/-- Source `Remap`: `int32(start) != -1` is `start != 0xFFFFFFFF`. -/
def Remap (memory : PagedMemory) (_oldAddr _oldSize newSize : Nat) : Outcome Nat :=
  match Map memory 0 newSize with
  | ⟨memory1, .error e⟩ => ⟨memory1, .error e⟩
  | ⟨memory1, .ok start⟩ =>
    if start ≠ 4294967295 then ⟨memory1, .error Fault.NotSupported⟩
    else ⟨memory1, .ok start⟩

/-- The byte stored at an address: that of its page, and 0 where no page is mapped. -/
def byteAt (memory : PagedMemory) (x : Nat) : Nat :=
  match GetPage memory x with
  | none => 0
  | some page => page.Buffer (GetDisplacement x)

/-- Whether the page of index `i` is mapped. -/
def mapped (memory : PagedMemory) (i : Nat) : Bool := (memory.Pages i).isSome

/-- What a read leaves behind: the pages touched by the `n` bytes from `a` are mapped, the pages
mapped before are untouched, no stored byte changes, and nothing at all changes when every page
touched was already mapped. -/
def ReadEffect (m m1 : PagedMemory) (a n : Nat) : Prop :=
  (∀ i, mapped m1 i = true ↔ mapped m i = true ∨ ∃ k, k < n ∧ i = GetIndex (u32 (a + k))) ∧
  (∀ i p, m.Pages i = some p → m1.Pages i = some p) ∧
  (∀ x, byteAt m1 x = byteAt m x) ∧
  ((∀ k, k < n → mapped m (GetIndex (u32 (a + k))) = true) → m1 = m)

/-! ## The out-of-order thread (`cpu/static_inst_meta.go`, `cpu/ooo_fu.go`, `cpu/thread_ooo.go`)

Objects that the source reaches through pointers are identified here by numbers: a physical
register by its file and its index in the file, a reorder-buffer or load/store-queue entry by the
number under which the thread state stores it, a register dependency by its address. A nil
pointer is `none`. -/

namespace Cpu

/-- The ways a call of the thread can fail: the explicit panic of the source, the run-time panics
of an index out of range and of a nil pointer, the failure of an allocation without a free
register that the spec names, and the exhaustion of the step budget of a loop. -/
inductive Panic where
  | Impossible
  | IndexOutOfRange
  | NilPointer
  | NoFreePhysReg
  | OutOfFuel
  deriving DecidableEq, Repr

/-! ### Register dependencies (`static_inst_meta.go`) -/

/-- The three constants of type `RegisterDependencyType`; no other string is a value of the
type here, so the `default` branches of the source that panic on one are not reached. -/
inductive RegisterDependencyType where
  | INT
  | FP
  | MISC
  deriving DecidableEq, Repr

/-- Source `RegisterDependency`. -/
structure RegisterDependency where
  DependencyType : RegisterDependencyType
  Num : Nat
  deriving DecidableEq, Repr

/-- Source `NewRegisterDependency`: the object that it makes. The pointer that the source returns
is a `DependencyRef` to this object, with the address of the new object. -/
def NewRegisterDependency (dependencyType : RegisterDependencyType) (num : Nat) :
    RegisterDependency :=
  { DependencyType := dependencyType, Num := num }

/-- Source `NewRegisterDependencyFromInt`; the constants `regs.NUM_INT_REGISTERS` and
`regs.NUM_FP_REGISTERS`, declared outside the sources, are parameters. The subtractions are made
in branches where they do not wrap. -/
def NewRegisterDependencyFromInt (NUM_INT_REGISTERS NUM_FP_REGISTERS i : Nat) :
    RegisterDependency :=
  if i < NUM_INT_REGISTERS then
    NewRegisterDependency .INT i
  else if i < NUM_INT_REGISTERS + NUM_FP_REGISTERS then
    NewRegisterDependency .FP (i - NUM_INT_REGISTERS)
  else
    NewRegisterDependency .MISC (i - NUM_INT_REGISTERS - NUM_FP_REGISTERS)

/-- Source `RegisterDependency.ToInt`, the additions being made in `uint32`. -/
def RegisterDependency.ToInt (NUM_INT_REGISTERS NUM_FP_REGISTERS : Nat)
    (registerDependency : RegisterDependency) : Nat :=
  match registerDependency.DependencyType with
  | .INT => registerDependency.Num
  | .FP => u32 (NUM_INT_REGISTERS + registerDependency.Num)
  | .MISC => u32 (NUM_INT_REGISTERS + NUM_FP_REGISTERS + registerDependency.Num)

/-- A pointer to a register dependency (`*RegisterDependency`): the object pointed to, which the
source never changes once it is made, and `Address`, the identity of the object. Two pointers are
the same when they point to the same object; every call of `NewRegisterDependency` makes a new
object, so two objects of the same class and number are behind two different pointers. The maps
of the source that have such pointers as keys hold one entry for each object. -/
structure DependencyRef extends RegisterDependency where
  Address : Nat
  deriving DecidableEq, Repr

/-! ### Instructions -/

/-- The constants of type `StaticInstType`. -/
inductive StaticInstType where
  | INT_COMP
  | FP_COMP
  | COND
  | UNCOND
  | LD
  | ST
  | FUNC_CALL
  | FUNC_RET
  | TRAP
  | NOP
  deriving DecidableEq, Repr

/-- Modelled from the spec: `StaticInstType.IsLoadOrStore`, absent from the sources; the type is
`LD` or `ST`. -/
def StaticInstType.IsLoadOrStore (t : StaticInstType) : Bool :=
  t = .LD || t = .ST

/-- Modelled from the spec: `StaticInstType.IsControl`, absent from the sources; the type is
`COND`, `UNCOND`, `FUNC_CALL` or `FUNC_RET`. -/
def StaticInstType.IsControl (t : StaticInstType) : Bool :=
  t = .COND || t = .UNCOND || t = .FUNC_CALL || t = .FUNC_RET

/-- Modelled from the spec: the mnemonic of a static instruction, of which the thread reads the
type only. -/
structure Mnemonic where
  StaticInstType : StaticInstType
  deriving DecidableEq, Repr

/-- Modelled from the spec: the static instruction descriptor, absent from the sources. Its
dependencies are pointers, as `RegisterRenameOne` uses them as keys of the rename table. The map
`NumPhysicalRegistersToAllocate` is the list of its key and value pairs. -/
structure StaticInst where
  Mnemonic : Mnemonic
  InputDependencies : List DependencyRef
  OutputDependencies : List DependencyRef
  NumPhysicalRegistersToAllocate : List (RegisterDependencyType × Nat)
  deriving DecidableEq, Repr

/-- Modelled from the spec: the dynamic instruction, absent from the sources; `Id` stands for the
identity of the object. -/
structure DynamicInst where
  Id : Nat
  Pc : Nat
  StaticInst : StaticInst
  EffectiveAddress : Int
  deriving DecidableEq, Repr

/-! ### Physical registers -/

/-- Modelled from the spec: the states of a physical register. -/
inductive PhysicalRegisterState where
  | AVAILABLE
  | ARCH_REGISTER
  | RENAME_BUFFER
  | RENAME_BUFFER_BUT_NOT_READY
  deriving DecidableEq, Repr

/-- A pointer to a reorder-buffer entry or to a load/store-queue entry. -/
inductive EntryRef where
  | rob (id : Nat)
  | lsq (id : Nat)
  deriving DecidableEq, Repr

/-- A pointer to a physical register: its file and its index in the file. -/
structure PhysRegRef where
  File : RegisterDependencyType
  Index : Nat
  deriving DecidableEq, Repr

/-- Modelled from the spec: a physical register, absent from the sources: its state, the logical
register it is reserved for, its ready flag and its three wakeup lists. -/
structure PhysicalRegister where
  State : PhysicalRegisterState
  Dependency : Option DependencyRef
  Ready : Bool
  Dependents : List EntryRef
  EffectiveAddressComputationOperandDependents : List EntryRef
  StoreAddressDependents : List EntryRef
  deriving DecidableEq, Repr

/-- Modelled from the spec: a physical register file, absent from the sources: `Capacity`
registers and the count of the free ones. -/
structure PhysicalRegisterFile where
  Capacity : Nat
  PhysicalRegisters : Nat → PhysicalRegister
  NumFreePhysicalRegisters : Nat

/-- Modelled from the spec: `PhysicalRegisterFile.Allocate`, absent from the sources. It returns a
free register, here the one of least index, marked `RENAME_BUFFER_BUT_NOT_READY` and bound to the
logical register, and fails with `NoFreePhysReg` when no register is free. -/
def PhysicalRegisterFile.Allocate (file : PhysicalRegisterFile) (dependency : DependencyRef) :
    Except Panic (PhysicalRegisterFile × Nat) :=
  match (List.range file.Capacity).find?
      (fun i => (file.PhysicalRegisters i).State = .AVAILABLE) with
  | none => .error .NoFreePhysReg
  | some index =>
    .ok ({ file with
            PhysicalRegisters := fun i =>
              if i = index then
                { file.PhysicalRegisters index with
                    State := .RENAME_BUFFER_BUT_NOT_READY,
                    Dependency := some dependency,
                    Ready := false }
              else file.PhysicalRegisters i,
            NumFreePhysicalRegisters := file.NumFreePhysicalRegisters - 1 },
         index)

/-- Modelled from the spec: `PhysicalRegister.Reserve`, absent from the sources, which binds a
register to the logical register it holds from the start, as committed. -/
def PhysicalRegisterFile.Reserve (file : PhysicalRegisterFile) (index : Nat)
    (dependency : DependencyRef) : PhysicalRegisterFile :=
  { file with
      PhysicalRegisters := fun i =>
        if i = index then
          { file.PhysicalRegisters index with
              State := .ARCH_REGISTER, Dependency := some dependency, Ready := true }
        else file.PhysicalRegisters i,
      NumFreePhysicalRegisters := file.NumFreePhysicalRegisters - 1 }

/-- Modelled from the spec: `PhysicalRegister.Commit`, absent from the sources: the register
becomes `ARCH_REGISTER`. -/
def PhysicalRegisterFile.Commit (file : PhysicalRegisterFile) (index : Nat) :
    PhysicalRegisterFile :=
  { file with
      PhysicalRegisters := fun i =>
        if i = index then { file.PhysicalRegisters index with State := .ARCH_REGISTER }
        else file.PhysicalRegisters i }

/-- Modelled from the spec: `PhysicalRegister.Reclaim`, absent from the sources: the register
returns to `AVAILABLE` and its wakeup lists are cleared; reclaiming an `AVAILABLE` register is a
fatal assertion. -/
def PhysicalRegisterFile.Reclaim (file : PhysicalRegisterFile) (index : Nat) :
    Except Panic PhysicalRegisterFile :=
  if (file.PhysicalRegisters index).State = .AVAILABLE then .error .Impossible
  else
    .ok { file with
            PhysicalRegisters := fun i =>
              if i = index then
                { file.PhysicalRegisters index with
                    State := .AVAILABLE,
                    Dependents := [],
                    EffectiveAddressComputationOperandDependents := [],
                    StoreAddressDependents := [] }
              else file.PhysicalRegisters i,
            NumFreePhysicalRegisters := file.NumFreePhysicalRegisters + 1 }

/-- Modelled from the spec: `PhysicalRegister.Recover`, absent from the sources: an allocated
register returns to `AVAILABLE`, without waking its dependents. -/
def PhysicalRegisterFile.Recover (file : PhysicalRegisterFile) (index : Nat) :
    PhysicalRegisterFile :=
  { file with
      PhysicalRegisters := fun i =>
        if i = index then { file.PhysicalRegisters index with State := .AVAILABLE }
        else file.PhysicalRegisters i,
      NumFreePhysicalRegisters := file.NumFreePhysicalRegisters + 1 }

/-- A Go map from pointers to register dependencies to physical registers
(`map[*RegisterDependency]*PhysicalRegister`), as the list of its keys, in the order of their
first insertion, each with its value. -/
structure RegMap where
  entries : List (DependencyRef × Option PhysRegRef)
  deriving DecidableEq, Repr

/-- The empty map. -/
def RegMap.empty : RegMap := { entries := [] }

/-- The value `m[k]`, nil when the key is absent. -/
def RegMap.get (m : RegMap) (k : DependencyRef) : Option PhysRegRef :=
  match m.entries.find? (fun p => p.1 = k) with
  | some p => p.2
  | none => none

/-- The assignment `m[k] = v`. -/
def RegMap.set (m : RegMap) (k : DependencyRef) (v : Option PhysRegRef) : RegMap :=
  if m.entries.any (fun p => p.1 = k) then
    { entries := m.entries.map (fun p => if p.1 = k then (k, v) else p) }
  else { entries := m.entries ++ [(k, v)] }

/-! ### Functional units (`ooo_fu.go`) -/

/-- The constants of type `FUType`. -/
inductive FUType where
  | INT_ALU
  | INT_MULT_DIV
  | FP_ADD
  | FP_MULT_DIV
  | MEM_PORT
  deriving DecidableEq, Repr

/-- The constants of type `FUOperationType`. -/
inductive FUOperationType where
  | NONE
  | INT_ALU
  | INT_MULT
  | INT_DIV
  | FP_ADD
  | FP_CMP
  | FP_CVT
  | FP_MULT
  | FP_DIV
  | FP_SQRT
  | READ_PORT
  | WRITE_PORT
  deriving DecidableEq, Repr

/-- Source `FUOperation`. -/
structure FUOperation where
  OperationLatency : Nat
  IssueLatency : Nat
  deriving DecidableEq, Repr

/-- Source `FUDescriptor`; the map `Operations` gives the operation of each key, if any. -/
structure FUDescriptor where
  FUType : FUType
  Quantity : Nat
  NumFree : Nat
  Operations : FUOperationType → Option FUOperation

/-- Source `FUDescriptor.ReleaseAll`. -/
def FUDescriptor.ReleaseAll (fuDescriptor : FUDescriptor) : FUDescriptor :=
  { fuDescriptor with NumFree := fuDescriptor.Quantity }

/-- Source `FUPool`, its four maps giving the value of each key, if any. -/
structure FUPool where
  Descriptors : FUType → Option FUDescriptor
  FUOperationToFUTypes : FUOperationType → Option FUType
  NumStallsOnNoFreeFU : FUType → Option Int
  NumStallsOnAcquireFailedOnNoFreeFU : FUOperationType → Option Int

/-- Modelled from the spec: `FUPool.ReleaseAll`, absent from the sources: every descriptor is
restored to full. -/
def FUPool.ReleaseAll (fuPool : FUPool) : FUPool :=
  { fuPool with Descriptors := fun t => (fuPool.Descriptors t).map FUDescriptor.ReleaseAll }

/-! ### Pipeline buffers and their entries -/

/-- Modelled from the spec: a pipeline buffer, absent from the sources: a bounded queue. -/
structure PipelineBuffer (α : Type) where
  Size : Nat
  Entries : List α

/-- Modelled from the spec: `PipelineBuffer.Full`. -/
def PipelineBuffer.Full {α : Type} (buffer : PipelineBuffer α) : Bool :=
  decide (buffer.Size ≤ buffer.Entries.length)

/-- Modelled from the spec: `PipelineBuffer.Empty`. -/
def PipelineBuffer.Empty {α : Type} (buffer : PipelineBuffer α) : Bool :=
  buffer.Entries.isEmpty

/-- Modelled from the spec: an entry of the decode buffer, absent from the sources. -/
structure DecodeBufferEntry where
  DynamicInst : DynamicInst
  Npc : Nat
  Nnpc : Nat
  PredictedNnpc : Nat
  ReturnAddressStackRecoverTop : Nat
  BranchPredictorUpdate : Option Nat
  Speculative : Bool
  deriving DecidableEq, Repr

/-- Modelled from the spec: an entry of the reorder buffer, absent from the sources;
`LoadStoreBufferEntry` is the pointer to the paired entry of the load/store queue. -/
structure ReorderBufferEntry where
  DynamicInst : DynamicInst
  Npc : Nat
  Nnpc : Nat
  PredictedNnpc : Nat
  ReturnAddressStackRecoverTop : Nat
  BranchPredictorUpdate : Option Nat
  Speculative : Bool
  Dispatched : Bool
  Issued : Bool
  Completed : Bool
  Squashed : Bool
  NumNotReadyOperands : Nat
  SourcePhysicalRegisters : RegMap
  OldPhysicalRegisters : RegMap
  TargetPhysicalRegisters : RegMap
  EffectiveAddressComputation : Bool
  EffectiveAddressComputationOperandReady : Bool
  LoadStoreBufferEntry : Option Nat
  deriving DecidableEq, Repr

/-- Modelled from the spec: `NewReorderBufferEntry`: no flag set, no operand counted, empty maps. -/
def NewReorderBufferEntry (dynamicInst : DynamicInst) (npc nnpc predictedNnpc
    returnAddressStackRecoverTop : Nat) (branchPredictorUpdate : Option Nat) (speculative : Bool) :
    ReorderBufferEntry :=
  { DynamicInst := dynamicInst, Npc := npc, Nnpc := nnpc, PredictedNnpc := predictedNnpc,
    ReturnAddressStackRecoverTop := returnAddressStackRecoverTop,
    BranchPredictorUpdate := branchPredictorUpdate, Speculative := speculative,
    Dispatched := false, Issued := false, Completed := false, Squashed := false,
    NumNotReadyOperands := 0, SourcePhysicalRegisters := RegMap.empty,
    OldPhysicalRegisters := RegMap.empty, TargetPhysicalRegisters := RegMap.empty,
    EffectiveAddressComputation := false, EffectiveAddressComputationOperandReady := false,
    LoadStoreBufferEntry := none }

/-- Modelled from the spec: `ReorderBufferEntry.AllOperandReady`: no operand is counted as not
ready. -/
def ReorderBufferEntry.AllOperandReady (entry : ReorderBufferEntry) : Bool :=
  entry.NumNotReadyOperands = 0

/-- Modelled from the spec: an entry of the load/store queue, absent from the sources. -/
structure LoadStoreQueueEntry where
  DynamicInst : DynamicInst
  Npc : Nat
  Nnpc : Nat
  PredictedNnpc : Nat
  ReturnAddressStackRecoverTop : Nat
  BranchPredictorUpdate : Option Nat
  Speculative : Bool
  Dispatched : Bool
  Issued : Bool
  Completed : Bool
  Squashed : Bool
  NumNotReadyOperands : Nat
  SourcePhysicalRegisters : RegMap
  OldPhysicalRegisters : RegMap
  TargetPhysicalRegisters : RegMap
  EffectiveAddress : Int
  StoreAddressReady : Bool
  deriving DecidableEq, Repr

/-- Modelled from the spec: `NewLoadStoreQueueEntry`: no flag set, no operand counted, empty
maps. -/
def NewLoadStoreQueueEntry (dynamicInst : DynamicInst) (npc nnpc predictedNnpc
    returnAddressStackRecoverTop : Nat) (branchPredictorUpdate : Option Nat) (speculative : Bool) :
    LoadStoreQueueEntry :=
  { DynamicInst := dynamicInst, Npc := npc, Nnpc := nnpc, PredictedNnpc := predictedNnpc,
    ReturnAddressStackRecoverTop := returnAddressStackRecoverTop,
    BranchPredictorUpdate := branchPredictorUpdate, Speculative := speculative,
    Dispatched := false, Issued := false, Completed := false, Squashed := false,
    NumNotReadyOperands := 0, SourcePhysicalRegisters := RegMap.empty,
    OldPhysicalRegisters := RegMap.empty, TargetPhysicalRegisters := RegMap.empty,
    EffectiveAddress := 0, StoreAddressReady := false }

/-- Modelled from the spec: `LoadStoreQueueEntry.AllOperandReady`: no operand is counted as not
ready. -/
def LoadStoreQueueEntry.AllOperandReady (entry : LoadStoreQueueEntry) : Bool :=
  entry.NumNotReadyOperands = 0

/-! ### The surroundings of the thread -/

/-- Modelled from the spec: the states of a context. -/
inductive ContextState where
  | RUNNING
  | BLOCKED
  | FINISHED
  deriving DecidableEq, Repr

/-- Modelled from the spec: the program counters of a register set. -/
structure Regs where
  Pc : Nat
  Npc : Nat
  Nnpc : Nat
  deriving DecidableEq, Repr

/-- Modelled from the spec: the context, absent from the sources: its state, its speculative flag,
the architected registers and the registers of the speculative path. -/
structure Context where
  State : ContextState
  Speculative : Bool
  ArchitectedRegs : Regs
  SpeculativeRegs : Regs
  deriving DecidableEq, Repr

/-- Modelled from the spec: `Context.Regs`: the architected registers outside speculation. -/
def Context.Regs (context : Context) : Regs :=
  if context.Speculative then context.SpeculativeRegs else context.ArchitectedRegs

/-- Modelled from the spec: `Context.ExitSpeculativeState`. -/
def Context.ExitSpeculativeState (context : Context) : Context :=
  { context with Speculative := false }

/-- One call of `BranchPredictor.Update`, with its arguments. -/
structure BranchUpdate where
  Pc : Nat
  Nnpc : Nat
  Taken : Bool
  Correct : Bool
  Mnemonic : Mnemonic
  BranchPredictorUpdate : Option Nat
  deriving DecidableEq, Repr

/-- Modelled from the spec: the branch predictor, of which the thread uses the top of the return
address stack, set by `ReturnAddressStack.Recover`, and `Update`, whose calls are recorded. -/
structure BranchPredictor where
  ReturnAddressStackTop : Nat
  Updates : List BranchUpdate
  deriving DecidableEq, Repr

/-- Modelled from the spec: the core, absent from the sources, as far as the thread uses it: the
five queues, the pool of functional units, the commit width of the configuration and the current
cycle of the event queue. -/
structure Core where
  ReadyInstructionQueue : List EntryRef
  WaitingInstructionQueue : List EntryRef
  ReadyLoadQueue : List EntryRef
  WaitingStoreQueue : List EntryRef
  ReadyStoreQueue : List EntryRef
  FUPool : FUPool
  CommitWidth : Nat
  CurrentCycle : Int

/-- Modelled from the spec: `Core.RemoveFromQueues`: the entry is removed from all queues. -/
def Core.RemoveFromQueues (core : Core) (entry : Option EntryRef) : Core :=
  { core with
      ReadyInstructionQueue := core.ReadyInstructionQueue.filter (fun e => some e ≠ entry),
      WaitingInstructionQueue := core.WaitingInstructionQueue.filter (fun e => some e ≠ entry),
      ReadyLoadQueue := core.ReadyLoadQueue.filter (fun e => some e ≠ entry),
      WaitingStoreQueue := core.WaitingStoreQueue.filter (fun e => some e ≠ entry),
      ReadyStoreQueue := core.ReadyStoreQueue.filter (fun e => some e ≠ entry) }

/-! ### The thread -/

/-- Source `OoOThread`, with what it reaches through `Core()` and `Context()`. The rename table
gives the value under each key, nil when the pointer is not a key of the map. The entries of the
reorder buffer and of the load/store queue are objects shared by pointer: the buffers and queues
hold their numbers, `robEntries` and `lsqEntries` hold the objects, and `nextEntry` is the number
of the next object created. -/
structure OoOThread where
  BranchPredictor : BranchPredictor
  IntPhysicalRegs : PhysicalRegisterFile
  FpPhysicalRegs : PhysicalRegisterFile
  MiscPhysicalRegs : PhysicalRegisterFile
  RenameTable : DependencyRef → Option PhysRegRef
  DecodeBuffer : PipelineBuffer DecodeBufferEntry
  ReorderBuffer : PipelineBuffer Nat
  LoadStoreQueue : PipelineBuffer Nat
  FetchNpc : Nat
  FetchNnpc : Nat
  lastDecodedDynamicInst : Option Nat
  lastDecodedDynamicInstCommitted : Bool
  LastCommitCycle : Int
  NoDynamicInstCommittedCounterThreshold : Nat
  numDynamicInsts : Nat
  Core : Core
  Context : Context
  robEntries : Nat → ReorderBufferEntry
  lsqEntries : Nat → LoadStoreQueueEntry
  nextEntry : Nat

/-- The result of a call: the thread as the call leaves it and the value returned or the panic. -/
structure Outcome (α : Type) where
  thread : OoOThread
  res : Except Panic α

/-- Source `OoOThread.GetPhysicalRegisterFile`. -/
def OoOThread.GetPhysicalRegisterFile (thread : OoOThread)
    (dependencyType : RegisterDependencyType) : PhysicalRegisterFile :=
  match dependencyType with
  | .INT => thread.IntPhysicalRegs
  | .FP => thread.FpPhysicalRegs
  | .MISC => thread.MiscPhysicalRegs

/-- The thread with one of its register files replaced. -/
def OoOThread.setPhysicalRegisterFile (thread : OoOThread)
    (dependencyType : RegisterDependencyType) (file : PhysicalRegisterFile) : OoOThread :=
  match dependencyType with
  | .INT => { thread with IntPhysicalRegs := file }
  | .FP => { thread with FpPhysicalRegs := file }
  | .MISC => { thread with MiscPhysicalRegs := file }

/-- The physical register behind a pointer. -/
def OoOThread.reg (thread : OoOThread) (r : PhysRegRef) : PhysicalRegister :=
  (thread.GetPhysicalRegisterFile r.File).PhysicalRegisters r.Index

/-- The thread with the physical register behind a pointer replaced. -/
def OoOThread.setReg (thread : OoOThread) (r : PhysRegRef) (p : PhysicalRegister) : OoOThread :=
  thread.setPhysicalRegisterFile r.File
    { thread.GetPhysicalRegisterFile r.File with
        PhysicalRegisters := fun i =>
          if i = r.Index then p else (thread.GetPhysicalRegisterFile r.File).PhysicalRegisters i }

/-! ### Construction -/

/-- Modelled from the spec: `NewPhysicalRegisterFile`, absent from the sources: every register is
free. -/
def NewPhysicalRegisterFile (capacity : Nat) : PhysicalRegisterFile :=
  { Capacity := capacity,
    PhysicalRegisters := fun _ =>
      { State := .AVAILABLE, Dependency := none, Ready := false, Dependents := [],
        EffectiveAddressComputationOperandDependents := [], StoreAddressDependents := [] },
    NumFreePhysicalRegisters := capacity }

/-- One of the three loops of `NewOoOThread`: the registers `0 .. n - 1` of a class are reserved
for the logical registers of the same numbers and entered in the rename table, each under the
pointer to a new object; `address` is the address of the next object made. -/
def reserveLoop (dependencyType : RegisterDependencyType) :
    List Nat → Nat → OoOThread → OoOThread
  | [], _, thread => thread
  | i :: rest, address, thread =>
    let dependency : DependencyRef :=
      { toRegisterDependency := NewRegisterDependency dependencyType i, Address := address }
    let thread1 := thread.setPhysicalRegisterFile dependencyType
      ((thread.GetPhysicalRegisterFile dependencyType).Reserve i dependency)
    reserveLoop dependencyType rest (address + 1)
      { thread1 with
          RenameTable := fun k =>
            if k = dependency then some { File := dependencyType, Index := i }
            else thread1.RenameTable k }

/-- Source `NewOoOThread`; the register counts `regs.NUM_INT_REGISTERS`, `regs.NUM_FP_REGISTERS`
and `regs.NUM_MISC_REGISTERS`, the sizes of the configuration and the core, context and branch
predictor, built elsewhere, are parameters. The keys of the rename table are pointers to objects
that the three loops make one after the other; `firstDependency` is the address of the first of
them, and no object made before or after has one of their addresses. -/
def NewOoOThread (NUM_INT_REGISTERS NUM_FP_REGISTERS NUM_MISC_REGISTERS : Nat)
    (PhysicalRegisterFileSize DecodeBufferSize ReorderBufferSize LoadStoreQueueSize : Nat)
    (core : Core) (context : Context) (branchPredictor : BranchPredictor)
    (firstDependency : Nat) : OoOThread :=
  let thread : OoOThread :=
    { BranchPredictor := branchPredictor,
      IntPhysicalRegs := NewPhysicalRegisterFile PhysicalRegisterFileSize,
      FpPhysicalRegs := NewPhysicalRegisterFile PhysicalRegisterFileSize,
      MiscPhysicalRegs := NewPhysicalRegisterFile PhysicalRegisterFileSize,
      RenameTable := fun _ => none,
      DecodeBuffer := { Size := DecodeBufferSize, Entries := [] },
      ReorderBuffer := { Size := ReorderBufferSize, Entries := [] },
      LoadStoreQueue := { Size := LoadStoreQueueSize, Entries := [] },
      FetchNpc := 0, FetchNnpc := 0,
      lastDecodedDynamicInst := none, lastDecodedDynamicInstCommitted := false,
      LastCommitCycle := 0, NoDynamicInstCommittedCounterThreshold := 0,
      numDynamicInsts := 0,
      Core := core, Context := context,
      robEntries := fun _ => NewReorderBufferEntry
        { Id := 0, Pc := 0,
          StaticInst := { Mnemonic := { StaticInstType := .NOP }, InputDependencies := [],
                          OutputDependencies := [], NumPhysicalRegistersToAllocate := [] },
          EffectiveAddress := 0 } 0 0 0 0 none false,
      lsqEntries := fun _ => NewLoadStoreQueueEntry
        { Id := 0, Pc := 0,
          StaticInst := { Mnemonic := { StaticInstType := .NOP }, InputDependencies := [],
                          OutputDependencies := [], NumPhysicalRegistersToAllocate := [] },
          EffectiveAddress := 0 } 0 0 0 0 none false,
      nextEntry := 0 }
  reserveLoop .MISC (List.range NUM_MISC_REGISTERS)
    (firstDependency + NUM_INT_REGISTERS + NUM_FP_REGISTERS)
    (reserveLoop .FP (List.range NUM_FP_REGISTERS) (firstDependency + NUM_INT_REGISTERS)
      (reserveLoop .INT (List.range NUM_INT_REGISTERS) firstDependency thread))

/-! ### The pool of functional units -/

/-- Source `NewFUDescriptor`. -/
def NewFUDescriptor (fuType : FUType) (quantity : Nat) : FUDescriptor :=
  { FUType := fuType, Quantity := quantity, NumFree := quantity, Operations := fun _ => none }

/-- Source `FUPool.AddFUDescriptor`. -/
def FUPool.AddFUDescriptor (fuPool : FUPool) (fuType : FUType) (quantity : Nat) : FUPool :=
  { fuPool with
      Descriptors := fun t =>
        if t = fuType then some (NewFUDescriptor fuType quantity) else fuPool.Descriptors t }

/-- Source `FUDescriptor.AddFUOperation`, called on the descriptor of the type `fuType` of the
pool: the operation is entered in the descriptor and its type in the pool. -/
def FUPool.AddFUOperation (fuPool : FUPool) (fuType : FUType)
    (fuOperationType : FUOperationType) (operationLatency issueLatency : Nat) : FUPool :=
  { fuPool with
      Descriptors := fun t =>
        if t = fuType then
          (fuPool.Descriptors fuType).map (fun fuDescriptor =>
            { fuDescriptor with
                Operations := fun o =>
                  if o = fuOperationType then
                    some { OperationLatency := operationLatency, IssueLatency := issueLatency }
                  else fuDescriptor.Operations o })
        else fuPool.Descriptors t,
      FUOperationToFUTypes := fun o =>
        if o = fuOperationType then (fuPool.Descriptors fuType).map (fun fuDescriptor =>
          fuDescriptor.FUType)
        else fuPool.FUOperationToFUTypes o }

/-- The list `FUTypes`. -/
def FUTypes : List FUType :=
  [.INT_ALU, .INT_MULT_DIV, .FP_ADD, .FP_MULT_DIV, .MEM_PORT]

/-- The list `FUOperationTypes`. -/
def FUOperationTypes : List FUOperationType :=
  [.NONE, .INT_ALU, .INT_MULT, .INT_DIV, .FP_ADD, .FP_CMP, .FP_CVT, .FP_MULT, .FP_DIV, .FP_SQRT,
   .READ_PORT, .WRITE_PORT]

/-- Source `NewFUPool`. -/
def NewFUPool : FUPool :=
  let fuPool0 : FUPool :=
    { Descriptors := fun _ => none, FUOperationToFUTypes := fun _ => none,
      NumStallsOnNoFreeFU := fun _ => none, NumStallsOnAcquireFailedOnNoFreeFU := fun _ => none }
  let fuPool1 := (fuPool0.AddFUDescriptor .INT_ALU 8).AddFUOperation .INT_ALU .INT_ALU 2 1
  let fuPool2 := ((fuPool1.AddFUDescriptor .INT_MULT_DIV 2).AddFUOperation .INT_MULT_DIV
    .INT_MULT 3 1).AddFUOperation .INT_MULT_DIV .INT_DIV 20 19
  let fuPool3 := (((fuPool2.AddFUDescriptor .FP_ADD 8).AddFUOperation .FP_ADD
    .FP_ADD 4 1).AddFUOperation .FP_ADD .FP_CMP 4 1).AddFUOperation .FP_ADD .FP_CVT 4 1
  let fuPool4 := (((fuPool3.AddFUDescriptor .FP_MULT_DIV 2).AddFUOperation .FP_MULT_DIV
    .FP_MULT 8 1).AddFUOperation .FP_MULT_DIV .FP_DIV 40 20).AddFUOperation .FP_MULT_DIV
    .FP_SQRT 80 40
  let fuPool5 := ((fuPool4.AddFUDescriptor .MEM_PORT 4).AddFUOperation .MEM_PORT
    .READ_PORT 1 1).AddFUOperation .MEM_PORT .WRITE_PORT 1 1
  { fuPool5 with
      NumStallsOnNoFreeFU := fun t =>
        if t ∈ FUTypes then some 0 else fuPool5.NumStallsOnNoFreeFU t,
      NumStallsOnAcquireFailedOnNoFreeFU := fun o =>
        if o ∈ FUOperationTypes then some 0
        else fuPool5.NumStallsOnAcquireFailedOnNoFreeFU o }

/-- Modelled from the spec: the pool together with the increments of `NumFree` that `acquire`
has scheduled on the event queue and that have not fired yet, counted by type of functional unit.
`FUPool.Acquire` and the event queue are absent from the sources. -/
structure FUPoolState where
  pool : FUPool
  pending : FUType → Nat

/-- Modelled from the spec: `acquire(op)`: it succeeds when `NumFree > 0` on the type that owns
the operation, decrements `NumFree`, schedules the increment that gives the unit back and returns
the operation latency; a failure increments the stall counter of the operation. -/
def FUPoolState.Acquire (s : FUPoolState) (fuOperationType : FUOperationType) :
    FUPoolState × Option Nat :=
  match s.pool.FUOperationToFUTypes fuOperationType with
  | none => (s, none)
  | some fuType =>
    match s.pool.Descriptors fuType with
    | none => (s, none)
    | some fuDescriptor =>
      if fuDescriptor.NumFree = 0 then
        ({ s with
            pool :=
              { s.pool with
                  NumStallsOnAcquireFailedOnNoFreeFU := fun o =>
                    if o = fuOperationType then
                      (s.pool.NumStallsOnAcquireFailedOnNoFreeFU o).map (fun n => n + 1)
                    else s.pool.NumStallsOnAcquireFailedOnNoFreeFU o } },
          none)
      else
        ({ pool :=
              { s.pool with
                  Descriptors := fun t =>
                    if t = fuType then
                      some { fuDescriptor with NumFree := fuDescriptor.NumFree - 1 }
                    else s.pool.Descriptors t },
            pending := fun t => if t = fuType then s.pending t + 1 else s.pending t },
          (fuDescriptor.Operations fuOperationType).map (fun o => o.OperationLatency))

/-- Modelled from the spec: the firing of an increment scheduled by `acquire` for a unit of the
type `fuType`, if one is pending: `NumFree++`, in `uint32`. -/
def FUPoolState.Fire (s : FUPoolState) (fuType : FUType) : FUPoolState :=
  if s.pending fuType = 0 then s
  else
    { pool :=
        { s.pool with
            Descriptors := fun t =>
              if t = fuType then
                (s.pool.Descriptors fuType).map (fun fuDescriptor =>
                  { fuDescriptor with NumFree := u32 (fuDescriptor.NumFree + 1) })
              else s.pool.Descriptors t },
      pending := fun t => if t = fuType then s.pending t - 1 else s.pending t }

/-- The steps that change the pool: `acquire`, the firing of a scheduled increment, and
`ReleaseAll`, which leaves the scheduled increments as they are. -/
inductive FUPoolStep where
  | acquire (fuOperationType : FUOperationType)
  | fire (fuType : FUType)
  | releaseAll
  deriving DecidableEq, Repr

/-- One step on the pool. -/
def FUPoolState.step (s : FUPoolState) : FUPoolStep → FUPoolState
  | .acquire fuOperationType => (s.Acquire fuOperationType).1
  | .fire fuType => s.Fire fuType
  | .releaseAll => { s with pool := s.pool.ReleaseAll }

/-- The pool reached from `NewFUPool` by a sequence of steps. -/
def FUPoolState.run (steps : List FUPoolStep) : FUPoolState :=
  steps.foldl FUPoolState.step { pool := NewFUPool, pending := fun _ => 0 }

/-! ### Rename -/

/-- The first loop of `RegisterRenameOne`: whether some register class has fewer free registers
than the instruction asks for. -/
def notEnoughFree (thread : OoOThread) (toAllocate : List (RegisterDependencyType × Nat)) : Bool :=
  toAllocate.any (fun p =>
    decide ((thread.GetPhysicalRegisterFile p.1).NumFreePhysicalRegisters < p.2))

/-- The loop of `RegisterRenameOne` over the input dependencies: the rename table is read under
the pointer that the instruction holds, and gives nil when that pointer is not one of its keys. -/
def renameInputs (thread : OoOThread) :
    List DependencyRef → ReorderBufferEntry → ReorderBufferEntry
  | [], entry => entry
  | inputDependency :: rest, entry =>
    renameInputs thread rest
      { entry with
          SourcePhysicalRegisters :=
            entry.SourcePhysicalRegisters.set inputDependency (thread.RenameTable inputDependency) }

/-- The loop of `RegisterRenameOne` over the output dependencies; the old register is read, and
the new one entered, under the pointer that the instruction holds. -/
def renameOutputs : List DependencyRef → OoOThread → ReorderBufferEntry →
    Outcome ReorderBufferEntry
  | [], thread, entry => ⟨thread, .ok entry⟩
  | outputDependency :: rest, thread, entry =>
    match (thread.GetPhysicalRegisterFile outputDependency.DependencyType).Allocate
        outputDependency with
    | .error p => ⟨thread, .error p⟩
    | .ok (file, index) =>
      let physReg : PhysRegRef := { File := outputDependency.DependencyType, Index := index }
      let thread1 := thread.setPhysicalRegisterFile outputDependency.DependencyType file
      renameOutputs rest
        { thread1 with
            RenameTable := fun k =>
              if k = outputDependency then some physReg else thread1.RenameTable k }
        { entry with
            OldPhysicalRegisters :=
              entry.OldPhysicalRegisters.set outputDependency
                (thread.RenameTable outputDependency),
            TargetPhysicalRegisters :=
              entry.TargetPhysicalRegisters.set outputDependency (some physReg) }

/-- The loop of `RegisterRenameOne` over the source registers of an entry: the entry is appended
to the dependents of every source register that is not ready; the result is the count of operands
not ready, raised by one for each of them. The loop over the sources of the paired entry of the
load/store queue is the same, without the count. -/
def markNotReady (entry : EntryRef) :
    List (DependencyRef × Option PhysRegRef) → OoOThread → Nat → Outcome Nat
  | [], thread, n => ⟨thread, .ok n⟩
  | (_, none) :: _, thread, _ => ⟨thread, .error .NilPointer⟩
  | (_, some sourcePhysReg) :: rest, thread, n =>
    if (thread.reg sourcePhysReg).Ready then markNotReady entry rest thread n
    else
      markNotReady entry rest
        (thread.setReg sourcePhysReg
          { thread.reg sourcePhysReg with
              Dependents := (thread.reg sourcePhysReg).Dependents ++ [entry] })
        (n + 1)

/-- The part of `RegisterRenameOne` on the operand of the effective address computation: the
value is the flag `EffectiveAddressComputationOperandReady`. -/
def renameAddressOperand (thread : OoOThread) (id : Nat) (entry : ReorderBufferEntry) :
    Outcome Bool :=
  if entry.EffectiveAddressComputation then
    match entry.DynamicInst.StaticInst.InputDependencies with
    | [] => ⟨thread, .error .IndexOutOfRange⟩
    | inputDependency :: _ =>
      match entry.SourcePhysicalRegisters.get inputDependency with
      | none => ⟨thread, .error .NilPointer⟩
      | some physReg =>
        if (thread.reg physReg).Ready then ⟨thread, .ok true⟩
        else
          ⟨thread.setReg physReg
              { thread.reg physReg with
                  EffectiveAddressComputationOperandDependents :=
                    (thread.reg physReg).EffectiveAddressComputationOperandDependents
                      ++ [.rob id] },
            .ok entry.EffectiveAddressComputationOperandReady⟩
  else ⟨thread, .ok entry.EffectiveAddressComputationOperandReady⟩

/-- The part of `RegisterRenameOne` that builds the paired entry of the load/store queue and
appends it to the queue; the value is the pointer that the entry of the reorder buffer keeps. -/
def renameLoadStore (thread : OoOThread) (decodeBufferEntry : DecodeBufferEntry) (id : Nat)
    (entry : ReorderBufferEntry) : Outcome (Option Nat) :=
  let dynamicInst := decodeBufferEntry.DynamicInst
  if dynamicInst.StaticInst.Mnemonic.StaticInstType.IsLoadOrStore then
    let loadStoreQueueEntry : LoadStoreQueueEntry :=
      { NewLoadStoreQueueEntry dynamicInst decodeBufferEntry.Npc decodeBufferEntry.Nnpc
          decodeBufferEntry.PredictedNnpc 0 none false with
        EffectiveAddress := dynamicInst.EffectiveAddress,
        SourcePhysicalRegisters := entry.SourcePhysicalRegisters,
        TargetPhysicalRegisters := entry.TargetPhysicalRegisters }
    match markNotReady (.lsq id) loadStoreQueueEntry.SourcePhysicalRegisters.entries thread 0 with
    | ⟨thread1, .error p⟩ => ⟨thread1, .error p⟩
    | ⟨thread1, .ok _⟩ =>
      let loadStoreQueueEntry1 :=
        { loadStoreQueueEntry with NumNotReadyOperands := entry.NumNotReadyOperands }
      match dynamicInst.StaticInst.InputDependencies with
      | [] => ⟨thread1, .error .IndexOutOfRange⟩
      | inputDependency :: _ =>
        match loadStoreQueueEntry1.SourcePhysicalRegisters.get inputDependency with
        | none => ⟨thread1, .error .NilPointer⟩
        | some storeAddressPhysReg =>
          let thread2 :=
            if (thread1.reg storeAddressPhysReg).Ready then thread1
            else
              thread1.setReg storeAddressPhysReg
                { thread1.reg storeAddressPhysReg with
                    StoreAddressDependents :=
                      (thread1.reg storeAddressPhysReg).StoreAddressDependents ++ [.lsq id] }
          let loadStoreQueueEntry2 :=
            if (thread1.reg storeAddressPhysReg).Ready then
              { loadStoreQueueEntry1 with StoreAddressReady := true }
            else loadStoreQueueEntry1
          ⟨{ thread2 with
              lsqEntries := fun i => if i = id then loadStoreQueueEntry2 else thread2.lsqEntries i,
              LoadStoreQueue :=
                { thread2.LoadStoreQueue with
                    Entries := thread2.LoadStoreQueue.Entries ++ [id] } },
            .ok (some id)⟩
  else ⟨thread, .ok none⟩

/-- The entry of the reorder buffer as `RegisterRenameOne` creates it, before its loops. -/
def renameNewEntry (decodeBufferEntry : DecodeBufferEntry) : ReorderBufferEntry :=
  { NewReorderBufferEntry decodeBufferEntry.DynamicInst decodeBufferEntry.Npc
      decodeBufferEntry.Nnpc decodeBufferEntry.PredictedNnpc
      decodeBufferEntry.ReturnAddressStackRecoverTop decodeBufferEntry.BranchPredictorUpdate
      decodeBufferEntry.Speculative with
    EffectiveAddressComputation :=
      decodeBufferEntry.DynamicInst.StaticInst.Mnemonic.StaticInstType.IsLoadOrStore }

/-- The end of `RegisterRenameOne`: the entry is appended to the reorder buffer and the last
entry of the decode buffer is cut off. -/
def renameFinish (thread : OoOThread) (id : Nat) (entry : ReorderBufferEntry) : OoOThread :=
  { thread with
      robEntries := fun i => if i = id then entry else thread.robEntries i,
      nextEntry := id + 1,
      ReorderBuffer :=
        { thread.ReorderBuffer with Entries := thread.ReorderBuffer.Entries ++ [id] },
      DecodeBuffer :=
        { thread.DecodeBuffer with
            Entries := thread.DecodeBuffer.Entries.take
              (thread.DecodeBuffer.Entries.length - 1) } }

/-- Source `OoOThread.RegisterRenameOne`. The new entry of the reorder buffer, and the entry of
the load/store queue paired with it, are the objects of number `nextEntry`. -/
def OoOThread.RegisterRenameOne (thread : OoOThread) : Outcome Bool :=
  match thread.DecodeBuffer.Entries with
  | [] => ⟨thread, .error .IndexOutOfRange⟩
  | decodeBufferEntry :: _ =>
    let dynamicInst := decodeBufferEntry.DynamicInst
    if notEnoughFree thread dynamicInst.StaticInst.NumPhysicalRegistersToAllocate then
      ⟨thread, .ok false⟩
    else if dynamicInst.StaticInst.Mnemonic.StaticInstType.IsLoadOrStore
        && thread.LoadStoreQueue.Full then
      ⟨thread, .ok false⟩
    else
      let id := thread.nextEntry
      let entry1 := renameInputs thread dynamicInst.StaticInst.InputDependencies
        (renameNewEntry decodeBufferEntry)
      match renameOutputs dynamicInst.StaticInst.OutputDependencies thread entry1 with
      | ⟨thread2, .error p⟩ => ⟨thread2, .error p⟩
      | ⟨thread2, .ok entry2⟩ =>
        match markNotReady (.rob id) entry2.SourcePhysicalRegisters.entries thread2
            entry2.NumNotReadyOperands with
        | ⟨thread3, .error p⟩ => ⟨thread3, .error p⟩
        | ⟨thread3, .ok n⟩ =>
          match renameAddressOperand thread3 id { entry2 with NumNotReadyOperands := n } with
          | ⟨thread4, .error p⟩ => ⟨thread4, .error p⟩
          | ⟨thread4, .ok operandReady⟩ =>
            match renameLoadStore thread4 decodeBufferEntry id
                { entry2 with
                    NumNotReadyOperands := n,
                    EffectiveAddressComputationOperandReady := operandReady } with
            | ⟨thread5, .error p⟩ => ⟨thread5, .error p⟩
            | ⟨thread5, .ok loadStoreBufferEntry⟩ =>
              ⟨renameFinish thread5 id
                  { entry2 with
                      NumNotReadyOperands := n,
                      EffectiveAddressComputationOperandReady := operandReady,
                      LoadStoreBufferEntry := loadStoreBufferEntry },
                .ok true⟩

/-! ### Dispatch -/

/-- The body of the loop of `DispatchOne` on an entry that is not dispatched (lines 300-340):
the thread as the call leaves it. -/
def dispatchEntry (id : Nat) (thread : OoOThread) : OoOThread :=
  let reorderBufferEntry := thread.robEntries id
  let core1 : Core :=
    if reorderBufferEntry.AllOperandReady then
      { thread.Core with
          ReadyInstructionQueue := thread.Core.ReadyInstructionQueue ++ [.rob id] }
    else
      { thread.Core with
          WaitingInstructionQueue := thread.Core.WaitingInstructionQueue ++ [.rob id] }
  let thread1 : OoOThread :=
    { thread with
        Core := core1,
        robEntries := fun i =>
          if i = id then { reorderBufferEntry with Dispatched := true }
          else thread.robEntries i }
  match reorderBufferEntry.LoadStoreBufferEntry with
  | none => thread1
  | some l =>
    let loadStoreQueueEntry := thread1.lsqEntries l
    let core2 : Core :=
      if loadStoreQueueEntry.DynamicInst.StaticInst.Mnemonic.StaticInstType = .ST then
        if loadStoreQueueEntry.AllOperandReady then
          { core1 with ReadyStoreQueue := core1.ReadyStoreQueue ++ [.lsq l] }
        else
          { core1 with WaitingStoreQueue := core1.WaitingStoreQueue ++ [.lsq l] }
      else core1
    { thread1 with
        Core := core2,
        lsqEntries := fun i =>
          if i = l then { loadStoreQueueEntry with Dispatched := true }
          else thread1.lsqEntries i }

/-- The loop of `DispatchOne` over the entries of the reorder buffer: the first entry that is not
dispatched is dispatched and the call returns `true`. -/
def dispatchLoop : List Nat → OoOThread → OoOThread × Bool
  | [], thread => (thread, false)
  | id :: rest, thread =>
    if (thread.robEntries id).Dispatched then dispatchLoop rest thread
    else (dispatchEntry id thread, true)

/-- Source `OoOThread.DispatchOne`. -/
def OoOThread.DispatchOne (thread : OoOThread) : OoOThread × Bool :=
  dispatchLoop thread.ReorderBuffer.Entries thread

/-! ### Refresh of the load/store queue -/

/-- The part of the loop of `RefreshLoadStoreQueue` on stores: `none` is the `break`, otherwise
the value is the list `stdUnknowns` after the entry. -/
def refreshStore (entry : LoadStoreQueueEntry) (stdUnknowns : List Int) : Option (List Int) :=
  if entry.DynamicInst.StaticInst.Mnemonic.StaticInstType = .ST then
    if entry.StoreAddressReady then none
    else if !entry.AllOperandReady then some (stdUnknowns ++ [entry.EffectiveAddress])
    else some (stdUnknowns.map (fun stdUnknown =>
      if stdUnknown = entry.EffectiveAddress then -1 else stdUnknown))
  else some stdUnknowns

/-- The part of the loop of `RefreshLoadStoreQueue` on loads: the ready load queue after the
entry. -/
def refreshLoad (id : Nat) (entry : LoadStoreQueueEntry) (stdUnknowns : List Int)
    (readyLoadQueue : List EntryRef) : List EntryRef :=
  if entry.DynamicInst.StaticInst.Mnemonic.StaticInstType = .LD && entry.Dispatched
      && !entry.Issued && !entry.Completed && entry.AllOperandReady then
    let foundInReadyLoadQueue := readyLoadQueue.any (fun readyLoad => readyLoad = .lsq id)
    let foundInStdUnknowns := stdUnknowns.any (fun stdUnknown =>
      stdUnknown = entry.EffectiveAddress)
    if !foundInReadyLoadQueue && !foundInStdUnknowns then readyLoadQueue ++ [.lsq id]
    else readyLoadQueue
  else readyLoadQueue

/-- The loop of `RefreshLoadStoreQueue` over the entries of the load/store queue. -/
def refreshLoop (lsqEntries : Nat → LoadStoreQueueEntry) :
    List Nat → List Int → List EntryRef → List EntryRef
  | [], _, readyLoadQueue => readyLoadQueue
  | id :: rest, stdUnknowns, readyLoadQueue =>
    match refreshStore (lsqEntries id) stdUnknowns with
    | none => readyLoadQueue
    | some stdUnknowns1 =>
      refreshLoop lsqEntries rest stdUnknowns1
        (refreshLoad id (lsqEntries id) stdUnknowns1 readyLoadQueue)

/-- Source `OoOThread.RefreshLoadStoreQueue`. -/
def OoOThread.RefreshLoadStoreQueue (thread : OoOThread) : OoOThread :=
  { thread with
      Core :=
        { thread.Core with
            ReadyLoadQueue :=
              refreshLoop thread.lsqEntries thread.LoadStoreQueue.Entries []
                thread.Core.ReadyLoadQueue } }

/-- The list `stdUnknowns` after the scan of some entries from the head of the queue, `none` when
the scan has ended at one of them. -/
def stdUnknownsAfter (lsqEntries : Nat → LoadStoreQueueEntry) :
    List Nat → List Int → Option (List Int)
  | [], stdUnknowns => some stdUnknowns
  | id :: rest, stdUnknowns =>
    match refreshStore (lsqEntries id) stdUnknowns with
    | none => none
    | some stdUnknowns1 => stdUnknownsAfter lsqEntries rest stdUnknowns1

/-! ### Commit and squash -/

/-- Source `OoOThread.removeFromLoadStoreQueue`. -/
def OoOThread.removeFromLoadStoreQueue (thread : OoOThread) (entryToRemove : Option Nat) :
    OoOThread :=
  { thread with
      LoadStoreQueue :=
        { thread.LoadStoreQueue with
            Entries := thread.LoadStoreQueue.Entries.filter (fun entry =>
              some entry ≠ entryToRemove) } }

/-- The loop of `Squash` over the output dependencies of an entry. -/
def squashOutputs (NUM_INT_REGISTERS NUM_FP_REGISTERS : Nat) (entry : ReorderBufferEntry) :
    List DependencyRef → OoOThread → Outcome Unit
  | [], thread => ⟨thread, .ok ()⟩
  | outputDependency :: rest, thread =>
    if outputDependency.ToInt NUM_INT_REGISTERS NUM_FP_REGISTERS ≠ 0 then
      match entry.TargetPhysicalRegisters.get outputDependency with
      | none => ⟨thread, .error .NilPointer⟩
      | some target =>
        let thread1 := thread.setPhysicalRegisterFile target.File
          ((thread.GetPhysicalRegisterFile target.File).Recover target.Index)
        squashOutputs NUM_INT_REGISTERS NUM_FP_REGISTERS entry rest
          { thread1 with
              RenameTable := fun k =>
                if k = outputDependency then entry.OldPhysicalRegisters.get outputDependency
                else thread1.RenameTable k }
    else squashOutputs NUM_INT_REGISTERS NUM_FP_REGISTERS entry rest thread

/-- The loop of `Squash`, from the youngest entry of the reorder buffer. -/
def squashLoop (NUM_INT_REGISTERS NUM_FP_REGISTERS : Nat) : Nat → OoOThread → Outcome Unit
  | 0, thread =>
    if thread.ReorderBuffer.Empty then ⟨thread, .ok ()⟩ else ⟨thread, .error .OutOfFuel⟩
  | fuel + 1, thread =>
    match thread.ReorderBuffer.Entries.getLast? with
    | none => ⟨thread, .ok ()⟩
    | some id =>
      let reorderBufferEntry := thread.robEntries id
      let thread1 : OoOThread :=
        if reorderBufferEntry.EffectiveAddressComputation then
          { thread with
              Core := thread.Core.RemoveFromQueues
                (reorderBufferEntry.LoadStoreBufferEntry.map EntryRef.lsq) }.removeFromLoadStoreQueue
            reorderBufferEntry.LoadStoreBufferEntry
        else thread
      let thread2 : OoOThread :=
        { thread1 with Core := thread1.Core.RemoveFromQueues (some (.rob id)) }
      match squashOutputs NUM_INT_REGISTERS NUM_FP_REGISTERS reorderBufferEntry
          reorderBufferEntry.DynamicInst.StaticInst.OutputDependencies thread2 with
      | ⟨thread3, .error p⟩ => ⟨thread3, .error p⟩
      | ⟨thread3, .ok _⟩ =>
        squashLoop NUM_INT_REGISTERS NUM_FP_REGISTERS fuel
          { thread3 with
              robEntries := fun i =>
                if i = id then { thread3.robEntries id with TargetPhysicalRegisters := RegMap.empty }
                else thread3.robEntries i,
              ReorderBuffer :=
                { thread3.ReorderBuffer with
                    Entries := thread3.ReorderBuffer.Entries.take
                      (thread3.ReorderBuffer.Entries.length - 1) } }

/-- Source `OoOThread.Squash`; each turn of its loop removes an entry of the reorder buffer, so
as many turns as the buffer has entries are enough. -/
def OoOThread.Squash (NUM_INT_REGISTERS NUM_FP_REGISTERS : Nat) (thread : OoOThread) :
    Outcome Unit :=
  match squashLoop NUM_INT_REGISTERS NUM_FP_REGISTERS thread.ReorderBuffer.Entries.length
      thread with
  | ⟨thread1, .error p⟩ => ⟨thread1, .error p⟩
  | ⟨thread1, .ok _⟩ =>
    if !thread1.ReorderBuffer.Empty || !thread1.LoadStoreQueue.Empty then
      ⟨thread1, .error .Impossible⟩
    else
      ⟨{ thread1 with
          Core := { thread1.Core with FUPool := thread1.Core.FUPool.ReleaseAll },
          DecodeBuffer := { thread1.DecodeBuffer with Entries := [] } },
        .ok ()⟩

/-- The loop of `Commit` over the output dependencies of an entry. -/
def commitOutputs (NUM_INT_REGISTERS NUM_FP_REGISTERS : Nat) (entry : ReorderBufferEntry) :
    List DependencyRef → OoOThread → Outcome Unit
  | [], thread => ⟨thread, .ok ()⟩
  | outputDependency :: rest, thread =>
    if outputDependency.ToInt NUM_INT_REGISTERS NUM_FP_REGISTERS ≠ 0 then
      match entry.OldPhysicalRegisters.get outputDependency with
      | none => ⟨thread, .error .NilPointer⟩
      | some old =>
        match (thread.GetPhysicalRegisterFile old.File).Reclaim old.Index with
        | .error p => ⟨thread, .error p⟩
        | .ok file =>
          let thread1 := thread.setPhysicalRegisterFile old.File file
          match entry.TargetPhysicalRegisters.get outputDependency with
          | none => ⟨thread1, .error .NilPointer⟩
          | some target =>
            commitOutputs NUM_INT_REGISTERS NUM_FP_REGISTERS entry rest
              (thread1.setPhysicalRegisterFile target.File
                ((thread1.GetPhysicalRegisterFile target.File).Commit target.Index))
    else commitOutputs NUM_INT_REGISTERS NUM_FP_REGISTERS entry rest thread

/-- The end of a turn of the loop of `Commit` (lines 449-479): the registers of the outputs are
reclaimed and committed, the branch predictor is updated, and the entry `id` leaves the queues of
the core and the head of the reorder buffer. -/
def commitRetire (NUM_INT_REGISTERS NUM_FP_REGISTERS : Nat) (id : Nat)
    (reorderBufferEntry : ReorderBufferEntry) (thread1 : OoOThread) : Outcome Bool :=
  match commitOutputs NUM_INT_REGISTERS NUM_FP_REGISTERS reorderBufferEntry
      reorderBufferEntry.DynamicInst.StaticInst.OutputDependencies thread1 with
  | ⟨thread2, .error p⟩ => ⟨thread2, .error p⟩
  | ⟨thread2, .ok _⟩ =>
    let branchPredictor : BranchPredictor :=
      if reorderBufferEntry.DynamicInst.StaticInst.Mnemonic.StaticInstType.IsControl then
        { thread2.BranchPredictor with
            Updates := thread2.BranchPredictor.Updates ++
              [{ Pc := reorderBufferEntry.DynamicInst.Pc,
                 Nnpc := reorderBufferEntry.Nnpc,
                 Taken := decide (reorderBufferEntry.Nnpc ≠ u32 (reorderBufferEntry.Npc + 4)),
                 Correct := decide (reorderBufferEntry.PredictedNnpc = reorderBufferEntry.Nnpc),
                 Mnemonic := reorderBufferEntry.DynamicInst.StaticInst.Mnemonic,
                 BranchPredictorUpdate := reorderBufferEntry.BranchPredictorUpdate }] }
      else thread2.BranchPredictor
    ⟨{ thread2 with
        BranchPredictor := branchPredictor,
        Core := thread2.Core.RemoveFromQueues (some (.rob id)),
        lastDecodedDynamicInstCommitted :=
          if thread2.Context.State = .FINISHED
              ∧ some reorderBufferEntry.DynamicInst.Id = thread2.lastDecodedDynamicInst then
            true
          else thread2.lastDecodedDynamicInstCommitted,
        ReorderBuffer :=
          { thread2.ReorderBuffer with Entries := thread2.ReorderBuffer.Entries.drop 1 },
        numDynamicInsts := thread2.numDynamicInsts + 1,
        LastCommitCycle := thread2.Core.CurrentCycle },
      .ok true⟩

/-- One turn of the loop of `Commit`, on the entry `id` at the head of the reorder buffer: the
value is `true` when the entry was retired and the loop goes on, `false` at a `break`. -/
def commitOne (NUM_INT_REGISTERS NUM_FP_REGISTERS : Nat) (id : Nat) (thread : OoOThread) :
    Outcome Bool :=
  let reorderBufferEntry := thread.robEntries id
  if !reorderBufferEntry.Completed then ⟨thread, .ok false⟩
  else if reorderBufferEntry.Speculative then
    let context := thread.Context.ExitSpeculativeState
    let thread1 : OoOThread :=
      { thread with
          BranchPredictor :=
            { thread.BranchPredictor with
                ReturnAddressStackTop := reorderBufferEntry.ReturnAddressStackRecoverTop },
          Context := context,
          FetchNpc := context.Regs.Npc,
          FetchNnpc := context.Regs.Nnpc }
    match OoOThread.Squash NUM_INT_REGISTERS NUM_FP_REGISTERS thread1 with
    | ⟨thread2, .error p⟩ => ⟨thread2, .error p⟩
    | ⟨thread2, .ok _⟩ => ⟨thread2, .ok false⟩
  else if reorderBufferEntry.EffectiveAddressComputation then
    match reorderBufferEntry.LoadStoreBufferEntry with
    | none => ⟨thread, .error .NilPointer⟩
    | some l =>
      if !(thread.lsqEntries l).Completed then ⟨thread, .ok false⟩
      else
        commitRetire NUM_INT_REGISTERS NUM_FP_REGISTERS id reorderBufferEntry
          ({ thread with
              Core := thread.Core.RemoveFromQueues (some (.lsq l)) }.removeFromLoadStoreQueue
            (some l))
  else commitRetire NUM_INT_REGISTERS NUM_FP_REGISTERS id reorderBufferEntry thread

/-- The loop of `Commit`. -/
def commitLoop (NUM_INT_REGISTERS NUM_FP_REGISTERS : Nat) : Nat → OoOThread → Nat → Outcome Unit
  | 0, thread, numCommitted =>
    if !thread.ReorderBuffer.Empty && decide (numCommitted < thread.Core.CommitWidth) then
      ⟨thread, .error .OutOfFuel⟩
    else ⟨thread, .ok ()⟩
  | fuel + 1, thread, numCommitted =>
    if !thread.ReorderBuffer.Empty && decide (numCommitted < thread.Core.CommitWidth) then
      match thread.ReorderBuffer.Entries with
      | [] => ⟨thread, .error .IndexOutOfRange⟩
      | id :: _ =>
        match commitOne NUM_INT_REGISTERS NUM_FP_REGISTERS id thread with
        | ⟨thread1, .error p⟩ => ⟨thread1, .error p⟩
        | ⟨thread1, .ok false⟩ => ⟨thread1, .ok ()⟩
        | ⟨thread1, .ok true⟩ =>
          commitLoop NUM_INT_REGISTERS NUM_FP_REGISTERS fuel thread1 (numCommitted + 1)
    else ⟨thread, .ok ()⟩

/-- Source `OoOThread.Commit`; each turn of its loop that goes on removes an entry of the reorder
buffer, so as many turns as the buffer has entries are enough. The dump of the pending flows of
the memory hierarchy changes nothing of the thread. -/
def OoOThread.Commit (NUM_INT_REGISTERS NUM_FP_REGISTERS : Nat) (thread : OoOThread) :
    Outcome Unit :=
  let commitTimeout : Int := 1000000
  let thread1 : OoOThread :=
    if thread.Core.CurrentCycle - thread.LastCommitCycle > commitTimeout then
      if thread.NoDynamicInstCommittedCounterThreshold > 5 then thread
      else
        { thread with
            LastCommitCycle := thread.Core.CurrentCycle,
            NoDynamicInstCommittedCounterThreshold :=
              u32 (thread.NoDynamicInstCommittedCounterThreshold + 1) }
    else thread
  commitLoop NUM_INT_REGISTERS NUM_FP_REGISTERS thread1.ReorderBuffer.Entries.length thread1 0

/-! ### Notions used in the statements -/

/-- What a change of the register files and of the rename table alone leaves as it was. -/
def SameButRegisters (t t1 : OoOThread) : Prop :=
  t1 = { t with
          IntPhysicalRegs := t1.IntPhysicalRegs,
          FpPhysicalRegs := t1.FpPhysicalRegs,
          MiscPhysicalRegs := t1.MiscPhysicalRegs,
          RenameTable := t1.RenameTable }

/-- What a change of the register files, of the rename table and of the load/store queue with
its entries leaves as it was. -/
def SameButRegistersAndLoadStoreQueue (t t1 : OoOThread) : Prop :=
  t1 = { t with
          IntPhysicalRegs := t1.IntPhysicalRegs,
          FpPhysicalRegs := t1.FpPhysicalRegs,
          MiscPhysicalRegs := t1.MiscPhysicalRegs,
          RenameTable := t1.RenameTable,
          LoadStoreQueue := t1.LoadStoreQueue,
          lsqEntries := t1.lsqEntries }

/-- The two tests at the head of `RegisterRenameOne`. -/
def renameStalls (t : OoOThread) (d : DecodeBufferEntry) : Bool :=
  notEnoughFree t d.DynamicInst.StaticInst.NumPhysicalRegistersToAllocate
    || (d.DynamicInst.StaticInst.Mnemonic.StaticInstType.IsLoadOrStore && t.LoadStoreQueue.Full)

/-- What `Commit` asks of an entry of the reorder buffer, besides not being speculative, before it
retires it: the entry is completed and, when it computes an effective address, its paired entry
of the load/store queue is completed. -/
def CommitReady (t : OoOThread) (id : Nat) : Prop :=
  (t.robEntries id).Completed = true ∧
    ((t.robEntries id).EffectiveAddressComputation = true →
      ∃ l, (t.robEntries id).LoadStoreBufferEntry = some l ∧ (t.lsqEntries l).Completed = true)

/-! ### A small machine for the examples -/

/-- A core with empty queues, the default pool of functional units and a commit width of 4. -/
def sampleCore : Core :=
  { ReadyInstructionQueue := [], WaitingInstructionQueue := [], ReadyLoadQueue := [],
    WaitingStoreQueue := [], ReadyStoreQueue := [], FUPool := NewFUPool, CommitWidth := 4,
    CurrentCycle := 0 }

/-- A running context outside speculation. -/
def sampleContext : Context :=
  { State := .RUNNING, Speculative := false,
    ArchitectedRegs := { Pc := 0, Npc := 4, Nnpc := 8 },
    SpeculativeRegs := { Pc := 0, Npc := 4, Nnpc := 8 } }

/-- A new thread of a machine with 32 integer, 32 floating-point and 3 miscellaneous registers,
40 physical registers per file, and room for 4, 8 and 4 entries in its three buffers, with the
given entries in its decode buffer. The keys of its rename table are the objects of addresses
0 to 66. -/
def sampleThread (decodeBufferEntries : List DecodeBufferEntry) : OoOThread :=
  let thread := NewOoOThread 32 32 3 40 4 8 4 sampleCore sampleContext
    { ReturnAddressStackTop := 0, Updates := [] } 0
  { thread with
      DecodeBuffer := { thread.DecodeBuffer with Entries := decodeBufferEntries } }

/-- The pointer under which the rename table of the sample thread holds the integer register
`i`, for `i` below 32: the key that `NewOoOThread` made for it. -/
def sampleRegister (i : Nat) : DependencyRef :=
  { toRegisterDependency := NewRegisterDependency .INT i, Address := i }

/-- An entry of the decode buffer for an instruction of the given type, inputs and outputs, that
asks for one register of each class of its outputs. -/
def sampleEntry (id : Nat) (staticInstType : StaticInstType)
    (inputs outputs : List DependencyRef) (effectiveAddress : Int) : DecodeBufferEntry :=
  { DynamicInst :=
      { Id := id, Pc := 4 * id,
        StaticInst :=
          { Mnemonic := { StaticInstType := staticInstType },
            InputDependencies := inputs, OutputDependencies := outputs,
            NumPhysicalRegistersToAllocate := outputs.map (fun d => (d.DependencyType, 1)) },
        EffectiveAddress := effectiveAddress },
    Npc := 4 * id + 4, Nnpc := 4 * id + 8, PredictedNnpc := 4 * id + 8,
    ReturnAddressStackRecoverTop := 0, BranchPredictorUpdate := none, Speculative := false }

/-- The sample thread after one call of `RegisterRenameOne`. -/
def sampleRenamed (decodeBufferEntries : List DecodeBufferEntry) : OoOThread :=
  ((sampleThread decodeBufferEntries).RegisterRenameOne).thread

/-- The thread after the instruction `d`, alone in the decode buffer, is renamed and dispatched. -/
def sampleDecoded (t : OoOThread) (d : DecodeBufferEntry) : OoOThread :=
  ((({ t with
        DecodeBuffer :=
          { t.DecodeBuffer with Entries := [d] } }).RegisterRenameOne).thread.DispatchOne).1

/-- The sample thread after the given instructions are renamed and dispatched one by one; they
get the numbers 0, 1, 2, ... as entries. -/
def sampleAfter (ds : List DecodeBufferEntry) : OoOThread :=
  ds.foldl sampleDecoded (sampleThread [])

/-- Three instructions in flight, none written back: `r2 := r4 + r5`; a store of `r1` at the
address held by `r2`, effective address 8; a load of `r3` from the address held by `r6`, effective
address 16. The address operand of the store is not ready. -/
def sampleUnknownAddress : OoOThread :=
  sampleAfter
    [sampleEntry 0 .INT_COMP [sampleRegister 4, sampleRegister 5] [sampleRegister 2] 0,
     sampleEntry 1 .ST [sampleRegister 2, sampleRegister 1] [] 8,
     sampleEntry 2 .LD [sampleRegister 6] [sampleRegister 3] 16]

/-- Three instructions in flight, none written back: `r1 := r4 + r5`; `SW r1, 0(r2)`;
`LW r3, 0(r2)`; both accesses have the effective address 8. The data operand of the store is not
ready. -/
def sampleUnknownData : OoOThread :=
  sampleAfter
    [sampleEntry 0 .INT_COMP [sampleRegister 4, sampleRegister 5] [sampleRegister 1] 0,
     sampleEntry 1 .ST [sampleRegister 2, sampleRegister 1] [] 8,
     sampleEntry 2 .LD [sampleRegister 2] [sampleRegister 3] 8]

/-- Two instructions in flight, `r1 := r4 + r5` and `r2 := r1 + r1`, of which the first is
completed. -/
def sampleCompleted : OoOThread :=
  let t := sampleAfter
    [sampleEntry 0 .INT_COMP [sampleRegister 4, sampleRegister 5] [sampleRegister 1] 0,
     sampleEntry 1 .INT_COMP [sampleRegister 1, sampleRegister 1] [sampleRegister 2] 0]
  { t with
      robEntries := fun i =>
        if i = 0 then { t.robEntries 0 with Completed := true } else t.robEntries i }

/-- An instruction without outputs at the head of the decode buffer of a thread whose reorder
buffer, of size 8, holds 8 entries: 8 instructions that read `r1` and have no output were renamed and
dispatched one by one. -/
def sampleFullReorderBuffer : OoOThread :=
  let t := sampleAfter
    [sampleEntry 0 .INT_COMP [sampleRegister 1] [] 0,
     sampleEntry 1 .INT_COMP [sampleRegister 1] [] 0,
     sampleEntry 2 .INT_COMP [sampleRegister 1] [] 0,
     sampleEntry 3 .INT_COMP [sampleRegister 1] [] 0,
     sampleEntry 4 .INT_COMP [sampleRegister 1] [] 0,
     sampleEntry 5 .INT_COMP [sampleRegister 1] [] 0,
     sampleEntry 6 .INT_COMP [sampleRegister 1] [] 0,
     sampleEntry 7 .INT_COMP [sampleRegister 1] [] 0]
  { t with
      DecodeBuffer :=
        { t.DecodeBuffer with Entries := [sampleEntry 8 .INT_COMP [sampleRegister 1] [] 0] } }

/-- The thread `sampleUnknownData` with its oldest instruction completed and marked as fetched
on a mispredicted path. -/
def sampleSpeculative : OoOThread :=
  { sampleUnknownData with
      robEntries := fun i =>
        if i = 0 then
          { sampleUnknownData.robEntries 0 with
              Completed := true, Speculative := true, ReturnAddressStackRecoverTop := 5 }
        else sampleUnknownData.robEntries i }

/-- A thread whose rename table holds one register under two keys: `r1 := r4 + r5` is renamed and
dispatched, so that the key of `r1` maps to the register 32 of the integer file, which is not
ready; the mapping of the key of `r2` is then set to the same register, and `r3 := r1 + r2`
stands at the head of the decode buffer. -/
def sampleAliased : OoOThread :=
  let t := sampleAfter
    [sampleEntry 0 .INT_COMP [sampleRegister 4, sampleRegister 5] [sampleRegister 1] 0]
  { t with
      RenameTable := fun k =>
        if k = sampleRegister 2 then t.RenameTable (sampleRegister 1) else t.RenameTable k,
      DecodeBuffer :=
        { t.DecodeBuffer with
            Entries :=
              [sampleEntry 1 .INT_COMP [sampleRegister 1, sampleRegister 2] [sampleRegister 3]
                0] } }

end Cpu

/-! ## Byte order: lemmas -/

theorem putLittle_length (n v : Nat) : (putLittle n v).length = n := by
  induction n generalizing v with
  | zero => rfl
  | succ n ih => simp [putLittle, ih]

theorem putLittle_getD (n v i : Nat) (h : i < n) :
    (putLittle n v).getD i 0 = (v >>> (8 * i)) &&& 0xFF := by
  induction n generalizing v i with
  | zero => omega
  | succ n ih =>
    cases i with
    | zero => simp [putLittle]
    | succ i =>
      simp only [putLittle, List.getD_cons_succ]
      rw [ih _ _ (by omega), ← Nat.shiftRight_add]
      congr 2
      omega

theorem getLittle_putLittle (n v : Nat) : getLittle (putLittle n v) = v % 2 ^ (8 * n) := by
  induction n generalizing v with
  | zero => simp [putLittle, getLittle, Nat.mod_one]
  | succ n ih =>
    simp only [putLittle, getLittle, ih]
    have h1 : v &&& 0xFF = v % 2 ^ 8 := Nat.and_pow_two_sub_one_eq_mod v 8
    rw [h1, Nat.shiftLeft_eq, Nat.shiftRight_eq_div_pow, Nat.lor_comm, Nat.mul_comm,
      ← Nat.mul_add_lt_is_or (Nat.mod_lt _ (by norm_num))]
    have h2 : 2 ^ (8 * (n + 1)) = 2 ^ 8 * 2 ^ (8 * n) := by rw [← pow_add]; congr 1; omega
    rw [h2, Nat.mod_mul, Nat.add_comm]

theorem reverse_getD (l : List Nat) (i : Nat) (h : i < l.length) :
    l.reverse.getD i 0 = l.getD (l.length - 1 - i) 0 := by
  rw [List.getD_eq_getElem _ _ (by simpa using h), List.getD_eq_getElem _ _ (by omega),
    List.getElem_reverse]

theorem ByteOrder.Uint_put (le : Bool) (n v : Nat) (h : v < 2 ^ (8 * n)) :
    ByteOrder.Uint le (if le then putLittle n v else (putLittle n v).reverse) = v := by
  cases le <;> simp [ByteOrder.Uint, getLittle_putLittle, Nat.mod_eq_of_lt h]

/-! ## One chunk -/

theorem GetIndex_GetTag (a : Nat) : GetIndex (GetTag a) = GetIndex a := by
  simp only [GetIndex, GetTag, pageSize]; omega

theorem chunkSize_bounds (va size : Nat) (h : 0 < size) :
    0 < chunkSize va size ∧ chunkSize va size ≤ size ∧
      GetDisplacement va + chunkSize va size ≤ pageSize := by
  simp only [chunkSize, GetDisplacement, pageSize]; omega

/-- A written chunk: the page of the address is mapped afterwards, the bytes of the chunk are those
of the buffer and every other byte is as before. -/
theorem accessPageBoundary_write (m : PagedMemory) (va c : Nat) (buf : List Nat) (off : Nat)
    (hc : GetDisplacement va + c ≤ pageSize) (hb : off + c ≤ buf.length) :
    ∃ m1, accessPageBoundary m va c buf off true true = ⟨m1, .ok buf⟩ ∧
      m1.LittleEndian = m.LittleEndian ∧
      (∀ i, mapped m1 i = true ↔ mapped m i = true ∨ i = GetIndex va) ∧
      (∀ x, byteAt m1 x =
        if GetIndex x = GetIndex va ∧ GetDisplacement va ≤ GetDisplacement x ∧
            GetDisplacement x < GetDisplacement va + c then
          buf.getD (off + (GetDisplacement x - GetDisplacement va)) 0
        else byteAt m x) := by
  unfold accessPageBoundary
  cases hp : GetPage m va with
  | none =>
    simp only [if_true, MemoryPage.Access, hc, hb, and_self]
    refine ⟨_, rfl, rfl, ?_, ?_⟩
    · intro i
      simp only [mapped, addPage, GetIndex_GetTag]
      by_cases hi : i = GetIndex va
      · simp [hi]
      · simp [hi]
    · intro x
      simp only [byteAt, GetPage, addPage, GetIndex_GetTag, NewMemoryPage]
      by_cases hx : GetIndex x = GetIndex va
      · simp only [hx, if_true, true_and]
        split_ifs with h1
        · rfl
        · simp only [GetPage] at hp
          simp [hp]
      · simp [hx]
  | some page =>
    simp only [if_true, MemoryPage.Access, hc, hb, and_self]
    refine ⟨_, rfl, rfl, ?_, ?_⟩
    · intro i
      simp only [mapped]
      simp only [GetPage] at hp
      by_cases hi : i = GetIndex va
      · simp [hi]
      · simp [hi]
    · intro x
      simp only [byteAt, GetPage]
      simp only [GetPage] at hp
      by_cases hx : GetIndex x = GetIndex va
      · simp only [hx, if_true, true_and, hp]
      · simp [hx]

/-- The buffer after a chunk was copied into it. -/
theorem copied_getD (buf : List Nat) (off c : Nat) (f : Nat → Nat) (hb : off + c ≤ buf.length)
    (j : Nat) :
    (buf.take off ++ (List.range c).map f ++ buf.drop (off + c)).getD j 0 =
      if off ≤ j ∧ j < off + c then f (j - off) else buf.getD j 0 := by
  have hl : (buf.take off).length = off := by simp; omega
  by_cases h1 : j < off
  · rw [List.append_assoc, List.getD_append _ _ _ _ (by omega)]
    have : ¬ (off ≤ j ∧ j < off + c) := by omega
    simp only [this, if_false]
    rw [List.getD_eq_getElem _ _ (by omega), List.getD_eq_getElem _ _ (by omega)]
    simp
  · by_cases h2 : j < off + c
    · rw [List.getD_append _ _ _ _ (by simp; omega),
        List.getD_append_right _ _ _ _ (by omega), hl]
      simp only [(by omega : off ≤ j ∧ j < off + c), if_true]
      rw [List.getD_eq_getElem _ _ (by simp; omega)]
      simp
    · rw [List.getD_append_right _ _ _ _ (by simp; omega)]
      have : ¬ (off ≤ j ∧ j < off + c) := by omega
      simp only [this, if_false, List.length_append, List.length_map, List.length_range, hl]
      by_cases h3 : j < buf.length
      · rw [List.getD_eq_getElem _ _ (by simp; omega), List.getD_eq_getElem _ _ h3,
          List.getElem_drop]
        congr 1
        omega
      · rw [List.getD_eq_default _ _ (by simp; omega), List.getD_eq_default _ _ (by omega)]

theorem copied_length (buf : List Nat) (off c : Nat) (f : Nat → Nat) (hb : off + c ≤ buf.length) :
    (buf.take off ++ (List.range c).map f ++ buf.drop (off + c)).length = buf.length := by
  simp; omega

/-- A chunk that is read: the page of the address is mapped afterwards, no stored byte changes,
and the chunk of the buffer holds the stored bytes. -/
theorem accessPageBoundary_read (m : PagedMemory) (va c : Nat) (buf : List Nat) (off : Nat)
    (hc : GetDisplacement va + c ≤ pageSize) (hb : off + c ≤ buf.length) :
    ∃ m1 buf1, accessPageBoundary m va c buf off false true = ⟨m1, .ok buf1⟩ ∧
      m1.LittleEndian = m.LittleEndian ∧
      (∀ i, mapped m1 i = true ↔ mapped m i = true ∨ i = GetIndex va) ∧
      (∀ x, byteAt m1 x = byteAt m x) ∧
      (∀ i p, m.Pages i = some p → m1.Pages i = some p) ∧
      (mapped m (GetIndex va) = true → m1 = m) ∧
      buf1.length = buf.length ∧
      (∀ j, buf1.getD j 0 =
        if off ≤ j ∧ j < off + c then byteAt m (va + (j - off)) else buf.getD j 0) := by
  have key : ∀ k, k < c → GetIndex (va + k) = GetIndex va ∧
      GetDisplacement (va + k) = GetDisplacement va + k := by
    intro k hk
    simp only [GetIndex, GetDisplacement, pageSize] at *
    omega
  unfold accessPageBoundary
  cases hp : GetPage m va with
  | none =>
    simp only [if_true, MemoryPage.Access, hc, hb, and_self]
    simp only [GetPage] at hp
    refine ⟨_, _, rfl, rfl, ?_, ?_, ?_, ?_, copied_length _ _ _ _ hb, ?_⟩
    · intro i
      simp only [mapped, addPage, GetIndex_GetTag]
      by_cases hi : i = GetIndex va
      · simp [hi]
      · simp [hi]
    · intro x
      simp only [byteAt, GetPage, addPage, GetIndex_GetTag, NewMemoryPage]
      by_cases hx : GetIndex x = GetIndex va
      · simp [hx, hp]
      · simp [hx]
    · intro i p hi
      simp only [addPage, GetIndex_GetTag]
      by_cases h : i = GetIndex va
      · rw [h, hp] at hi; cases hi
      · simp [h, hi]
    · intro h
      simp [mapped, hp] at h
    · intro j
      rw [copied_getD _ _ _ _ hb]
      split_ifs with h
      · have := key (j - off) (by omega)
        simp [byteAt, GetPage, this.1, hp, addPage, NewMemoryPage]
      · rfl
  | some page =>
    simp only [if_true, MemoryPage.Access, hc, hb, and_self]
    simp only [GetPage] at hp
    refine ⟨_, _, rfl, rfl, ?_, ?_, ?_, ?_, copied_length _ _ _ _ hb, ?_⟩
    · intro i
      simp only [mapped]
      by_cases hi : i = GetIndex va
      · simp [hi, hp]
      · simp [hi]
    · intro x; rfl
    · intro i p hi; exact hi
    · intro _; rfl
    · intro j
      rw [copied_getD _ _ _ _ hb]
      split_ifs with h
      · have := key (j - off) (by omega)
        simp [byteAt, GetPage, this.1, this.2, hp]
      · rfl

/-! ## The loop of `access` -/

/-- The pages touched by the chunks after the first are those of the remaining bytes. -/
theorem touched_split (va size c i : Nat) (hva : va < 4294967296) (hc0 : 0 < c) (hcs : c ≤ size)
    (hcp : GetDisplacement va + c ≤ pageSize) :
    (∃ k, k < size ∧ i = GetIndex (u32 (va + k))) ↔
      (i = GetIndex va ∨ ∃ k, k < size - c ∧ i = GetIndex (u32 (u32 (va + c) + k))) := by
  have e : ∀ k, u32 (u32 (va + c) + k) = u32 (va + (c + k)) := by
    intro k; simp only [u32]; omega
  constructor
  · rintro ⟨k, hk, rfl⟩
    by_cases h : k < c
    · left
      simp only [GetIndex, GetDisplacement, pageSize, u32] at *
      omega
    · right
      refine ⟨k - c, by omega, ?_⟩
      rw [e]
      congr 3
      omega
  · rintro (rfl | ⟨k, hk, rfl⟩)
    · refine ⟨0, by omega, ?_⟩
      simp only [GetIndex, u32, Nat.add_zero, Nat.mod_eq_of_lt hva]
    · exact ⟨c + k, by omega, by rw [e]⟩

/-- A write of `size` bytes: the call ends without fault, the pages touched are mapped, the bytes
of the range are those of the buffer and every other byte is as before. -/
theorem accessLoop_write (fuel : Nat) : ∀ (m : PagedMemory) (va size : Nat) (buf : List Nat)
    (off : Nat), size ≤ fuel → va < 4294967296 → size ≤ 4294967296 → off + size ≤ buf.length →
    off + size < 4294967296 →
    ∃ m1, accessLoop fuel m va size buf off true true = ⟨m1, .ok buf⟩ ∧
      m1.LittleEndian = m.LittleEndian ∧
      (∀ i, mapped m1 i = true ↔
        mapped m i = true ∨ ∃ k, k < size ∧ i = GetIndex (u32 (va + k))) ∧
      (∀ x, x < 4294967296 → byteAt m1 x =
        if (x + 4294967296 - va) % 4294967296 < size then
          buf.getD (off + (x + 4294967296 - va) % 4294967296) 0
        else byteAt m x) := by
  induction fuel with
  | zero =>
    intro m va size buf off hf hva hs hb ho
    have : size = 0 := by omega
    subst this
    exact ⟨m, by simp [accessLoop], rfl, by simp, by simp⟩
  | succ fuel ih =>
    intro m va size buf off hf hva hs hb ho
    by_cases h0 : size = 0
    · subst h0
      exact ⟨m, by simp [accessLoop], rfl, by simp, by simp⟩
    · have hpos : 0 < size := by omega
      obtain ⟨hc0, hcs, hcp⟩ := chunkSize_bounds va size hpos
      generalize hcdef : chunkSize va size = c at hc0 hcs hcp
      obtain ⟨m1, e1, l1, p1, b1⟩ := accessPageBoundary_write m va c buf off hcp (by omega)
      have hoff : u32 (off + c) = off + c := by simp only [u32]; omega
      obtain ⟨m2, e2, l2, p2, b2⟩ := ih m1 (u32 (va + c)) (size - c) buf (off + c) (by omega)
        (by simp only [u32]; omega) (by omega) (by omega) (by omega)
      refine ⟨m2, ?_, l2.trans l1, ?_, ?_⟩
      · rw [accessLoop]
        simp only [hpos, if_true, hcdef, e1, hoff, e2, gt_iff_lt]
      · intro i
        rw [p2 i, p1 i, touched_split va size c i hva hc0 hcs hcp]
        tauto
      · intro x hx
        rw [b2 x hx, b1 x]
        simp only [GetIndex, GetDisplacement, pageSize, u32] at *
        by_cases hin : (x + 4294967296 - va) % 4294967296 < c
        · have h1 : ¬ ((x + 4294967296 - (va + c) % 4294967296) % 4294967296 < size - c) := by
            omega
          have h2 : x / 4096 = va / 4096 ∧ va % 4096 ≤ x % 4096 ∧ x % 4096 < va % 4096 + c := by
            omega
          have h3 : (x + 4294967296 - va) % 4294967296 < size := by omega
          simp only [h1, h2, h3, if_false, if_true, and_self]
          congr 2
          omega
        · have h2 : ¬ (x / 4096 = va / 4096 ∧ va % 4096 ≤ x % 4096 ∧ x % 4096 < va % 4096 + c) := by
            omega
          simp only [h2, if_false]
          by_cases h3 : (x + 4294967296 - va) % 4294967296 < size
          · have h1 : (x + 4294967296 - (va + c) % 4294967296) % 4294967296 < size - c := by
              omega
            simp only [h1, h3, if_true]
            have h4 : off + c + (x + 4294967296 - (va + c) % 4294967296) % 4294967296 =
                off + (x + 4294967296 - va) % 4294967296 := by omega
            rw [h4]
          · have h1 : ¬ ((x + 4294967296 - (va + c) % 4294967296) % 4294967296 < size - c) := by
              omega
            simp only [h1, h3, if_false]

/-- A read of `size` bytes: the call ends without fault, the pages touched are mapped afterwards,
no stored byte changes and the buffer receives the stored bytes of the range. -/
theorem accessLoop_read (fuel : Nat) : ∀ (m : PagedMemory) (va size : Nat) (buf : List Nat)
    (off : Nat), size ≤ fuel → va < 4294967296 → size ≤ 4294967296 → off + size ≤ buf.length →
    off + size < 4294967296 →
    ∃ m1 buf1, accessLoop fuel m va size buf off false true = ⟨m1, .ok buf1⟩ ∧
      m1.LittleEndian = m.LittleEndian ∧
      (∀ i, mapped m1 i = true ↔
        mapped m i = true ∨ ∃ k, k < size ∧ i = GetIndex (u32 (va + k))) ∧
      (∀ x, byteAt m1 x = byteAt m x) ∧
      (∀ i p, m.Pages i = some p → m1.Pages i = some p) ∧
      ((∀ k, k < size → mapped m (GetIndex (u32 (va + k))) = true) → m1 = m) ∧
      buf1.length = buf.length ∧
      (∀ j, buf1.getD j 0 =
        if off ≤ j ∧ j < off + size then byteAt m (u32 (va + (j - off))) else buf.getD j 0) := by
  induction fuel with
  | zero =>
    intro m va size buf off hf hva hs hb ho
    have : size = 0 := by omega
    subst this
    refine ⟨m, buf, by simp [accessLoop], rfl, by simp, by simp, by simp, by simp, rfl, ?_⟩
    intro j
    have : ¬ (off ≤ j ∧ j < off + 0) := by omega
    simp only [this, if_false]
  | succ fuel ih =>
    intro m va size buf off hf hva hs hb ho
    by_cases h0 : size = 0
    · subst h0
      refine ⟨m, buf, by simp [accessLoop], rfl, by simp, by simp, by simp, by simp, rfl, ?_⟩
      intro j
      have : ¬ (off ≤ j ∧ j < off + 0) := by omega
      simp only [this, if_false]
    · have hpos : 0 < size := by omega
      obtain ⟨hc0, hcs, hcp⟩ := chunkSize_bounds va size hpos
      generalize hcdef : chunkSize va size = c at hc0 hcs hcp
      obtain ⟨m1, buf1, e1, l1, p1, b1, k1, s1, n1, g1⟩ :=
        accessPageBoundary_read m va c buf off hcp (by omega)
      have hoff : u32 (off + c) = off + c := by simp only [u32]; omega
      obtain ⟨m2, buf2, e2, l2, p2, b2, k2, s2, n2, g2⟩ :=
        ih m1 (u32 (va + c)) (size - c) buf1 (off + c) (by omega)
          (by simp only [u32]; omega) (by omega) (by omega) (by omega)
      refine ⟨m2, buf2, ?_, l2.trans l1, ?_, ?_, ?_, ?_, n2.trans n1, ?_⟩
      · rw [accessLoop]
        simp only [hpos, if_true, hcdef, e1, hoff, e2, gt_iff_lt]
      · intro i
        rw [p2 i, p1 i, touched_split va size c i hva hc0 hcs hcp]
        tauto
      · intro x
        rw [b2 x, b1 x]
      · intro i p hi
        exact k2 i p (k1 i p hi)
      · intro hall
        have hm1 : m1 = m := by
          apply s1
          have := hall 0 hpos
          simpa only [Nat.add_zero, u32, Nat.mod_eq_of_lt hva] using this
        have hm2 : m2 = m1 := by
          apply s2
          intro k hk
          rw [hm1]
          have := hall (c + k) (by omega)
          have e : u32 (u32 (va + c) + k) = u32 (va + (c + k)) := by simp only [u32]; omega
          rw [e]
          exact this
        rw [hm2, hm1]
      · intro j
        rw [g2 j, g1 j]
        by_cases hA : off ≤ j ∧ j < off + c
        · have h1 : ¬ (off + c ≤ j ∧ j < off + c + (size - c)) := by omega
          have h3 : off ≤ j ∧ j < off + size := by omega
          simp only [h1, hA, h3, if_false, if_true, and_self]
          congr 1
          simp only [GetDisplacement, pageSize, u32] at *
          omega
        · by_cases hB : off + c ≤ j ∧ j < off + c + (size - c)
          · have h3 : off ≤ j ∧ j < off + size := by omega
            simp only [hB, h3, if_true, and_self]
            rw [b1]
            congr 1
            simp only [u32]
            omega
          · have h3 : ¬ (off ≤ j ∧ j < off + size) := by omega
            simp only [hA, hB, h3, if_false]

/-! ## `access` as a whole -/

theorem list_eq_of_getD (l1 l2 : List Nat) (hl : l1.length = l2.length)
    (h : ∀ j, l1.getD j 0 = l2.getD j 0) : l1 = l2 := by
  apply List.ext_getElem hl
  intro j h1 h2
  have := h j
  rwa [List.getD_eq_getElem _ _ h1, List.getD_eq_getElem _ _ h2] at this

theorem access_write_spec (m : PagedMemory) (a n : Nat) (data : List Nat) (ha : a < 4294967296)
    (hn : n < 4294967296) (hd : n ≤ data.length) :
    ∃ m1, access m a n data true true = ⟨m1, .ok data⟩ ∧
      m1.LittleEndian = m.LittleEndian ∧
      (∀ i, mapped m1 i = true ↔ mapped m i = true ∨ ∃ k, k < n ∧ i = GetIndex (u32 (a + k))) ∧
      (∀ k, k < n → byteAt m1 (u32 (a + k)) = data.getD k 0) ∧
      (∀ x, x < 4294967296 → (∀ k, k < n → x ≠ u32 (a + k)) → byteAt m1 x = byteAt m x) := by
  obtain ⟨m1, e, l, p, b⟩ :=
    accessLoop_write n m a n data 0 (le_refl _) ha (by omega) (by omega) (by omega)
  refine ⟨m1, e, l, p, ?_, ?_⟩
  · intro k hk
    rw [b _ (by simp only [u32]; omega)]
    have h1 : (u32 (a + k) + 4294967296 - a) % 4294967296 = k := by simp only [u32]; omega
    simp only [h1, hk, if_true, Nat.zero_add]
  · intro x hx hne
    rw [b x hx]
    have h1 : ¬ ((x + 4294967296 - a) % 4294967296 < n) := by
      intro h
      apply hne _ h
      simp only [u32]
      omega
    simp only [h1, if_false]

theorem access_read_spec (m : PagedMemory) (a n : Nat) (ha : a < 4294967296)
    (hn : n < 4294967296) :
    ∃ m1, access m a n (List.replicate n 0) false true =
        ⟨m1, .ok ((List.range n).map (fun k => byteAt m (u32 (a + k))))⟩ ∧
      m1.LittleEndian = m.LittleEndian ∧ ReadEffect m m1 a n := by
  obtain ⟨m1, buf1, e, l, p, b, k, s, n1, g⟩ :=
    accessLoop_read n m a n (List.replicate n 0) 0 (le_refl _) ha (by omega) (by simp) (by omega)
  have hb : buf1 = (List.range n).map (fun k => byteAt m (u32 (a + k))) := by
    apply list_eq_of_getD
    · simp [n1]
    · intro j
      rw [g j]
      by_cases hj : j < n
      · simp only [Nat.zero_le, Nat.zero_add, hj, and_self, if_true, Nat.sub_zero]
        rw [List.getD_eq_getElem _ _ (by simpa using hj)]
        simp
      · have : ¬ (0 ≤ j ∧ j < 0 + n) := by omega
        simp only [this, if_false]
        rw [List.getD_eq_default _ _ (by simp; omega), List.getD_eq_default _ _ (by simp; omega)]
  subst hb
  exact ⟨m1, e, l, p, k, b, s⟩

/-- A block that was written is the block read back. -/
theorem access_write_read (m : PagedMemory) (a : Nat) (data : List Nat) (ha : a < 4294967296)
    (hn : data.length < 4294967296) :
    ∃ m1 m2, access m a data.length data true true = ⟨m1, .ok data⟩ ∧
      m1.LittleEndian = m.LittleEndian ∧
      access m1 a data.length (List.replicate data.length 0) false true = ⟨m2, .ok data⟩ := by
  obtain ⟨m1, e1, l1, _, b1, _⟩ := access_write_spec m a data.length data ha hn (le_refl _)
  obtain ⟨m2, e2, _, _⟩ := access_read_spec m1 a data.length ha hn
  refine ⟨m1, m2, e1, l1, ?_⟩
  rw [e2]
  congr 2
  apply List.ext_getElem (by simp)
  intro j h1 h2
  simp only [List.getElem_map, List.getElem_range]
  rw [b1 j h2, List.getD_eq_getElem _ _ h2]

theorem ReadByteAt_spec (m : PagedMemory) (a : Nat) (ha : a < 4294967296) :
    (ReadByteAt m a).res = .ok (byteAt m a) ∧ ReadEffect m (ReadByteAt m a).mem a 1 := by
  obtain ⟨m1, e, _, r⟩ := access_read_spec m a 1 ha (by omega)
  have h : u32 a = a := Nat.mod_eq_of_lt ha
  simp only [ReadByteAt, e]
  simp [h, r]

theorem put_length (le : Bool) (n v : Nat) :
    (if le then putLittle n v else (putLittle n v).reverse).length = n := by
  cases le <;> simp [putLittle_length]

/-- The bytes of a value written at an address are the bytes read back there. -/
theorem put_write_read (m : PagedMemory) (a n v : Nat) (ha : a < 4294967296) (hn : n ≤ 8) :
    ∃ m1 m2,
      access m a n (if m.LittleEndian then putLittle n v else (putLittle n v).reverse) true true =
        ⟨m1, .ok (if m.LittleEndian then putLittle n v else (putLittle n v).reverse)⟩ ∧
      m1.LittleEndian = m.LittleEndian ∧
      access m1 a n (List.replicate n 0) false true =
        ⟨m2, .ok (if m.LittleEndian then putLittle n v else (putLittle n v).reverse)⟩ := by
  have hl := put_length m.LittleEndian n v
  obtain ⟨m1, m2, e1, l1, e2⟩ := access_write_read m a
    (if m.LittleEndian then putLittle n v else (putLittle n v).reverse) ha (by omega)
  rw [hl] at e1 e2
  exact ⟨m1, m2, e1, l1, e2⟩

/-! ## Round trip -/

/-- C1: in every paged memory, of either byte order, and at every 32-bit address, a byte, half
word, word or double word written with `WriteByteAt`, `WriteHalfWordAt`, `WriteWordAt` or
`WriteDoubleWordAt` is the value returned by the matching read accessor at the same address, also
when the access straddles a page boundary. -/
theorem write_read_roundtrip (m : PagedMemory) (a : Nat) (ha : a < 4294967296) :
    (∀ x, x < 2 ^ 8 →
      ∃ m1, WriteByteAt m a x = ⟨m1, .ok ()⟩ ∧ (ReadByteAt m1 a).res = .ok x) ∧
    (∀ x, x < 2 ^ 16 →
      ∃ m1, WriteHalfWordAt m a x = ⟨m1, .ok ()⟩ ∧ (ReadHalfWordAt m1 a).res = .ok x) ∧
    (∀ x, x < 2 ^ 32 →
      ∃ m1, WriteWordAt m a x = ⟨m1, .ok ()⟩ ∧ (ReadWordAt m1 a).res = .ok x) ∧
    (∀ x, x < 2 ^ 64 →
      ∃ m1, WriteDoubleWordAt m a x = ⟨m1, .ok ()⟩ ∧ (ReadDoubleWordAt m1 a).res = .ok x) := by
  refine ⟨?_, ?_, ?_, ?_⟩
  · intro x _
    obtain ⟨m1, m2, e1, _, e2⟩ := access_write_read m a [x] ha (by simp)
    refine ⟨m1, ?_, ?_⟩
    · simp only [WriteByteAt, discard]
      simp only [List.length_singleton] at e1
      rw [e1]
    · simp only [ReadByteAt]
      simp only [List.length_singleton] at e2
      rw [e2]
      rfl
  · intro x hx
    obtain ⟨m1, m2, e1, l1, e2⟩ := put_write_read m a 2 x ha (by omega)
    refine ⟨m1, ?_, ?_⟩
    · simp only [WriteHalfWordAt, discard, ByteOrder.PutUint16]
      rw [e1]
    · simp only [ReadHalfWordAt]
      rw [e2, l1]
      simp only
      rw [ByteOrder.Uint_put _ 2 x (by simpa using hx)]
  · intro x hx
    obtain ⟨m1, m2, e1, l1, e2⟩ := put_write_read m a 4 x ha (by omega)
    refine ⟨m1, ?_, ?_⟩
    · simp only [WriteWordAt, discard, ByteOrder.PutUint32]
      rw [e1]
    · simp only [ReadWordAt]
      rw [e2, l1]
      simp only
      rw [ByteOrder.Uint_put _ 4 x (by simpa using hx)]
  · intro x hx
    obtain ⟨m1, m2, e1, l1, e2⟩ := put_write_read m a 8 x ha (by omega)
    refine ⟨m1, ?_, ?_⟩
    · simp only [WriteDoubleWordAt, discard, ByteOrder.PutUint64]
      rw [e1]
    · simp only [ReadDoubleWordAt]
      rw [e2, l1]
      simp only
      rw [ByteOrder.Uint_put _ 8 x (by simpa using hx)]

/-- C1, at the word `0xDEADBEEF` written at `0x0FFF`, across the boundary of the first two pages
of an empty little-endian memory. -/
theorem write_read_roundtrip_witness :
    0x0FFF < 4294967296 ∧ 0xDEADBEEF < 2 ^ 32 ∧
      ∃ m1, WriteWordAt (NewPagedMemory true) 0x0FFF 0xDEADBEEF = ⟨m1, .ok ()⟩ ∧
        (ReadWordAt m1 0x0FFF).res = .ok 0xDEADBEEF :=
  ⟨by norm_num, by norm_num,
    (write_read_roundtrip (NewPagedMemory true) 0x0FFF (by norm_num)).2.2.1 0xDEADBEEF
      (by norm_num)⟩

/-! ## Reads -/

theorem read_mem (m : PagedMemory) (a n : Nat) (ha : a < 4294967296) (hn : n < 4294967296) :
    ∃ m1, access m a n (List.replicate n 0) false true =
        ⟨m1, .ok ((List.range n).map (fun k => byteAt m (u32 (a + k))))⟩ ∧ ReadEffect m m1 a n := by
  obtain ⟨m1, e, _, r⟩ := access_read_spec m a n ha hn
  exact ⟨m1, e, r⟩

/-- C2, as the code has it: every read accessor calls `access` with `createNewPageIfNecessary`
set, so a read maps the pages it touches that were not mapped. After a read at a 32-bit address the
mapped pages are those mapped before together with the pages touched, the pages mapped before and
every stored byte are unchanged, and the memory (mapped pages and `NumPages` included) is the same
as before when every page touched was already mapped. -/
theorem read_allocates_only_touched (m : PagedMemory) (a : Nat) (ha : a < 4294967296) :
    ReadEffect m (ReadByteAt m a).mem a 1 ∧
    ReadEffect m (ReadHalfWordAt m a).mem a 2 ∧
    ReadEffect m (ReadWordAt m a).mem a 4 ∧
    ReadEffect m (ReadDoubleWordAt m a).mem a 8 ∧
    ∀ n, n < 4294967296 → ReadEffect m (ReadBlockAt m a n).mem a n := by
  refine ⟨?_, ?_, ?_, ?_, ?_⟩
  · obtain ⟨m1, e, r⟩ := read_mem m a 1 ha (by omega)
    simp only [ReadByteAt, e]
    exact r
  · obtain ⟨m1, e, r⟩ := read_mem m a 2 ha (by omega)
    simp only [ReadHalfWordAt, e]
    exact r
  · obtain ⟨m1, e, r⟩ := read_mem m a 4 ha (by omega)
    simp only [ReadWordAt, e]
    exact r
  · obtain ⟨m1, e, r⟩ := read_mem m a 8 ha (by omega)
    simp only [ReadDoubleWordAt, e]
    exact r
  · intro n hn
    obtain ⟨m1, e, r⟩ := read_mem m a n ha hn
    simp only [ReadBlockAt, e]
    exact r

/-- C2, at address 0 of an empty memory. -/
theorem read_allocates_only_touched_witness :
    (0 : Nat) < 4294967296 ∧
      ReadEffect (NewPagedMemory true) (ReadWordAt (NewPagedMemory true) 0).mem 0 4 :=
  ⟨by norm_num, (read_allocates_only_touched (NewPagedMemory true) 0 (by norm_num)).2.2.1⟩

/-- C2 fails as stated: in an empty memory no page is mapped and `NumPages` is 0; after
`ReadByteAt` at address 0, which lies in an unmapped page, page 0 is mapped and `NumPages` is 1. -/
theorem read_allocates_counterexample :
    mapped (NewPagedMemory true) 0 = false ∧ (NewPagedMemory true).NumPages = 0 ∧
      mapped (ReadByteAt (NewPagedMemory true) 0).mem 0 = true ∧
      (ReadByteAt (NewPagedMemory true) 0).mem.NumPages = 1 := by
  decide

theorem byteAt_unmapped (m : PagedMemory) (x : Nat) (h : mapped m (GetIndex x) = false) :
    byteAt m x = 0 := by
  simp only [mapped] at h
  simp only [byteAt, GetPage]
  cases hp : m.Pages (GetIndex x) with
  | none => rfl
  | some p => rw [hp] at h; cases h

theorem read_zero_buffer (m : PagedMemory) (a n : Nat) (ha : a < 4294967296)
    (hn : n < 4294967296) (hu : ∀ k, k < n → mapped m (GetIndex (u32 (a + k))) = false) :
    ∃ m1, access m a n (List.replicate n 0) false true = ⟨m1, .ok (List.replicate n 0)⟩ := by
  obtain ⟨m1, e, _⟩ := read_mem m a n ha hn
  refine ⟨m1, ?_⟩
  rw [e]
  congr 2
  apply List.ext_getElem (by simp)
  intro j h1 h2
  simp only [List.getElem_map, List.getElem_range, List.getElem_replicate]
  exact byteAt_unmapped m _ (hu j (by simpa using h2))

/-- C3: when no page covering a byte of the `n` bytes from address `a` is mapped, `ReadBlockAt`
returns `n` zero bytes, and `ReadByteAt`, `ReadHalfWordAt`, `ReadWordAt` and `ReadDoubleWordAt`
return 0 when the bytes they read lie in that range. -/
theorem read_unmapped_zero (m : PagedMemory) (a n : Nat) (ha : a < 4294967296)
    (hn : n < 4294967296) (hu : ∀ k, k < n → mapped m (GetIndex (u32 (a + k))) = false) :
    (ReadBlockAt m a n).res = .ok (List.replicate n 0) ∧
    (1 ≤ n → (ReadByteAt m a).res = .ok 0) ∧
    (2 ≤ n → (ReadHalfWordAt m a).res = .ok 0) ∧
    (4 ≤ n → (ReadWordAt m a).res = .ok 0) ∧
    (8 ≤ n → (ReadDoubleWordAt m a).res = .ok 0) := by
  refine ⟨?_, ?_, ?_, ?_, ?_⟩
  · obtain ⟨m1, e⟩ := read_zero_buffer m a n ha hn hu
    simp only [ReadBlockAt, e]
  · intro h
    obtain ⟨m1, e⟩ := read_zero_buffer m a 1 ha (by omega) (fun k hk => hu k (by omega))
    simp only [ReadByteAt, e]
    rfl
  · intro h
    obtain ⟨m1, e⟩ := read_zero_buffer m a 2 ha (by omega) (fun k hk => hu k (by omega))
    simp only [ReadHalfWordAt, e]
    cases m.LittleEndian <;> rfl
  · intro h
    obtain ⟨m1, e⟩ := read_zero_buffer m a 4 ha (by omega) (fun k hk => hu k (by omega))
    simp only [ReadWordAt, e]
    cases m.LittleEndian <;> rfl
  · intro h
    obtain ⟨m1, e⟩ := read_zero_buffer m a 8 ha (by omega) (fun k hk => hu k (by omega))
    simp only [ReadDoubleWordAt, e]
    cases m.LittleEndian <;> rfl

/-- C3, for 8 bytes across the boundary of the first two pages of an empty memory. -/
theorem read_unmapped_zero_witness :
    (ReadBlockAt (NewPagedMemory false) 0x0FFC 8).res = .ok (List.replicate 8 0) ∧
      (ReadDoubleWordAt (NewPagedMemory false) 0x0FFC).res = .ok 0 :=
  have h := read_unmapped_zero (NewPagedMemory false) 0x0FFC 8 (by norm_num) (by norm_num)
    (fun _ _ => rfl)
  ⟨h.1, h.2.2.2.2 (le_refl _)⟩

/-! ## Writes -/

/-- With no wrap of the address, the pages touched by `n` bytes from `a` are those from the index
of `a` to the index of `a + n - 1`. -/
theorem touched_interval (a n i : Nat) (hn : 1 ≤ n) (ha : a + n - 1 ≤ 0xFFFFFFFF) :
    (∃ k, k < n ∧ i = GetIndex (u32 (a + k))) ↔ (GetIndex a ≤ i ∧ i ≤ GetIndex (a + n - 1)) := by
  constructor
  · rintro ⟨k, hk, rfl⟩
    simp only [GetIndex, pageSize, u32]
    omega
  · rintro ⟨h1, h2⟩
    by_cases h : i = GetIndex a
    · refine ⟨0, by omega, ?_⟩
      simp only [GetIndex, pageSize, u32] at *
      omega
    · refine ⟨i * 4096 - a, ?_, ?_⟩
      · simp only [GetIndex, pageSize] at *
        omega
      · simp only [GetIndex, pageSize, u32] at *
        omega

/-- C4: an access that crosses a page boundary is split per page and creates exactly the pages it
touches. A write of `n >= 1` bytes at `a`, with `a + n - 1 <= 0xFFFFFFFF`, ends without fault and
leaves mapped the pages mapped before together with those of index `index(a)` to
`index(a + n - 1)`; the chunk that `access` hands to a page always satisfies
`displacement + chunkSize <= pageSize`; and a word written at `0x0FFF` of an empty memory leaves
exactly the pages of index 0 and 1 (addresses `0x0000` and `0x1000`) mapped, with `NumPages = 2`. -/
theorem write_maps_touched_pages (m : PagedMemory) (a n : Nat) (data : List Nat) (hn : 1 ≤ n)
    (hn32 : n < 4294967296) (ha : a + n - 1 ≤ 0xFFFFFFFF) (hd : n ≤ data.length) :
    (∃ m1, WriteBlockAt m a n data = ⟨m1, .ok ()⟩ ∧
      ∀ i, mapped m1 i = true ↔
        mapped m i = true ∨ (GetIndex a ≤ i ∧ i ≤ GetIndex (a + n - 1))) ∧
    (∀ va size, GetDisplacement va + chunkSize va size ≤ pageSize) ∧
    (∀ le w i, mapped (WriteWordAt (NewPagedMemory le) 0x0FFF w).mem i = true ↔ i = 0 ∨ i = 1) ∧
    (∀ le w, (WriteWordAt (NewPagedMemory le) 0x0FFF w).mem.NumPages = 2) := by
  refine ⟨?_, ?_, ?_, ?_⟩
  · obtain ⟨m1, e, _, p, _⟩ := access_write_spec m a n data (by omega) hn32 hd
    refine ⟨m1, ?_, ?_⟩
    · simp only [WriteBlockAt, discard, e]
    · intro i
      rw [p i, touched_interval a n i hn ha]
  · intro va size
    simp only [chunkSize, GetDisplacement, pageSize]
    omega
  · intro le w i
    obtain ⟨m1, e, _, p, _⟩ := access_write_spec (NewPagedMemory le) 0x0FFF 4
      (ByteOrder.PutUint32 le w) (by norm_num) (by norm_num)
      (by simp [ByteOrder.PutUint32, put_length])
    have hw : (WriteWordAt (NewPagedMemory le) 0x0FFF w).mem = m1 := by
      simp only [WriteWordAt, discard, NewPagedMemory] at *
      rw [e]
    rw [hw, p i, touched_interval 0x0FFF 4 i (by norm_num) (by norm_num)]
    simp only [mapped, NewPagedMemory, GetIndex, pageSize]
    simp
    omega
  · intro le w
    cases le <;> rfl

/-- C4, for the four bytes written at `0x0FFF`. -/
theorem write_maps_touched_pages_witness :
    ∃ m1, WriteBlockAt (NewPagedMemory true) 0x0FFF 4 [0xEF, 0xBE, 0xAD, 0xDE] = ⟨m1, .ok ()⟩ ∧
      ∀ i, mapped m1 i = true ↔
        mapped (NewPagedMemory true) i = true ∨
          (GetIndex 0x0FFF ≤ i ∧ i ≤ GetIndex (0x0FFF + 4 - 1)) :=
  (write_maps_touched_pages (NewPagedMemory true) 0x0FFF 4 [0xEF, 0xBE, 0xAD, 0xDE]
    (by norm_num) (by norm_num) (by norm_num) (by simp)).1

/-! ## Byte order of the stored bytes -/

/-- The byte of index `i` of a stored value of `n` bytes. -/
theorem put_getD (le : Bool) (n w i : Nat) (hi : i < n) :
    (if le then putLittle n w else (putLittle n w).reverse).getD i 0 =
      (w >>> (8 * (if le then i else n - 1 - i))) &&& 0xFF := by
  cases le
  · simp only [Bool.false_eq_true, if_false]
    rw [reverse_getD _ _ (by rw [putLittle_length]; exact hi), putLittle_length,
      putLittle_getD _ _ _ (by omega)]
  · simp only [if_true]
    exact putLittle_getD n w i hi

/-- After the `n` bytes of `w` were written at `a`, the byte at `a + i` is the byte of `w` that
the byte order puts there. -/
theorem put_stored (m : PagedMemory) (a n w : Nat) (ha : a < 4294967296) (hn : n ≤ 8) :
    (discard (access m a n
        (if m.LittleEndian then putLittle n w else (putLittle n w).reverse) true true)).res
      = .ok () ∧
    ∀ i, i < n →
      (ReadByteAt (discard (access m a n
          (if m.LittleEndian then putLittle n w else (putLittle n w).reverse) true true)).mem
        (u32 (a + i))).res
        = .ok ((w >>> (8 * (if m.LittleEndian then i else n - 1 - i))) &&& 0xFF) := by
  obtain ⟨m1, e, _, _, b, _⟩ := access_write_spec m a n
    (if m.LittleEndian then putLittle n w else (putLittle n w).reverse) ha (by omega)
    (by rw [put_length])
  rw [e]
  refine ⟨rfl, ?_⟩
  intro i hi
  simp only [discard]
  rw [(ReadByteAt_spec m1 (u32 (a + i)) (by simp only [u32]; omega)).1, b i hi,
    put_getD _ _ _ _ hi]

/-- C5: the byte order chosen at construction governs the multi-byte accessors. In a little-endian
memory, after `WriteHalfWordAt`, `WriteWordAt` or `WriteDoubleWordAt` of `w` at `a`, `ReadByteAt`
at `a + i` returns `(w >> 8i) & 0xFF` for `i` below 2, 4 or 8; in a big-endian memory it returns
`(w >> 8(1-i)) & 0xFF`, `(w >> 8(3-i)) & 0xFF` or `(w >> 8(7-i)) & 0xFF`. -/
theorem byte_order_governs_accessors (m : PagedMemory) (a w : Nat) (ha : a < 4294967296) :
    (m.LittleEndian = true →
      (∀ i, i < 2 → (ReadByteAt (WriteHalfWordAt m a w).mem (u32 (a + i))).res
        = .ok ((w >>> (8 * i)) &&& 0xFF)) ∧
      (∀ i, i < 4 → (ReadByteAt (WriteWordAt m a w).mem (u32 (a + i))).res
        = .ok ((w >>> (8 * i)) &&& 0xFF)) ∧
      (∀ i, i < 8 → (ReadByteAt (WriteDoubleWordAt m a w).mem (u32 (a + i))).res
        = .ok ((w >>> (8 * i)) &&& 0xFF))) ∧
    (m.LittleEndian = false →
      (∀ i, i < 2 → (ReadByteAt (WriteHalfWordAt m a w).mem (u32 (a + i))).res
        = .ok ((w >>> (8 * (1 - i))) &&& 0xFF)) ∧
      (∀ i, i < 4 → (ReadByteAt (WriteWordAt m a w).mem (u32 (a + i))).res
        = .ok ((w >>> (8 * (3 - i))) &&& 0xFF)) ∧
      (∀ i, i < 8 → (ReadByteAt (WriteDoubleWordAt m a w).mem (u32 (a + i))).res
        = .ok ((w >>> (8 * (7 - i))) &&& 0xFF))) ∧
    (WriteHalfWordAt m a w).res = .ok () ∧ (WriteWordAt m a w).res = .ok () ∧
    (WriteDoubleWordAt m a w).res = .ok () := by
  have h2 := put_stored m a 2 w ha (by omega)
  have h4 := put_stored m a 4 w ha (by omega)
  have h8 := put_stored m a 8 w ha (by omega)
  refine ⟨?_, ?_, h2.1, h4.1, h8.1⟩
  · intro hle
    simp only [hle, if_true] at h2 h4 h8
    simp only [WriteHalfWordAt, WriteWordAt, WriteDoubleWordAt, ByteOrder.PutUint16,
      ByteOrder.PutUint32, ByteOrder.PutUint64, hle, if_true]
    exact ⟨h2.2, h4.2, h8.2⟩
  · intro hle
    simp only [hle, Bool.false_eq_true, if_false] at h2 h4 h8
    simp only [WriteHalfWordAt, WriteWordAt, WriteDoubleWordAt, ByteOrder.PutUint16,
      ByteOrder.PutUint32, ByteOrder.PutUint64, hle, Bool.false_eq_true, if_false]
    exact ⟨h2.2, h4.2, h8.2⟩

/-- C5, for the word `0xDEADBEEF` written at `0x0FFF`: the byte at `0x1000` is `0xBE` in a
little-endian memory and `0xAD` in a big-endian one. -/
theorem byte_order_governs_accessors_witness :
    (ReadByteAt (WriteWordAt (NewPagedMemory true) 0x0FFF 0xDEADBEEF).mem (u32 (0x0FFF + 1))).res
        = .ok ((0xDEADBEEF >>> (8 * 1)) &&& 0xFF) ∧
      (ReadByteAt (WriteWordAt (NewPagedMemory false) 0x0FFF 0xDEADBEEF).mem
          (u32 (0x0FFF + 1))).res
        = .ok ((0xDEADBEEF >>> (8 * (3 - 1))) &&& 0xFF) :=
  ⟨((byte_order_governs_accessors (NewPagedMemory true) 0x0FFF 0xDEADBEEF (by norm_num)).1
      rfl).2.1 1 (by norm_num),
   ((byte_order_governs_accessors (NewPagedMemory false) 0x0FFF 0xDEADBEEF (by norm_num)).2.1
      rfl).2.1 1 (by norm_num)⟩

/-! ## The loops of `Map` -/

theorem mapSearch_zero (fuel : Nat) (m : PagedMemory) (cnt ts : Nat) (p : Nat × Nat) :
    mapSearch fuel m cnt ts 0 ≠ .ok p := by
  cases fuel <;> simp [mapSearch]

/-- The search, when it succeeds, returns the lowest run of `cnt` unmapped pages from `ts`. -/
theorem mapSearch_ok (fuel : Nat) : ∀ (m : PagedMemory) (cnt ts te b e : Nat),
    mapSearch fuel m cnt ts te = .ok (b, e) →
    ts % 4096 = 0 → te % 4096 = 0 → ts ≤ te → te < 4294967296 → (te - ts) / 4096 < cnt →
    (∀ t, t % 4096 = 0 → ts ≤ t → t < te → mapped m (GetIndex t) = false) →
    b % 4096 = 0 ∧ ts ≤ b ∧ b ≤ e ∧ e < 4294967296 ∧ e % 4096 = 0 ∧ 0 < e ∧
      (e - b) / 4096 + 1 = cnt ∧
      (∀ t, t % 4096 = 0 → b ≤ t → t ≤ e → mapped m (GetIndex t) = false) ∧
      (∀ b1, b1 % 4096 = 0 → ts ≤ b1 → b1 < b →
        ∃ t, t % 4096 = 0 ∧ b1 ≤ t ∧ t < b1 + cnt * 4096 ∧ mapped m (GetIndex t) = true) := by
  induction fuel with
  | zero => intro m cnt ts te b e h; simp [mapSearch] at h
  | succ fuel ih =>
    intro m cnt ts te b e h hts hte hle hlt hcnt hun
    rw [mapSearch] at h
    by_cases h0 : te = 0
    · simp [h0] at h
    · simp only [h0, if_false] at h
      by_cases hm : (GetPage m te).isSome = true
      · simp only [hm, if_true] at h
        by_cases hw : te + 4096 < 4294967296
        · have hu : u32 (te + pageSize) = te + 4096 := by
            simp only [u32, pageSize]; omega
          rw [hu] at h
          obtain ⟨r1, r2, r3, r4, r5, r6, r7, r8, r9⟩ :=
            ih m cnt (te + 4096) (te + 4096) b e h (by omega) (by omega) (le_refl _) hw
              (by omega) (by intro t _ _ _; omega)
          refine ⟨r1, by omega, r3, r4, r5, r6, r7, r8, ?_⟩
          intro b1 hb1 hb2 hb3
          by_cases hc : b1 ≤ te
          · exact ⟨te, hte, hc, by omega, hm⟩
          · exact r9 b1 hb1 (by omega) hb3
        · have hu : u32 (te + pageSize) = 0 := by
            simp only [u32, pageSize]; omega
          rw [hu] at h
          exact absurd h (mapSearch_zero _ _ _ _ _)
      · simp only [hm, Bool.false_eq_true, if_false] at h
        have hd : u32 (te + 4294967296 - ts) = te - ts := by simp only [u32]; omega
        rw [hd] at h
        have hm1 : mapped m (GetIndex te) = false := by
          simpa [mapped, GetPage] using hm
        by_cases heq : (te - ts) / pageSize + 1 = cnt
        · simp only [heq, if_true] at h
          injection h with h
          injection h with hb he
          subst hb he
          simp only [pageSize] at heq
          refine ⟨hts, le_refl _, hle, hlt, hte, by omega, heq, ?_, ?_⟩
          · intro t ht1 ht2 ht3
            by_cases ht : t < te
            · exact hun t ht1 ht2 ht
            · have : t = te := by omega
              rw [this]; exact hm1
          · intro b1 _ h1 h2; omega
        · simp only [heq, if_false] at h
          simp only [pageSize] at heq
          by_cases hw : te + 4096 < 4294967296
          · have hu : u32 (te + pageSize) = te + 4096 := by
              simp only [u32, pageSize]; omega
            rw [hu] at h
            refine ih m cnt ts (te + 4096) b e h hts (by omega) (by omega) hw (by omega) ?_
            intro t ht1 ht2 ht3
            by_cases ht : t < te
            · exact hun t ht1 ht2 ht
            · have : t = te := by omega
              rw [this]; exact hm1
          · have hu : u32 (te + pageSize) = 0 := by
              simp only [u32, pageSize]; omega
            rw [hu] at h
            exact absurd h (mapSearch_zero _ _ _ _ _)

/-- With a budget above the number of pages left, the search fails only with `Unimplemented`. -/
theorem mapSearch_error (fuel : Nat) : ∀ (m : PagedMemory) (cnt ts te : Nat) (f : Fault),
    mapSearch fuel m cnt ts te = .error f →
    te % 4096 = 0 → te < 4294967296 →
    (if te = 0 then 0 else (4294967296 - te) / 4096 + 1) < fuel → f = Fault.Unimplemented := by
  induction fuel with
  | zero => intro m cnt ts te f _ _ _ h; omega
  | succ fuel ih =>
    intro m cnt ts te f h hte hlt hf
    rw [mapSearch] at h
    by_cases h0 : te = 0
    · simp only [h0, if_true] at h
      injection h with h
      exact h.symm
    · simp only [h0, if_false] at h hf
      have hnext : u32 (te + pageSize) % 4096 = 0 ∧ u32 (te + pageSize) < 4294967296 ∧
          (if u32 (te + pageSize) = 0 then 0
            else (4294967296 - u32 (te + pageSize)) / 4096 + 1) < fuel := by
        simp only [u32, pageSize]
        refine ⟨by omega, by omega, ?_⟩
        split_ifs <;> omega
      by_cases hm : (GetPage m te).isSome = true
      · simp only [hm, if_true] at h
        exact ih m cnt _ _ f h hnext.1 hnext.2.1 hnext.2.2
      · simp only [hm, Bool.false_eq_true, if_false] at h
        by_cases heq : u32 (te + 4294967296 - ts) / pageSize + 1 = cnt
        · simp [heq] at h
        · simp only [heq, if_false] at h
          exact ih m cnt _ _ f h hnext.1 hnext.2.1 hnext.2.2

/-- The second loop, on a run of unmapped pages that ends before the last page: the pages of the
run are added and nothing else changes. -/
theorem mapAdd_ok (fuel : Nat) : ∀ (m : PagedMemory) (tag te : Nat),
    tag % 4096 = 0 → te % 4096 = 0 → tag ≤ te + 4096 → te + 4096 < 4294967296 →
    (∀ t, t % 4096 = 0 → tag ≤ t → t ≤ te → mapped m (GetIndex t) = false) →
    (te + 4096 - tag) / 4096 < fuel →
    ∃ m1, mapAdd fuel m tag te = ⟨m1, .ok ()⟩ ∧ m1.LittleEndian = m.LittleEndian ∧
      (∀ i, GetIndex tag ≤ i → i ≤ GetIndex te → mapped m1 i = true) ∧
      (∀ i, ¬ (GetIndex tag ≤ i ∧ i ≤ GetIndex te) → m1.Pages i = m.Pages i) ∧
      (tag ≤ te → m1.NumPages = u32 (m.NumPages + (te + 4096 - tag) / 4096)) := by
  induction fuel with
  | zero => intro m tag te _ _ _ _ _ h; omega
  | succ fuel ih =>
    intro m tag te htag hte hle hlt hun hf
    rw [mapAdd]
    by_cases hc : tag ≤ te
    · have hm : (GetPage m tag).isSome = false := by
        have := hun tag htag (le_refl _) hc
        simpa [mapped, GetPage] using this
      have hu : u32 (tag + pageSize) = tag + 4096 := by simp only [u32, pageSize]; omega
      simp only [hc, if_true, hm, Bool.false_eq_true, if_false, hu]
      obtain ⟨m1, e1, l1, a1, o1, n1⟩ := ih (addPage m tag).1 (tag + 4096) te (by omega) hte
        (by omega) hlt
        (by
          intro t ht1 ht2 ht3
          have := hun t ht1 (by omega) ht3
          simp only [mapped, addPage, GetIndex, pageSize] at *
          rw [if_neg (by omega)]
          exact this)
        (by omega)
      refine ⟨m1, e1, l1, ?_, ?_, ?_⟩
      · intro i hi1 hi2
        by_cases hi : GetIndex (tag + 4096) ≤ i
        · exact a1 i hi hi2
        · rw [mapped, o1 i (by omega)]
          simp only [addPage, GetIndex, pageSize] at *
          rw [if_pos (by omega)]
          rfl
      · intro i hi
        rw [o1 i (by simp only [GetIndex, pageSize] at *; omega)]
        simp only [addPage, GetIndex, pageSize] at *
        rw [if_neg (by omega)]
      · intro _
        by_cases hc2 : tag + 4096 ≤ te
        · rw [n1 hc2]
          simp only [addPage, u32]
          omega
        · have hmem : m1 = (addPage m tag).1 := by
            have h2 : mapAdd fuel (addPage m tag).1 (tag + 4096) te =
                ⟨(addPage m tag).1, .ok ()⟩ := by
              cases fuel with
              | zero => omega
              | succ fuel => rw [mapAdd]; simp only [hc2, if_false]
            rw [h2] at e1
            exact (congrArg Outcome.mem e1).symm
          rw [hmem]
          have : (te + 4096 - tag) / 4096 = 1 := by omega
          simp only [addPage, this]
    · simp only [hc, if_false]
      refine ⟨m, rfl, rfl, ?_, ?_, ?_⟩
      · intro i h1 h2
        simp only [GetIndex, pageSize] at *
        omega
      · intro i _; rfl
      · intro h; exact h.elim

/-- The second loop never ends normally when the run ends at the last page: the tag wraps to 0,
which is again at most `tagEnd`. -/
theorem mapAdd_last (fuel : Nat) : ∀ (m : PagedMemory) (tag : Nat) (u : Unit),
    tag % 4096 = 0 → tag < 4294967296 → (mapAdd fuel m tag 4294963200).res ≠ .ok u := by
  induction fuel with
  | zero => intro m tag u _ _; simp [mapAdd]
  | succ fuel ih =>
    intro m tag u htag hlt
    rw [mapAdd]
    have hc : tag ≤ 4294963200 := by omega
    simp only [hc, if_true]
    by_cases hm : (GetPage m tag).isSome = true
    · simp [hm]
    · simp only [hm, Bool.false_eq_true, if_false]
      apply ih
      · simp only [u32, pageSize]; omega
      · simp only [u32]; omega

theorem pageCount_pos (v s : Nat) : 0 < pageCount v s := by
  simp only [pageCount]; exact Nat.succ_pos _

/-- What `Map` has done when it returns the base `b`. -/
theorem Map_ok (m : PagedMemory) (v s : Nat) (m1 : PagedMemory) (b : Nat) (hv : v < 4294967296)
    (h : Map m v s = ⟨m1, .ok b⟩) :
    b % 4096 = 0 ∧ GetTag v ≤ b ∧ b + pageCount v s * 4096 < 4294967296 ∧
      (∀ k, k < pageCount v s → mapped m (GetIndex b + k) = false) ∧
      (∀ k, k < pageCount v s → mapped m1 (GetIndex b + k) = true) ∧
      (∀ i, ¬ (GetIndex b ≤ i ∧ i < GetIndex b + pageCount v s) → m1.Pages i = m.Pages i) ∧
      (∀ b1, b1 % 4096 = 0 → GetTag v ≤ b1 → b1 < b →
        ∃ k, k < pageCount v s ∧ mapped m (GetIndex b1 + k) = true) ∧
      m1.NumPages = u32 (m.NumPages + pageCount v s) ∧ m1.LittleEndian = m.LittleEndian := by
  have hcnt := pageCount_pos v s
  unfold Map at h
  generalize pageCount v s = cnt at *
  have htag : GetTag v % 4096 = 0 ∧ GetTag v < 4294967296 := by
    simp only [GetTag, pageSize]; omega
  cases hs : mapSearch mapFuel m cnt (GetTag v) (GetTag v) with
  | error f => rw [hs] at h; simp at h
  | ok p =>
    obtain ⟨ts, te⟩ := p
    rw [hs] at h
    simp only at h
    obtain ⟨r1, r2, r3, r4, r5, r6, r7, r8, r9⟩ :=
      mapSearch_ok mapFuel m cnt (GetTag v) (GetTag v) ts te hs htag.1 htag.1 (le_refl _) htag.2
        (by simpa using hcnt) (by intro t _ _ _; omega)
    by_cases hlast : te = 4294963200
    · exfalso
      have := mapAdd_last mapFuel m ts () r1 (by omega)
      rw [← hlast] at this
      cases hadd : mapAdd mapFuel m ts te with
      | mk mm rr =>
        rw [hadd] at h this
        cases rr with
        | error f => simp at h
        | ok u => exact this rfl
    · obtain ⟨m2, e2, l2, a2, o2, n2⟩ := mapAdd_ok mapFuel m ts te r1 r5 (by omega) (by omega)
        (by intro t h1 h2 h3; exact r8 t h1 h2 h3) (by simp only [mapFuel]; omega)
      rw [e2] at h
      simp only at h
      injection h with hm hb
      injection hb with hb
      subst hm hb
      have hi : ∀ k, k < cnt → GetIndex (ts + k * 4096) = GetIndex ts + k ∧
          (ts + k * 4096) % 4096 = 0 ∧ ts ≤ ts + k * 4096 ∧ ts + k * 4096 ≤ te := by
        intro k hk
        simp only [GetIndex, pageSize]
        omega
      refine ⟨r1, r2, by omega, ?_, ?_, ?_, ?_, ?_, l2⟩
      · intro k hk
        obtain ⟨i1, i2, i3, i4⟩ := hi k hk
        rw [← i1]
        exact r8 _ i2 i3 i4
      · intro k hk
        apply a2
        · omega
        · simp only [GetIndex, pageSize]; omega
      · intro i hni
        apply o2
        simp only [GetIndex, pageSize] at *
        omega
      · intro b1 hb1 hb2 hb3
        obtain ⟨t, t1, t2, t3, t4⟩ := r9 b1 hb1 hb2 hb3
        refine ⟨(t - b1) / 4096, by omega, ?_⟩
        have : GetIndex b1 + (t - b1) / 4096 = GetIndex t := by
          simp only [GetIndex, pageSize]; omega
        rw [this]
        exact t4
      · rw [n2 r3]
        congr 2
        omega

/-! ## `Map` -/

/-- C6: whenever `Map(vaddr, size)` returns a base `b`, `b` is page-aligned and at least
`tag(vaddr)`; the pages of index `index(b)`, `index(b) + 1`, ... that `Map` adds are those of the
addresses `b`, `b + pageSize`, ... and form one run; every page of the run was unmapped before the
call and is mapped after it; no other page changed, in mapping or contents; and below `b` no
page-aligned base from `tag(vaddr)` on starts such a run of unmapped pages. -/
theorem map_reserves_lowest_run (m : PagedMemory) (v s : Nat) (m1 : PagedMemory) (b : Nat)
    (hv : v < 4294967296) (h : Map m v s = ⟨m1, .ok b⟩) :
    b % pageSize = 0 ∧ GetTag v ≤ b ∧
    (∀ k, k < pageCount v s →
      GetIndex (b + k * pageSize) = GetIndex b + k ∧ b + k * pageSize < 4294967296 ∧
      mapped m (GetIndex b + k) = false ∧ mapped m1 (GetIndex b + k) = true) ∧
    (∀ i, ¬ (GetIndex b ≤ i ∧ i < GetIndex b + pageCount v s) → m1.Pages i = m.Pages i) ∧
    (∀ b1, b1 % pageSize = 0 → GetTag v ≤ b1 → b1 < b →
      ∃ k, k < pageCount v s ∧ mapped m (GetIndex b1 + k) = true) := by
  obtain ⟨r1, r2, r3, r4, r5, r6, r7, _, _⟩ := Map_ok m v s m1 b hv h
  refine ⟨r1, r2, ?_, r6, r7⟩
  intro k hk
  refine ⟨?_, ?_, r4 k hk, r5 k hk⟩
  · simp only [GetIndex, pageSize]; omega
  · simp only [pageSize]; omega

/-- C6, for two bytes across the boundary of the pages at `0x1000` and `0x2000` of an empty
memory: `Map` returns `0x1000`. -/
theorem map_reserves_lowest_run_witness :
    (Map (NewPagedMemory true) 0x1FFF 2).res = .ok 0x1000 ∧
      0x1000 % pageSize = 0 ∧ GetTag 0x1FFF ≤ 0x1000 :=
  have h := map_reserves_lowest_run (NewPagedMemory true) 0x1FFF 2
    (Map (NewPagedMemory true) 0x1FFF 2).mem 0x1000 (by norm_num) rfl
  ⟨rfl, h.1, h.2.1⟩

/-- C7, as the code has it: when `Map(vaddr, size)` returns, the pages it newly maps are the
`pageCount` pages from the base, where `pageCount` is `(tag(vaddr + size - 1) - tag(vaddr)) /
pageSize + 1` in `uint32` arithmetic; their number and the growth of `NumPages` are `pageCount`.
With `size >= 1` and `vaddr + size - 1 <= 0xFFFFFFFF` this is the number of pages that the bytes
`vaddr .. vaddr + size - 1` span, which is `ceil(size / pageSize)` when `vaddr` is page-aligned. -/
theorem map_page_count (m : PagedMemory) (v s : Nat) (m1 : PagedMemory) (b : Nat)
    (hv : v < 4294967296) (hs : 1 ≤ s) (h : Map m v s = ⟨m1, .ok b⟩) :
    (∀ i, (mapped m1 i = true ∧ mapped m i = false) ↔
      (GetIndex b ≤ i ∧ i < GetIndex b + pageCount v s)) ∧
    ((Finset.range 1048576).filter
      (fun i => mapped m1 i = true ∧ mapped m i = false)).card = pageCount v s ∧
    m1.NumPages = u32 (m.NumPages + pageCount v s) ∧
    (v + s - 1 ≤ 0xFFFFFFFF → pageCount v s = GetIndex (v + s - 1) - GetIndex v + 1) ∧
    (v + s - 1 ≤ 0xFFFFFFFF → v % pageSize = 0 → pageCount v s = (s + pageSize - 1) / pageSize) := by
  obtain ⟨r1, r2, r3, r4, r5, r6, r7, r8, _⟩ := Map_ok m v s m1 b hv h
  have key : ∀ i, (mapped m1 i = true ∧ mapped m i = false) ↔
      (GetIndex b ≤ i ∧ i < GetIndex b + pageCount v s) := by
    intro i
    constructor
    · rintro ⟨h1, h2⟩
      by_contra hc
      have := r6 i hc
      simp only [mapped, this] at h1
      simp only [mapped] at h2
      rw [h2] at h1
      cases h1
    · rintro ⟨h1, h2⟩
      have e : i = GetIndex b + (i - GetIndex b) := by omega
      rw [e]
      exact ⟨r5 _ (by omega), r4 _ (by omega)⟩
  refine ⟨key, ?_, r8, ?_, ?_⟩
  · have hf : (Finset.range 1048576).filter
        (fun i => mapped m1 i = true ∧ mapped m i = false) =
        Finset.Ico (GetIndex b) (GetIndex b + pageCount v s) := by
      ext i
      simp only [Finset.mem_filter, Finset.mem_range, Finset.mem_Ico, key]
      constructor
      · rintro ⟨_, h2⟩; exact h2
      · intro h2
        refine ⟨?_, h2⟩
        simp only [GetIndex, pageSize] at *
        omega
    rw [hf, Nat.card_Ico]
    omega
  · intro hw
    simp only [pageCount, GetTag, GetIndex, pageSize, u32]
    omega
  · intro hw ha
    simp only [pageCount, GetTag, GetIndex, pageSize, u32] at *
    omega

/-- C7, for one page-aligned page of an empty memory. -/
theorem map_page_count_witness :
    (Map (NewPagedMemory true) 0x1000 4096).res = .ok 0x1000 ∧
      ((Finset.range 1048576).filter
        (fun i => mapped (Map (NewPagedMemory true) 0x1000 4096).mem i = true ∧
          mapped (NewPagedMemory true) i = false)).card = pageCount 0x1000 4096 :=
  ⟨rfl, (map_page_count (NewPagedMemory true) 0x1000 4096
    (Map (NewPagedMemory true) 0x1000 4096).mem 0x1000 (by norm_num) (by norm_num) rfl).2.1⟩

/-- C7 fails as stated: `Map(0x1FFF, 2)` on an empty memory returns `0x1000` and newly maps the
two pages of index 1 and 2, while `ceil(2 / 4096) = 1`. -/
theorem map_page_count_counterexample :
    (Map (NewPagedMemory true) 0x1FFF 2).res = .ok 0x1000 ∧
      mapped (NewPagedMemory true) 1 = false ∧ mapped (NewPagedMemory true) 2 = false ∧
      mapped (Map (NewPagedMemory true) 0x1FFF 2).mem 1 = true ∧
      mapped (Map (NewPagedMemory true) 0x1FFF 2).mem 2 = true ∧
      (Map (NewPagedMemory true) 0x1FFF 2).mem.NumPages = 2 ∧
      (2 + pageSize - 1) / pageSize = 1 := by
  refine ⟨rfl, rfl, rfl, rfl, rfl, rfl, rfl⟩

theorem Map_zero (m : PagedMemory) (v s : Nat) (h : GetTag v = 0) :
    Map m v s = ⟨m, .error Fault.Unimplemented⟩ := by
  have e : mapSearch mapFuel m (pageCount v s) 0 0 = .error Fault.Unimplemented := by
    show mapSearch (1048577 + 1) m (pageCount v s) 0 0 = _
    rw [mapSearch]
    simp
  simp only [Map, h, e]

/-- C8, as the code has it: in the exhausted-address-space case, when no run of `pageCount`
unmapped pages that starts at a page-aligned base from `tag(vaddr)` on, above 0, ends before the
scan address wraps to 0, `Map` does not return 0: it fails with the panic `Unimplemented` (the
`return 0` after it is never reached), and it maps no page, the memory being left as it was. -/
theorem map_exhausted_panics (m : PagedMemory) (v s : Nat) (hv : v < 4294967296)
    (hex : ¬ ∃ b, b % pageSize = 0 ∧ GetTag v ≤ b ∧ 0 < b ∧
      b + pageCount v s * pageSize ≤ 4294967296 ∧
      ∀ k, k < pageCount v s → mapped m (GetIndex b + k) = false) :
    Map m v s = ⟨m, .error Fault.Unimplemented⟩ := by
  by_cases h0 : GetTag v = 0
  · exact Map_zero m v s h0
  · have htag : GetTag v % 4096 = 0 ∧ GetTag v < 4294967296 := by
      simp only [GetTag, pageSize]; omega
    have hcnt := pageCount_pos v s
    cases hs : mapSearch mapFuel m (pageCount v s) (GetTag v) (GetTag v) with
    | error f =>
      have hf := mapSearch_error mapFuel m (pageCount v s) (GetTag v) (GetTag v) f hs htag.1
        htag.2 (by simp only [h0, if_false, mapFuel]; omega)
      subst hf
      simp only [Map, hs]
    | ok p =>
      obtain ⟨ts, te⟩ := p
      exfalso
      obtain ⟨r1, r2, r3, r4, r5, r6, r7, r8, _⟩ :=
        mapSearch_ok mapFuel m (pageCount v s) (GetTag v) (GetTag v) ts te hs htag.1 htag.1
          (le_refl _) htag.2 (by simpa using hcnt) (by intro t _ _ _; omega)
      apply hex
      refine ⟨ts, r1, r2, by omega, by simp only [pageSize]; omega, ?_⟩
      intro k hk
      have hi : GetIndex (ts + k * 4096) = GetIndex ts + k := by
        simp only [GetIndex, pageSize]; omega
      rw [← hi]
      exact r8 _ (by omega) (by omega) (by omega)

/-- C8, for two pages asked for from the last page of an empty memory. -/
theorem map_exhausted_panics_witness :
    Map (NewPagedMemory true) 0xFFFFF000 8192 =
      ⟨NewPagedMemory true, .error Fault.Unimplemented⟩ :=
  map_exhausted_panics (NewPagedMemory true) 0xFFFFF000 8192 (by norm_num) (by
    rintro ⟨b, _, h2, _, h4, _⟩
    have e1 : GetTag 0xFFFFF000 = 4294963200 := by decide
    have e2 : pageCount 0xFFFFF000 8192 = 2 := by decide
    rw [e1] at h2
    rw [e2] at h4
    simp only [pageSize] at h4
    omega)

/-- C8 fails as stated: an empty memory asked for two pages from the last page `0xFFFFF000` is in
the exhausted case (only one page lies before the scan address wraps to 0), and `Map` does not
return 0 but fails with `Unimplemented`. -/
theorem map_exhausted_counterexample :
    pageCount 0xFFFFF000 8192 = 2 ∧ GetTag 0xFFFFF000 = 0xFFFFF000 ∧
      (Map (NewPagedMemory true) 0xFFFFF000 8192).res = .error Fault.Unimplemented ∧
      (Map (NewPagedMemory true) 0xFFFFF000 8192).res ≠ .ok 0 := by
  refine ⟨by decide, by decide, rfl, ?_⟩
  intro h
  have e : (Map (NewPagedMemory true) 0xFFFFF000 8192).res = .error Fault.Unimplemented := rfl
  rw [e] at h
  cases h

/-! ## `Remap` -/

/-- C9: `Remap` is not supported and fails: for every memory and all arguments it returns no
value, its call of `Map` at address 0 raising the panic `Unimplemented`, and it maps no page, the
memory being left as it was. -/
theorem remap_fails (m : PagedMemory) (oldAddr oldSize newSize : Nat) :
    (Remap m oldAddr oldSize newSize).res = .error Fault.Unimplemented ∧
      (∀ start, (Remap m oldAddr oldSize newSize).res ≠ .ok start) ∧
      (Remap m oldAddr oldSize newSize).mem = m := by
  have e : Remap m oldAddr oldSize newSize = ⟨m, .error Fault.Unimplemented⟩ := by
    simp only [Remap, Map_zero m 0 newSize rfl]
  rw [e]
  refine ⟨rfl, ?_, rfl⟩
  intro start h
  cases h

/-! ## `Unmap` -/

/-- The loop of `Unmap`, when it ends: the range does not reach the last page, the pages of the
range are gone and nothing else changed. -/
theorem unmapLoop_some (fuel : Nat) : ∀ (m : PagedMemory) (tag te : Nat) (m1 : PagedMemory),
    unmapLoop fuel m tag te = some m1 →
    tag % 4096 = 0 → te % 4096 = 0 → tag < 4294967296 → te < 4294967296 →
    (tag ≤ te → te < 4294963200) ∧ m1.LittleEndian = m.LittleEndian ∧
      m1.NumPages = m.NumPages ∧
      (∀ i, GetIndex tag ≤ i → i ≤ GetIndex te → m1.Pages i = none) ∧
      (∀ i, ¬ (GetIndex tag ≤ i ∧ i ≤ GetIndex te) → m1.Pages i = m.Pages i) := by
  induction fuel with
  | zero => intro m tag te m1 h; simp [unmapLoop] at h
  | succ fuel ih =>
    intro m tag te m1 h htag hte hlt1 hlt2
    rw [unmapLoop] at h
    by_cases hc : tag ≤ te
    · simp only [hc, if_true] at h
      have hn : u32 (tag + pageSize) % 4096 = 0 ∧ u32 (tag + pageSize) < 4294967296 := by
        simp only [u32, pageSize]; omega
      obtain ⟨r1, r2, r3, r4, r5⟩ := ih _ _ _ _ h hn.1 hte hn.2 hlt2
      have hmax : te < 4294963200 := by
        by_contra hcon
        have : u32 (tag + pageSize) ≤ te := by omega
        have := r1 this
        omega
      have hu : u32 (tag + pageSize) = tag + 4096 := by simp only [u32, pageSize]; omega
      rw [hu] at r4 r5
      refine ⟨fun _ => hmax, r2, r3, ?_, ?_⟩
      · intro i h1 h2
        by_cases hi : GetIndex (tag + 4096) ≤ i
        · exact r4 i hi h2
        · rw [r5 i (by omega)]
          simp only [removePage, GetIndex, pageSize] at *
          rw [if_pos (by omega)]
      · intro i hi
        rw [r5 i (by simp only [GetIndex, pageSize] at *; omega)]
        simp only [removePage, GetIndex, pageSize] at *
        rw [if_neg (by omega)]
    · simp only [hc, if_false] at h
      injection h with h
      subst h
      refine ⟨fun h => absurd h hc, rfl, rfl, ?_, ?_⟩
      · intro i h1 h2
        simp only [GetIndex, pageSize] at *
        omega
      · intro i _; rfl

/-- The loop of `Unmap` ends when the range does not reach the last page. -/
theorem unmapLoop_ends (fuel : Nat) : ∀ (m : PagedMemory) (tag te : Nat),
    tag % 4096 = 0 → te % 4096 = 0 → te < 4294963200 → tag ≤ te + 4096 →
    (te + 4096 - tag) / 4096 < fuel → ∃ m1, unmapLoop fuel m tag te = some m1 := by
  induction fuel with
  | zero => intro m tag te _ _ _ _ h; omega
  | succ fuel ih =>
    intro m tag te htag hte hmax hle hf
    rw [unmapLoop]
    by_cases hc : tag ≤ te
    · simp only [hc, if_true]
      have hu : u32 (tag + pageSize) = tag + 4096 := by simp only [u32, pageSize]; omega
      rw [hu]
      exact ih _ _ _ (by omega) hte hmax (by omega) (by omega)
    · simp only [hc, if_false]
      exact ⟨m, rfl⟩

/-- C10: whenever `Unmap(vaddr, size)`, with `size >= 1` and `vaddr + size - 1 <= 0xFFFFFFFF`,
returns, no page whose tag lies between `tag(vaddr)` and `tag(vaddr + size - 1)` is mapped, and
every page outside that range is mapped exactly as before, with the same contents. It does return
when `tag(vaddr + size - 1)` is below the last page `0xFFFFF000`. -/
theorem unmap_drops_covered_pages (m : PagedMemory) (v s : Nat) (hs : 1 ≤ s)
    (hv : v + s - 1 ≤ 0xFFFFFFFF) :
    (GetTag (v + s - 1) < 0xFFFFF000 → ∃ fuel m1, Unmap fuel m v s = some m1) ∧
    ∀ fuel m1, Unmap fuel m v s = some m1 →
      (∀ x, GetTag v ≤ GetTag x → GetTag x ≤ GetTag (v + s - 1) → GetPage m1 x = none) ∧
      (∀ x, ¬ (GetTag v ≤ GetTag x ∧ GetTag x ≤ GetTag (v + s - 1)) →
        GetPage m1 x = GetPage m x) ∧
      m1.NumPages = m.NumPages ∧ m1.LittleEndian = m.LittleEndian := by
  have hu : u32 (v + s + 4294967296 - 1) = v + s - 1 := by simp only [u32]; omega
  have ht : GetTag v % 4096 = 0 ∧ GetTag (v + s - 1) % 4096 = 0 ∧ GetTag v < 4294967296 ∧
      GetTag (v + s - 1) < 4294967296 ∧ GetTag v ≤ GetTag (v + s - 1) := by
    simp only [GetTag, pageSize]; omega
  constructor
  · intro hlast
    obtain ⟨m1, e⟩ := unmapLoop_ends 1048577 m (GetTag v) (GetTag (v + s - 1)) ht.1 ht.2.1
      (by simpa using hlast) (by omega) (by omega)
    exact ⟨1048577, m1, by simp only [Unmap, hu, e]⟩
  · intro fuel m1 h
    simp only [Unmap, hu] at h
    obtain ⟨_, r2, r3, r4, r5⟩ := unmapLoop_some fuel m _ _ m1 h ht.1 ht.2.1 ht.2.2.1 ht.2.2.2.1
    refine ⟨?_, ?_, r3, r2⟩
    · intro x h1 h2
      apply r4
      · simp only [GetTag, GetIndex, pageSize] at *; omega
      · simp only [GetTag, GetIndex, pageSize] at *; omega
    · intro x hx
      apply r5
      simp only [GetTag, GetIndex, pageSize] at *
      omega

/-- C10, for two bytes across the boundary of the first two pages: `Unmap` returns after two
steps of its loop, and a third step to leave it. -/
theorem unmap_drops_covered_pages_witness :
    ∃ m1, Unmap 3 (NewPagedMemory true) 0x0FFF 2 = some m1 ∧
      (∀ x, GetTag 0x0FFF ≤ GetTag x → GetTag x ≤ GetTag (0x0FFF + 2 - 1) →
        GetPage m1 x = none) :=
  ⟨(unmapLoop 3 (NewPagedMemory true) 0 0x1000).getD (NewPagedMemory true), rfl,
    ((unmap_drops_covered_pages (NewPagedMemory true) 0x0FFF 2 (by norm_num) (by norm_num)).2 3
      _ rfl).1⟩

/-! ## The last page of the address space -/

/-- C28, as the code has it: the assertion of `Map` is reached when the run found ends at the last
page. In a memory whose page 0 is mapped, `Map(0xFFFFF000, 1)` finds the one unmapped page
`0xFFFFF000`; its second loop adds it, `tag += pageSize` wraps to 0, `tag <= tagEnd` still holds,
and the page 0 met there is mapped: the call fails with `Impossible`. And in no memory does
`Map(0xFFFFF000, 1)` return a value. -/
theorem map_last_page_reaches_assertion :
    (GetPage (WriteByteAt (NewPagedMemory true) 0 7).mem 0).isSome = true ∧
    (GetPage (WriteByteAt (NewPagedMemory true) 0 7).mem 0xFFFFF000).isSome = false ∧
    (Map (WriteByteAt (NewPagedMemory true) 0 7).mem 0xFFFFF000 1).res
      = .error Fault.Impossible ∧
    (∀ (m : PagedMemory) (b : Nat), (Map m 0xFFFFF000 1).res ≠ .ok b) := by
  refine ⟨by decide, by decide, rfl, ?_⟩
  intro m b h
  have e : Map m 0xFFFFF000 1 = ⟨(Map m 0xFFFFF000 1).mem, .ok b⟩ := by
    rw [← h]
  obtain ⟨_, h2, h3, _⟩ := Map_ok m 0xFFFFF000 1 _ b (by norm_num) e
  have hc := pageCount_pos 0xFFFFF000 1
  have e1 : GetTag 0xFFFFF000 = 4294963200 := by decide
  rw [e1] at h2
  have : 4096 ≤ pageCount 0xFFFFF000 1 * 4096 := by omega
  omega

/-- C29, as the code has it: the loop of `Unmap` does not end when the range ends in the last
page of the address space, since `tag <= tagEnd` holds for every page tag once `tagEnd` is
`0xFFFFF000`. Whatever the number of steps allowed, `Unmap(0xFFFFF000, 1)` has not returned, nor
has `Unmap(0, 0)`, whose `virtualAddress + size - 1` wraps to `0xFFFFFFFF`; and so for every
range whose last byte lies in the last page. -/
theorem unmap_last_page_never_ends :
    (∀ (fuel : Nat) (m : PagedMemory), Unmap fuel m 0xFFFFF000 1 = none) ∧
    (∀ (fuel : Nat) (m : PagedMemory), Unmap fuel m 0 0 = none) ∧
    (∀ (fuel : Nat) (m : PagedMemory) (v s : Nat), v < 4294967296 →
      GetTag (u32 (v + s + 4294967296 - 1)) = 0xFFFFF000 → Unmap fuel m v s = none) := by
  have key : ∀ (fuel : Nat) (m : PagedMemory) (v s : Nat), v < 4294967296 →
      GetTag (u32 (v + s + 4294967296 - 1)) = 0xFFFFF000 → Unmap fuel m v s = none := by
    intro fuel m v s hv hte
    cases hu : Unmap fuel m v s with
    | none => rfl
    | some m1 =>
      exfalso
      unfold Unmap at hu
      rw [hte] at hu
      have htag : GetTag v % 4096 = 0 ∧ GetTag v < 4294967296 ∧ GetTag v ≤ 4294963200 := by
        simp only [GetTag, pageSize]; omega
      obtain ⟨h1, _⟩ := unmapLoop_some fuel m (GetTag v) 4294963200 m1 hu htag.1 (by norm_num)
        htag.2.1 (by norm_num)
      have := h1 htag.2.2
      omega
  refine ⟨fun fuel m => key fuel m _ _ (by norm_num) (by decide),
    fun fuel m => key fuel m _ _ (by norm_num) (by decide), key⟩

/-! ## The frame of a write -/

/-- C30: a write touches only its own range. For every memory, address `a` and length `n` with
`n <= len(data)` and the range within the address space, `WriteBlockAt(a, n, data)` returns,
`ReadBlockAt(a, n)` then returns the first `n` bytes of `data`, and every byte at an address
outside `[a, a+n)` is read by `ReadByteAt` with the same value as before the write. -/
theorem write_touches_only_its_range (m : PagedMemory) (a n : Nat) (data : List Nat)
    (ha : a < 4294967296) (hr : a + n ≤ 4294967296) (hn : n < 4294967296)
    (hd : n ≤ data.length) :
    (WriteBlockAt m a n data).res = .ok () ∧
    (ReadBlockAt (WriteBlockAt m a n data).mem a n).res = .ok (data.take n) ∧
    (∀ x, x < 4294967296 → ¬ (a ≤ x ∧ x < a + n) →
      (ReadByteAt (WriteBlockAt m a n data).mem x).res = (ReadByteAt m x).res ∧
      byteAt (WriteBlockAt m a n data).mem x = byteAt m x) := by
  obtain ⟨m1, e, _, _, b1, b2⟩ := access_write_spec m a n data ha hn hd
  have hw : WriteBlockAt m a n data = ⟨m1, .ok ()⟩ := by
    simp only [WriteBlockAt, e, discard]
  rw [hw]
  refine ⟨rfl, ?_, ?_⟩
  · obtain ⟨m2, e2, _, _⟩ := access_read_spec m1 a n ha hn
    show (access m1 a n (List.replicate n 0) false true).res = _
    rw [e2]
    show Except.ok _ = Except.ok _
    congr 1
    apply List.ext_getElem
    · simp [Nat.min_eq_left hd]
    · intro j h1 h2
      simp only [List.length_map, List.length_range] at h1
      simp only [List.getElem_map, List.getElem_range, List.getElem_take]
      rw [b1 j h1, List.getD_eq_getElem _ _ (by omega)]
  · intro x hx hout
    have hb : byteAt m1 x = byteAt m x := by
      apply b2 x hx
      intro k hk hxk
      apply hout
      have : u32 (a + k) = a + k := Nat.mod_eq_of_lt (by omega)
      rw [this] at hxk
      omega
    refine ⟨?_, hb⟩
    rw [(ReadByteAt_spec m1 x hx).1, (ReadByteAt_spec m x hx).1, hb]

/-- C30, for a word written across the boundary of the pages 0 and 1 of an empty memory. -/
theorem write_touches_only_its_range_witness :
    (WriteBlockAt (NewPagedMemory true) 0x0FFE 4 [1, 2, 3, 4]).res = .ok () ∧
    (ReadBlockAt (WriteBlockAt (NewPagedMemory true) 0x0FFE 4 [1, 2, 3, 4]).mem 0x0FFE 4).res
      = .ok ([1, 2, 3, 4].take 4) ∧
    (ReadByteAt (WriteBlockAt (NewPagedMemory true) 0x0FFE 4 [1, 2, 3, 4]).mem 0x1002).res
      = (ReadByteAt (NewPagedMemory true) 0x1002).res :=
  have h := write_touches_only_its_range (NewPagedMemory true) 0x0FFE 4 [1, 2, 3, 4]
    (by norm_num) (by norm_num) (by norm_num) (by decide)
  ⟨h.1, h.2.1, (h.2.2 0x1002 (by norm_num) (by norm_num)).1⟩

namespace Cpu

/-! ## The flat numbering of the logical registers -/

/-- C11: the flat numbering of the logical registers is a bijection with the stated ranges. With
`NI = NUM_INT_REGISTERS` and `NF = NUM_FP_REGISTERS`, whose sum is a `uint32`: every flat index
`i` is `NewRegisterDependencyFromInt(i).ToInt()`; every dependency `d` whose `Num` is in range for
its class (`INT`: below `NI`, `FP`: below `NF`, `MISC`: without overflow of `ToInt`) is
`NewRegisterDependencyFromInt(d.ToInt())`; and `ToInt` maps `INT` below `NI`, `FP` from `NI` to
below `NI + NF` and `MISC` from `NI + NF` on. -/
theorem flat_register_numbering (NI NF : Nat) (h : NI + NF < 4294967296) :
    (∀ i, i < 4294967296 → (NewRegisterDependencyFromInt NI NF i).ToInt NI NF = i) ∧
    (∀ d : RegisterDependency,
      (d.DependencyType = .INT → d.Num < NI) →
      (d.DependencyType = .FP → d.Num < NF) →
      (d.DependencyType = .MISC → NI + NF + d.Num < 4294967296) →
      NewRegisterDependencyFromInt NI NF (d.ToInt NI NF) = d) ∧
    (∀ d : RegisterDependency, d.DependencyType = .INT → d.Num < NI → d.ToInt NI NF < NI) ∧
    (∀ d : RegisterDependency, d.DependencyType = .FP → d.Num < NF →
      NI ≤ d.ToInt NI NF ∧ d.ToInt NI NF < NI + NF) ∧
    (∀ d : RegisterDependency, d.DependencyType = .MISC → NI + NF + d.Num < 4294967296 →
      NI + NF ≤ d.ToInt NI NF) := by
  refine ⟨?_, ?_, ?_, ?_, ?_⟩
  · intro i hi
    unfold NewRegisterDependencyFromInt
    split_ifs with h1 h2
    · rfl
    · simp only [RegisterDependency.ToInt, NewRegisterDependency, u32]
      omega
    · simp only [RegisterDependency.ToInt, NewRegisterDependency, u32]
      omega
  · rintro ⟨t, n⟩ h1 h2 h3
    cases t
    · have := h1 rfl
      simp only at this
      simp [RegisterDependency.ToInt, NewRegisterDependencyFromInt, NewRegisterDependency, this]
    · have := h2 rfl
      simp only at this
      have e : u32 (NI + n) = NI + n := by simp only [u32]; omega
      simp only [RegisterDependency.ToInt, NewRegisterDependencyFromInt, NewRegisterDependency, e]
      rw [if_neg (by omega), if_pos (by omega)]
      congr 1
      omega
    · have := h3 rfl
      simp only at this
      have e : u32 (NI + NF + n) = NI + NF + n := by simp only [u32]; omega
      simp only [RegisterDependency.ToInt, NewRegisterDependencyFromInt, NewRegisterDependency, e]
      rw [if_neg (by omega), if_neg (by omega)]
      congr 1
      omega
  · rintro ⟨t, n⟩ ht hn
    simp only at ht hn
    subst ht
    simpa [RegisterDependency.ToInt] using hn
  · rintro ⟨t, n⟩ ht hn
    simp only at ht hn
    subst ht
    simp only [RegisterDependency.ToInt, u32]
    omega
  · rintro ⟨t, n⟩ ht hn
    simp only at ht hn
    subst ht
    simp only [RegisterDependency.ToInt, u32]
    omega

/-- C11, for the 32 integer and 32 floating-point registers of the simulated machine. -/
theorem flat_register_numbering_witness :
    (NewRegisterDependencyFromInt 32 32 40).ToInt 32 32 = 40 ∧
      NewRegisterDependencyFromInt 32 32 ((NewRegisterDependency .MISC 2).ToInt 32 32) =
        NewRegisterDependency .MISC 2 :=
  have h := flat_register_numbering 32 32 (by norm_num)
  ⟨h.1 40 (by norm_num), h.2.1 _ (by intro h; cases h) (by intro h; cases h)
    (by intro _; show 32 + 32 + 2 < 4294967296; norm_num)⟩

/-! ## Maps and register files -/

theorem find_map_other (l : List (DependencyRef × Option PhysRegRef))
    (k k1 : DependencyRef) (v : Option PhysRegRef) (h : k1 ≠ k) :
    ((l.map (fun p => if p.1 = k then (k, v) else p)).find? (fun p => decide (p.1 = k1))).map
        Prod.snd
      = (l.find? (fun p => decide (p.1 = k1))).map Prod.snd := by
  induction l with
  | nil => rfl
  | cons a l ih =>
    simp only [List.map_cons, List.find?_cons]
    by_cases ha : a.1 = k
    · have h1 : ¬ (k = k1) := fun e => h e.symm
      have h2 : ¬ (a.1 = k1) := by rw [ha]; exact h1
      simp only [ha, if_true, h1, h2, decide_False]
      exact ih
    · simp only [ha, if_false]
      by_cases hb : a.1 = k1
      · simp [hb]
      · simp only [hb, decide_False]
        exact ih

theorem find_map_same (l : List (DependencyRef × Option PhysRegRef))
    (k : DependencyRef) (v : Option PhysRegRef)
    (h : l.any (fun p => decide (p.1 = k)) = true) :
    (l.map (fun p => if p.1 = k then (k, v) else p)).find? (fun p => decide (p.1 = k))
      = some (k, v) := by
  induction l with
  | nil => simp at h
  | cons a l ih =>
    simp only [List.map_cons, List.find?_cons]
    by_cases ha : a.1 = k
    · simp [ha]
    · simp only [ha, if_false, decide_False]
      apply ih
      simpa [ha] using h

theorem find_append_new (l : List (DependencyRef × Option PhysRegRef))
    (k k1 : DependencyRef) (v : Option PhysRegRef)
    (h : ¬ l.any (fun p => decide (p.1 = k)) = true) :
    ((l ++ [(k, v)]).find? (fun p => decide (p.1 = k1))).map Prod.snd
      = if k1 = k then some v else (l.find? (fun p => decide (p.1 = k1))).map Prod.snd := by
  induction l with
  | nil =>
    by_cases hk : k = k1
    · simp [hk]
    · have : ¬ k1 = k := fun e => hk e.symm
      simp [hk, this]
  | cons a l ih =>
    have ha : ¬ a.1 = k := by
      intro e; apply h; simp [e]
    have hl : ¬ l.any (fun p => decide (p.1 = k)) = true := by
      intro e; apply h; simp only [List.any_cons, e, Bool.or_true]
    simp only [List.cons_append, List.find?_cons]
    by_cases hb : a.1 = k1
    · have : ¬ k1 = k := by rw [← hb]; exact ha
      simp [hb, this]
    · simp only [hb, decide_False]
      exact ih hl

/-- The value of a key of a map after an assignment. -/
theorem RegMap.get_set (m : RegMap) (k k1 : DependencyRef) (v : Option PhysRegRef) :
    (m.set k v).get k1 = if k1 = k then v else m.get k1 := by
  have hget : ∀ m : RegMap, ∀ k, m.get k =
      ((m.entries.find? (fun p => decide (p.1 = k))).map Prod.snd).join := by
    intro m k
    simp only [RegMap.get]
    cases m.entries.find? (fun p => decide (p.1 = k)) <;> rfl
  rw [hget, hget]
  simp only [RegMap.set]
  by_cases hany : m.entries.any (fun p => decide (p.1 = k)) = true
  · simp only [hany, if_true]
    by_cases hk : k1 = k
    · subst hk
      rw [find_map_same _ _ _ hany]
      simp
    · rw [find_map_other _ _ _ _ hk]
      simp [hk]
  · simp only [hany, Bool.false_eq_true, if_false]
    rw [find_append_new _ _ _ _ hany]
    by_cases hk : k1 = k
    · simp [hk]
    · simp [hk]

theorem RegMap.get_empty (k : DependencyRef) : RegMap.empty.get k = none := rfl

/-- The register behind a pointer after the replacement of a register file. -/
theorem reg_setPhysicalRegisterFile (t : OoOThread) (c : RegisterDependencyType)
    (f : PhysicalRegisterFile) (p : PhysRegRef) :
    (t.setPhysicalRegisterFile c f).reg p =
      if p.File = c then f.PhysicalRegisters p.Index else t.reg p := by
  obtain ⟨pf, pi⟩ := p
  cases c <;> cases pf <;> rfl

theorem GetPhysicalRegisterFile_set (t : OoOThread) (c c1 : RegisterDependencyType)
    (f : PhysicalRegisterFile) :
    (t.setPhysicalRegisterFile c f).GetPhysicalRegisterFile c1 =
      if c1 = c then f else t.GetPhysicalRegisterFile c1 := by
  cases c <;> cases c1 <;> rfl

/-- The register behind a pointer after the replacement of a register. -/
theorem reg_setReg (t : OoOThread) (r p : PhysRegRef) (x : PhysicalRegister) :
    (t.setReg r x).reg p = if p = r then x else t.reg p := by
  obtain ⟨pf, pi⟩ := p
  obtain ⟨rf, ri⟩ := r
  simp only [OoOThread.setReg, reg_setPhysicalRegisterFile, PhysRegRef.mk.injEq]
  by_cases h1 : pf = rf
  · subst h1
    by_cases h2 : pi = ri
    · simp [h2]
    · simp [h2, OoOThread.reg]
  · simp [h1]

theorem sameButRegisters_refl (t : OoOThread) : SameButRegisters t t := rfl

theorem sameButRegisters_trans {t t1 t2 : OoOThread} (h1 : SameButRegisters t t1)
    (h2 : SameButRegisters t1 t2) : SameButRegisters t t2 := by
  unfold SameButRegisters at *
  rw [h2, h1]

theorem sameButRegisters_setFile (t : OoOThread) (c : RegisterDependencyType)
    (f : PhysicalRegisterFile) : SameButRegisters t (t.setPhysicalRegisterFile c f) := by
  cases c <;> rfl

theorem sameButRegisters_setReg (t : OoOThread) (r : PhysRegRef) (x : PhysicalRegister) :
    SameButRegisters t (t.setReg r x) :=
  sameButRegisters_setFile _ _ _

/-! ## Rename: the stages -/

theorem renameInputs_fields (t : OoOThread) (ins : List DependencyRef)
    (e : ReorderBufferEntry) :
    renameInputs t ins e =
      { e with SourcePhysicalRegisters := (renameInputs t ins e).SourcePhysicalRegisters } := by
  induction ins generalizing e with
  | nil => rfl
  | cons d ds ih => rw [renameInputs, ih]

/-- The sources recorded by the loop over the input dependencies are the mappings of the rename
table. -/
theorem renameInputs_get (t : OoOThread) (ins : List DependencyRef) :
    ∀ (e : ReorderBufferEntry) (r : DependencyRef),
      (renameInputs t ins e).SourcePhysicalRegisters.get r =
        if r ∈ ins then t.RenameTable r else e.SourcePhysicalRegisters.get r := by
  induction ins with
  | nil => intro e r; simp [renameInputs]
  | cons d ds ih =>
    intro e r
    rw [renameInputs, ih]
    simp only [RegMap.get_set, List.mem_cons]
    by_cases h1 : r ∈ ds
    · simp [h1]
    · by_cases h2 : r = d
      · simp [h1, h2]
      · simp [h1, h2]

theorem Allocate_ok (f f1 : PhysicalRegisterFile) (d : DependencyRef) (i : Nat)
    (h : f.Allocate d = .ok (f1, i)) :
    (f.PhysicalRegisters i).State = .AVAILABLE ∧
      f1.PhysicalRegisters = (fun j =>
        if j = i then
          { f.PhysicalRegisters i with
              State := .RENAME_BUFFER_BUT_NOT_READY, Dependency := some d, Ready := false }
        else f.PhysicalRegisters j) := by
  unfold PhysicalRegisterFile.Allocate at h
  cases hf : (List.range f.Capacity).find?
      (fun i => decide ((f.PhysicalRegisters i).State = .AVAILABLE)) with
  | none => rw [hf] at h; cases h
  | some j =>
    rw [hf] at h
    simp only [Except.ok.injEq, Prod.mk.injEq] at h
    obtain ⟨h1, h2⟩ := h
    subst h2
    have := List.find?_some hf
    simp only [decide_eq_true_eq] at this
    refine ⟨this, ?_⟩
    rw [← h1]

theorem reg_withRenameTable (t : OoOThread) (rt : DependencyRef → Option PhysRegRef)
    (p : PhysRegRef) : ({ t with RenameTable := rt } : OoOThread).reg p = t.reg p := by
  obtain ⟨pf, pi⟩ := p
  cases pf <;> rfl

/-- The loop over the output dependencies changes the register files and the rename table only,
touches no register that was not free, and leaves the wakeup lists as they were. -/
theorem renameOutputs_frame (ds : List DependencyRef) :
    ∀ (t : OoOThread) (e : ReorderBufferEntry) (t1 : OoOThread)
      (r : Except Panic ReorderBufferEntry),
      renameOutputs ds t e = ⟨t1, r⟩ →
      SameButRegisters t t1 ∧
      (∀ p, (t.reg p).State ≠ .AVAILABLE → t1.reg p = t.reg p) ∧
      (∀ p, (t1.reg p).Dependents = (t.reg p).Dependents) ∧
      (∀ e1, r = .ok e1 →
        e1 = { e with
                OldPhysicalRegisters := e1.OldPhysicalRegisters,
                TargetPhysicalRegisters := e1.TargetPhysicalRegisters }) := by
  induction ds with
  | nil =>
    intro t e t1 r h
    simp only [renameOutputs, Outcome.mk.injEq] at h
    obtain ⟨h1, h2⟩ := h
    subst h1 h2
    refine ⟨sameButRegisters_refl _, fun _ _ => rfl, fun _ => rfl, ?_⟩
    intro e1 he
    injection he with he
    subst he
    rfl
  | cons d ds ih =>
    intro t e t1 r h
    rw [renameOutputs] at h
    cases ha : (t.GetPhysicalRegisterFile d.DependencyType).Allocate d with
    | error p =>
      rw [ha] at h
      simp only [Outcome.mk.injEq] at h
      obtain ⟨h1, h2⟩ := h
      subst h1 h2
      exact ⟨sameButRegisters_refl _, fun _ _ => rfl, fun _ => rfl, fun e1 he => by cases he⟩
    | ok fi =>
      obtain ⟨f, i⟩ := fi
      rw [ha] at h
      simp only at h
      obtain ⟨a1, a2⟩ := Allocate_ok _ _ _ _ ha
      obtain ⟨r1, r2, r3, r4⟩ := ih _ _ _ _ h
      have hreg : ∀ p : PhysRegRef,
          ({ t.setPhysicalRegisterFile d.DependencyType f with
              RenameTable := fun k =>
                if k = d then some { File := d.DependencyType, Index := i }
                else (t.setPhysicalRegisterFile d.DependencyType f).RenameTable k } :
            OoOThread).reg p =
          if p = { File := d.DependencyType, Index := i } then
            { t.reg p with
                State := .RENAME_BUFFER_BUT_NOT_READY, Dependency := some d, Ready := false }
          else t.reg p := by
        intro p
        rw [reg_withRenameTable, reg_setPhysicalRegisterFile, a2]
        obtain ⟨pf, pi⟩ := p
        simp only [PhysRegRef.mk.injEq]
        by_cases h1 : pf = d.DependencyType
        · subst h1
          by_cases h2 : pi = i
          · subst h2; simp [OoOThread.reg]
          · simp [h2, OoOThread.reg]
        · simp [h1]
      refine ⟨?_, ?_, ?_, ?_⟩
      · refine sameButRegisters_trans ?_ r1
        have := sameButRegisters_setFile t d.DependencyType f
        unfold SameButRegisters at *
        rw [this]
      · intro p hp
        have hne : p ≠ { File := d.DependencyType, Index := i } := by
          intro e
          apply hp
          rw [e]
          exact a1
        have h1 := hreg p
        rw [if_neg hne] at h1
        rw [r2 p (by rw [h1]; exact hp), h1]
      · intro p
        rw [r3 p, hreg p]
        split_ifs <;> rfl
      · intro e1 he
        have := r4 e1 he
        rw [this]

/-- The loop over pairwise distinct output dependencies: the old register of each is its mapping
from before, its target is a register that was free, now allocated to it and entered in the rename
table; nothing else of the rename table changes. -/
theorem renameOutputs_ok (ds : List DependencyRef) :
    ∀ (t : OoOThread) (e : ReorderBufferEntry) (t1 : OoOThread) (e1 : ReorderBufferEntry),
      renameOutputs ds t e = ⟨t1, .ok e1⟩ → ds.Nodup →
      (∀ r, r ∈ ds →
        e1.OldPhysicalRegisters.get r = t.RenameTable r ∧
        ∃ p, e1.TargetPhysicalRegisters.get r = some p ∧ p.File = r.DependencyType ∧
          (t.reg p).State = .AVAILABLE ∧
          (t1.reg p).State = .RENAME_BUFFER_BUT_NOT_READY ∧ (t1.reg p).Dependency = some r ∧
          t1.RenameTable r = some p) ∧
      (∀ r, r ∉ ds →
        e1.OldPhysicalRegisters.get r = e.OldPhysicalRegisters.get r ∧
        e1.TargetPhysicalRegisters.get r = e.TargetPhysicalRegisters.get r ∧
        t1.RenameTable r = t.RenameTable r) := by
  induction ds with
  | nil =>
    intro t e t1 e1 h _
    simp only [renameOutputs, Outcome.mk.injEq, Except.ok.injEq] at h
    obtain ⟨h1, h2⟩ := h
    subst h1 h2
    exact ⟨fun r hr => by simp at hr, fun r _ => ⟨rfl, rfl, rfl⟩⟩
  | cons d ds ih =>
    intro t e t1 e1 h hnd
    have hd : d ∉ ds := (List.nodup_cons.mp hnd).1
    have hnd1 : ds.Nodup := (List.nodup_cons.mp hnd).2
    rw [renameOutputs] at h
    cases ha : (t.GetPhysicalRegisterFile d.DependencyType).Allocate d with
    | error p => rw [ha] at h; simp at h
    | ok fi =>
      obtain ⟨f, i⟩ := fi
      rw [ha] at h
      simp only at h
      obtain ⟨a1, a2⟩ := Allocate_ok _ _ _ _ ha
      obtain ⟨r1, r2⟩ := ih _ _ _ _ h hnd1
      obtain ⟨_, f2, _, _⟩ := renameOutputs_frame _ _ _ _ _ h
      have hreg : ∀ p : PhysRegRef,
          ({ t.setPhysicalRegisterFile d.DependencyType f with
              RenameTable := fun k =>
                if k = d then some { File := d.DependencyType, Index := i }
                else (t.setPhysicalRegisterFile d.DependencyType f).RenameTable k } :
            OoOThread).reg p =
          if p = { File := d.DependencyType, Index := i } then
            { t.reg p with
                State := .RENAME_BUFFER_BUT_NOT_READY, Dependency := some d, Ready := false }
          else t.reg p := by
        intro p
        rw [reg_withRenameTable, reg_setPhysicalRegisterFile, a2]
        obtain ⟨pf, pi⟩ := p
        simp only [PhysRegRef.mk.injEq]
        by_cases h1 : pf = d.DependencyType
        · subst h1
          by_cases h2 : pi = i
          · subst h2; simp [OoOThread.reg]
          · simp [h2, OoOThread.reg]
        · simp [h1]
      have hrt : ∀ k, (t.setPhysicalRegisterFile d.DependencyType f).RenameTable k =
          t.RenameTable k := by
        intro k; cases d.DependencyType <;> rfl
      constructor
      · intro r hr
        rcases List.mem_cons.mp hr with hrd | hrds
        · subst hrd
          obtain ⟨o1, o2, o3⟩ := r2 r hd
          refine ⟨?_, ⟨{ File := r.DependencyType, Index := i }, ?_, rfl, a1, ?_, ?_, ?_⟩⟩
          · rw [o1]; simp [RegMap.get_set]
          · rw [o2]; simp [RegMap.get_set]
          · have h1 := hreg { File := r.DependencyType, Index := i }
            rw [if_pos rfl] at h1
            rw [f2 _ (by rw [h1]; simp), h1]
          · have h1 := hreg { File := r.DependencyType, Index := i }
            rw [if_pos rfl] at h1
            rw [f2 _ (by rw [h1]; simp), h1]
          · rw [o3]; simp
        · obtain ⟨o1, p, o2, o3, o4, o5, o6, o7⟩ := r1 r hrds
          have hne : r ≠ d := fun e => hd (e ▸ hrds)
          refine ⟨?_, p, o2, o3, ?_, o5, o6, o7⟩
          · rw [o1]; simp [hne, hrt]
          · have h1 := hreg p
            by_cases hp : p = { File := d.DependencyType, Index := i }
            · rw [if_pos hp] at h1
              rw [h1] at o4
              simp at o4
            · rw [if_neg hp] at h1
              rw [← h1]; exact o4
      · intro r hr
        have hne : r ≠ d := fun e => hr (e ▸ List.mem_cons_self _ _)
        have hr1 : r ∉ ds := fun e => hr (List.mem_cons_of_mem _ e)
        obtain ⟨o1, o2, o3⟩ := r2 r hr1
        refine ⟨?_, ?_, ?_⟩
        · rw [o1]; simp [RegMap.get_set, hne]
        · rw [o2]; simp [RegMap.get_set, hne]
        · rw [o3]; simp [hne, hrt]

/-- The loop over the source registers changes the lists of dependents only. -/
theorem markNotReady_frame (ref : EntryRef) (l : List (DependencyRef × Option PhysRegRef)) :
    ∀ (t : OoOThread) (n : Nat) (t1 : OoOThread) (r : Except Panic Nat),
      markNotReady ref l t n = ⟨t1, r⟩ →
      SameButRegisters t t1 ∧ t1.RenameTable = t.RenameTable ∧
      (∀ p, t1.reg p = { t.reg p with Dependents := (t1.reg p).Dependents }) := by
  induction l with
  | nil =>
    intro t n t1 r h
    simp only [markNotReady, Outcome.mk.injEq] at h
    obtain ⟨h1, _⟩ := h
    subst h1
    exact ⟨sameButRegisters_refl _, rfl, fun _ => rfl⟩
  | cons a l ih =>
    intro t n t1 r h
    obtain ⟨k, v⟩ := a
    cases v with
    | none =>
      simp only [markNotReady, Outcome.mk.injEq] at h
      obtain ⟨h1, _⟩ := h
      subst h1
      exact ⟨sameButRegisters_refl _, rfl, fun _ => rfl⟩
    | some s =>
      rw [markNotReady] at h
      by_cases hr : (t.reg s).Ready = true
      · rw [if_pos hr] at h
        exact ih _ _ _ _ h
      · rw [if_neg hr] at h
        obtain ⟨r1, r2, r3⟩ := ih _ _ _ _ h
        refine ⟨sameButRegisters_trans (sameButRegisters_setReg _ _ _) r1, ?_, ?_⟩
        · rw [r2]
          simp only [OoOThread.setReg]
          cases s.File <;> rfl
        · intro p
          rw [r3 p, reg_setReg]
          split_ifs with hp
          · subst hp; rfl
          · rfl

/-- The loop over the source registers, when it ends: no source is nil, the count grows by the
number of the entries of the map whose register is not ready, and the entry is appended to the
dependents of a register that is not ready once for each entry of the map that holds it. -/
theorem markNotReady_count (ref : EntryRef) (l : List (DependencyRef × Option PhysRegRef)) :
    ∀ (t : OoOThread) (n : Nat) (t1 : OoOThread) (n1 : Nat),
      markNotReady ref l t n = ⟨t1, .ok n1⟩ →
      (∀ x, x ∈ l → x.2 ≠ none) ∧
      n1 = n + ((l.filterMap Prod.snd).filter (fun p => !(t.reg p).Ready)).length ∧
      (∀ p, (t1.reg p).Dependents = (t.reg p).Dependents ++
        List.replicate
          (if (t.reg p).Ready = true then 0 else (l.filterMap Prod.snd).count p) ref) := by
  induction l with
  | nil =>
    intro t n t1 n1 h
    simp only [markNotReady, Outcome.mk.injEq, Except.ok.injEq] at h
    obtain ⟨h1, h2⟩ := h
    subst h1 h2
    exact ⟨fun x hx => by simp at hx, by simp, fun p => by simp⟩
  | cons a l ih =>
    intro t n t1 n1 h
    obtain ⟨k, v⟩ := a
    cases v with
    | none => simp [markNotReady] at h
    | some s =>
      rw [markNotReady] at h
      by_cases hr : (t.reg s).Ready = true
      · rw [if_pos hr] at h
        obtain ⟨r1, r2, r3⟩ := ih _ _ _ _ h
        refine ⟨?_, ?_, ?_⟩
        · intro x hx
          rcases List.mem_cons.mp hx with hx | hx
          · subst hx; simp
          · exact r1 x hx
        · rw [r2]
          simp [List.filterMap_cons, List.filter_cons, hr]
        · intro p
          rw [r3 p]
          by_cases hp : p = s
          · subst hp
            simp only [hr, if_true]
          · have hc : ((s :: l.filterMap Prod.snd).count p) = (l.filterMap Prod.snd).count p :=
              List.count_cons_of_ne hp _
            simp only [List.filterMap_cons, hc]
      · rw [if_neg hr] at h
        generalize ht2 : t.setReg s
          { t.reg s with Dependents := (t.reg s).Dependents ++ [ref] } = t2 at h
        obtain ⟨r1, r2, r3⟩ := ih _ _ _ _ h
        have hreg : ∀ p, t2.reg p =
            if p = s then { t.reg s with Dependents := (t.reg s).Dependents ++ [ref] }
            else t.reg p := by
          intro p
          rw [← ht2, reg_setReg]
        have hready : ∀ p, (t2.reg p).Ready = (t.reg p).Ready := by
          intro p
          rw [hreg]
          split_ifs with hp
          · subst hp; rfl
          · rfl
        have hf : (fun p => !(t2.reg p).Ready) = (fun p => !(t.reg p).Ready) := by
          funext p
          rw [hready]
        refine ⟨?_, ?_, ?_⟩
        · intro x hx
          rcases List.mem_cons.mp hx with hx | hx
          · subst hx; simp
          · exact r1 x hx
        · rw [r2, hf]
          simp only [List.filterMap_cons, List.filter_cons, hr, Bool.not_false,
            if_true, List.length_cons]
          omega
        · intro p
          rw [r3 p, hready, hreg]
          by_cases hp : p = s
          · subst hp
            have hc : ((p :: l.filterMap Prod.snd).count p)
                = (l.filterMap Prod.snd).count p + 1 := List.count_cons_self _ _
            simp only [List.filterMap_cons, hc, if_true, if_neg hr, List.replicate_succ,
              List.append_assoc, List.singleton_append]
          · have hc : ((s :: l.filterMap Prod.snd).count p) = (l.filterMap Prod.snd).count p :=
              List.count_cons_of_ne hp _
            simp only [List.filterMap_cons, hc, if_neg hp]

theorem sameButRegisters_toQueue {t t1 : OoOThread} (h : SameButRegisters t t1) :
    SameButRegistersAndLoadStoreQueue t t1 := by
  unfold SameButRegisters at h
  unfold SameButRegistersAndLoadStoreQueue
  rw [h]

theorem sameButRegistersAndLoadStoreQueue_trans {t t1 t2 : OoOThread}
    (h1 : SameButRegistersAndLoadStoreQueue t t1)
    (h2 : SameButRegistersAndLoadStoreQueue t1 t2) :
    SameButRegistersAndLoadStoreQueue t t2 := by
  unfold SameButRegistersAndLoadStoreQueue at *
  rw [h2, h1]

/-- The part on the operand of the effective address changes one wakeup list only. -/
theorem renameAddressOperand_frame (t : OoOThread) (id : Nat) (e : ReorderBufferEntry)
    (t1 : OoOThread) (r : Except Panic Bool) (h : renameAddressOperand t id e = ⟨t1, r⟩) :
    SameButRegisters t t1 ∧ t1.RenameTable = t.RenameTable ∧
      (∀ p, t1.reg p = { t.reg p with
        EffectiveAddressComputationOperandDependents :=
          (t1.reg p).EffectiveAddressComputationOperandDependents }) := by
  have triv : ∀ t0 : OoOThread, SameButRegisters t0 t0 ∧ t0.RenameTable = t0.RenameTable ∧
      (∀ p, t0.reg p = { t0.reg p with
        EffectiveAddressComputationOperandDependents :=
          (t0.reg p).EffectiveAddressComputationOperandDependents }) :=
    fun t0 => ⟨sameButRegisters_refl _, rfl, fun _ => rfl⟩
  unfold renameAddressOperand at h
  split at h
  · split at h
    · injection h with h1 _; subst h1; exact triv _
    · split at h
      · injection h with h1 _; subst h1; exact triv _
      · rename_i physReg _
        split at h
        · injection h with h1 _; subst h1; exact triv _
        · injection h with h1 _
          subst h1
          refine ⟨sameButRegisters_setReg _ _ _, ?_, ?_⟩
          · simp only [OoOThread.setReg]
            cases physReg.File <;> rfl
          · intro p
            rw [reg_setReg]
            split_ifs with hp
            · subst hp; rfl
            · rfl
  · injection h with h1 _; subst h1; exact triv _

/-- The part that builds the paired entry of the load/store queue. -/
theorem renameLoadStore_spec (t : OoOThread) (d : DecodeBufferEntry) (id : Nat)
    (e : ReorderBufferEntry) (t1 : OoOThread) (r : Except Panic (Option Nat))
    (h : renameLoadStore t d id e = ⟨t1, r⟩) :
    SameButRegistersAndLoadStoreQueue t t1 ∧ t1.RenameTable = t.RenameTable ∧
      (∀ p, (t1.reg p).State = (t.reg p).State ∧ (t1.reg p).Dependency = (t.reg p).Dependency ∧
        (t1.reg p).Ready = (t.reg p).Ready) ∧
      (d.DynamicInst.StaticInst.Mnemonic.StaticInstType.IsLoadOrStore = false →
        t1 = t ∧ r = .ok none) ∧
      (d.DynamicInst.StaticInst.Mnemonic.StaticInstType.IsLoadOrStore = true →
        ∀ l, r = .ok l →
          l = some id ∧ (t1.lsqEntries id).NumNotReadyOperands = e.NumNotReadyOperands ∧
          t1.LoadStoreQueue.Entries = t.LoadStoreQueue.Entries ++ [id] ∧
          (∀ p, (t1.reg p).Dependents = (t.reg p).Dependents ++
            List.replicate
              (if (t.reg p).Ready = true then 0
                else (e.SourcePhysicalRegisters.entries.filterMap Prod.snd).count p)
              (.lsq id))) := by
  unfold renameLoadStore at h
  by_cases hls : d.DynamicInst.StaticInst.Mnemonic.StaticInstType.IsLoadOrStore = true
  · simp only [hls, if_true] at h
    cases hm : markNotReady (.lsq id) e.SourcePhysicalRegisters.entries t 0 with
    | mk tm rm =>
      obtain ⟨m1, m2, m3⟩ := markNotReady_frame _ _ _ _ _ _ hm
      have hm' : markNotReady (EntryRef.lsq id)
          ({ NewLoadStoreQueueEntry d.DynamicInst d.Npc d.Nnpc d.PredictedNnpc 0 none false with
              EffectiveAddress := d.DynamicInst.EffectiveAddress,
              SourcePhysicalRegisters := e.SourcePhysicalRegisters,
              TargetPhysicalRegisters := e.TargetPhysicalRegisters } :
            LoadStoreQueueEntry).SourcePhysicalRegisters.entries t 0 = ⟨tm, rm⟩ := hm
      rw [hm'] at h
      have fieldsm : ∀ p, (tm.reg p).State = (t.reg p).State ∧
          (tm.reg p).Dependency = (t.reg p).Dependency ∧ (tm.reg p).Ready = (t.reg p).Ready := by
        intro p
        rw [m3 p]
        exact ⟨rfl, rfl, rfl⟩
      cases rm with
      | error q =>
        simp only [Outcome.mk.injEq] at h
        obtain ⟨h1, h2⟩ := h
        subst h1 h2
        refine ⟨(sameButRegisters_toQueue m1), m2, fieldsm, ?_, ?_⟩
        · intro hf; rw [hls] at hf; cases hf
        · intro _ l hl; cases hl
      | ok cnt =>
        simp only at h
        split at h
        · simp only [Outcome.mk.injEq] at h
          obtain ⟨h1, h2⟩ := h
          subst h1 h2
          refine ⟨(sameButRegisters_toQueue m1), m2, fieldsm, ?_, ?_⟩
          · intro hf; rw [hls] at hf; cases hf
          · intro _ l hl; cases hl
        · split at h
          · simp only [Outcome.mk.injEq] at h
            obtain ⟨h1, h2⟩ := h
            subst h1 h2
            refine ⟨(sameButRegisters_toQueue m1), m2, fieldsm, ?_, ?_⟩
            · intro hf; rw [hls] at hf; cases hf
            · intro _ l hl; cases hl
          · rename_i sa _
            simp only [Outcome.mk.injEq] at h
            obtain ⟨h1, h2⟩ := h
            subst h1 h2
            have hreg2 : ∀ p, (if (tm.reg sa).Ready = true then tm
                else tm.setReg sa
                  { tm.reg sa with
                      StoreAddressDependents :=
                        (tm.reg sa).StoreAddressDependents ++ [.lsq id] }).reg p
                = { tm.reg p with
                      StoreAddressDependents :=
                        ((if (tm.reg sa).Ready = true then tm
                          else tm.setReg sa
                            { tm.reg sa with
                                StoreAddressDependents :=
                                  (tm.reg sa).StoreAddressDependents ++ [.lsq id] }).reg
                          p).StoreAddressDependents } := by
              intro p
              split_ifs with hrd
              · rfl
              · rw [reg_setReg]
                split_ifs with hp
                · subst hp; rfl
                · rfl
            have hsame2 : SameButRegisters tm (if (tm.reg sa).Ready = true then tm
                else tm.setReg sa
                  { tm.reg sa with
                      StoreAddressDependents :=
                        (tm.reg sa).StoreAddressDependents ++ [.lsq id] }) := by
              split_ifs
              · exact sameButRegisters_refl _
              · exact sameButRegisters_setReg _ _ _
            have hrt2 : (if (tm.reg sa).Ready = true then tm
                else tm.setReg sa
                  { tm.reg sa with
                      StoreAddressDependents :=
                        (tm.reg sa).StoreAddressDependents ++ [.lsq id] }).RenameTable
                = tm.RenameTable := by
              split_ifs
              · rfl
              · simp only [OoOThread.setReg]
                cases sa.File <;> rfl
            generalize (if (tm.reg sa).Ready = true then tm
                else tm.setReg sa
                  { tm.reg sa with
                      StoreAddressDependents :=
                        (tm.reg sa).StoreAddressDependents ++ [.lsq id] }) = t2 at *
            have hregf : ∀ p, ({ t2 with
                lsqEntries := fun i =>
                  if i = id then
                    (if (tm.reg sa).Ready = true then
                      { ({ NewLoadStoreQueueEntry d.DynamicInst d.Npc d.Nnpc d.PredictedNnpc 0
                            none false with
                          EffectiveAddress := d.DynamicInst.EffectiveAddress,
                          SourcePhysicalRegisters := e.SourcePhysicalRegisters,
                          TargetPhysicalRegisters := e.TargetPhysicalRegisters,
                          NumNotReadyOperands := e.NumNotReadyOperands } :
                          LoadStoreQueueEntry) with StoreAddressReady := true }
                    else
                      { NewLoadStoreQueueEntry d.DynamicInst d.Npc d.Nnpc d.PredictedNnpc 0
                          none false with
                        EffectiveAddress := d.DynamicInst.EffectiveAddress,
                        SourcePhysicalRegisters := e.SourcePhysicalRegisters,
                        TargetPhysicalRegisters := e.TargetPhysicalRegisters,
                        NumNotReadyOperands := e.NumNotReadyOperands })
                  else t2.lsqEntries i,
                LoadStoreQueue :=
                  { t2.LoadStoreQueue with Entries := t2.LoadStoreQueue.Entries ++ [id] } } :
                OoOThread).reg p = t2.reg p := by
              intro p
              obtain ⟨pf, pi⟩ := p
              cases pf <;> rfl
            refine ⟨?_, ?_, ?_, ?_, ?_⟩
            · have q1 := (sameButRegisters_trans m1 hsame2)
              unfold SameButRegisters at q1
              unfold SameButRegistersAndLoadStoreQueue
              rw [q1]
            · show t2.RenameTable = t.RenameTable
              rw [hrt2, m2]
            · intro p
              rw [hregf p, hreg2 p]
              exact fieldsm p
            · intro hf; rw [hls] at hf; cases hf
            · intro _ l hl
              injection hl with hl
              subst hl
              refine ⟨rfl, ?_, ?_, ?_⟩
              · simp only [if_true]
                split_ifs <;> rfl
              · show t2.LoadStoreQueue.Entries ++ [id] = t.LoadStoreQueue.Entries ++ [id]
                have q1 := (sameButRegisters_trans m1 hsame2)
                unfold SameButRegisters at q1
                rw [q1]
              · intro p
                obtain ⟨_, _, o3⟩ := markNotReady_count _ _ _ _ _ _ hm
                rw [hregf p, hreg2 p]
                show (tm.reg p).Dependents = _
                rw [o3 p]
  · simp only [hls, Bool.false_eq_true, if_false, Outcome.mk.injEq] at h
    obtain ⟨h1, h2⟩ := h
    subst h1 h2
    refine ⟨sameButRegistersAndLoadStoreQueue_trans
      (sameButRegisters_toQueue (sameButRegisters_refl _)) (sameButRegisters_toQueue (sameButRegisters_refl _)), rfl,
      fun _ => ⟨rfl, rfl, rfl⟩, fun _ => ⟨rfl, rfl⟩, ?_⟩
    intro hf
    exact absurd hf hls

/-! ## Rename: the call as a whole -/

/-- The course of `RegisterRenameOne` on a decode buffer that is not empty: it returns `false`
with the thread unchanged when one of its two tests fails; otherwise it runs its stages and
returns `true`, or one of the stages panics. -/
theorem rename_cases (t : OoOThread) (d : DecodeBufferEntry) (rest : List DecodeBufferEntry)
    (hd : t.DecodeBuffer.Entries = d :: rest) :
    (renameStalls t d = true ∧ t.RegisterRenameOne = ⟨t, .ok false⟩) ∨
    (renameStalls t d = false ∧
      ((∃ t1 p, t.RegisterRenameOne = ⟨t1, .error p⟩) ∨
        ∃ t2 e2 t3 n t4 b t5 l,
          renameOutputs d.DynamicInst.StaticInst.OutputDependencies t
            (renameInputs t d.DynamicInst.StaticInst.InputDependencies (renameNewEntry d))
              = ⟨t2, .ok e2⟩ ∧
          markNotReady (.rob t.nextEntry) e2.SourcePhysicalRegisters.entries t2
            e2.NumNotReadyOperands = ⟨t3, .ok n⟩ ∧
          renameAddressOperand t3 t.nextEntry { e2 with NumNotReadyOperands := n } = ⟨t4, .ok b⟩ ∧
          renameLoadStore t4 d t.nextEntry
            { e2 with
                NumNotReadyOperands := n,
                EffectiveAddressComputationOperandReady := b } = ⟨t5, .ok l⟩ ∧
          t.RegisterRenameOne =
            ⟨renameFinish t5 t.nextEntry
                { e2 with
                    NumNotReadyOperands := n,
                    EffectiveAddressComputationOperandReady := b,
                    LoadStoreBufferEntry := l },
              .ok true⟩)) := by
  unfold OoOThread.RegisterRenameOne renameStalls
  rw [hd]
  simp only
  by_cases h1 : notEnoughFree t d.DynamicInst.StaticInst.NumPhysicalRegistersToAllocate = true
  · left
    simp [h1]
  · by_cases h2 : (d.DynamicInst.StaticInst.Mnemonic.StaticInstType.IsLoadOrStore
        && t.LoadStoreQueue.Full) = true
    · left
      simp [h1, h2]
    · right
      simp only [h1, h2, Bool.false_eq_true, if_false, Bool.or_self, true_and]
      cases ho : renameOutputs d.DynamicInst.StaticInst.OutputDependencies t
          (renameInputs t d.DynamicInst.StaticInst.InputDependencies (renameNewEntry d)) with
      | mk t2 r2 =>
        cases r2 with
        | error p => left; exact ⟨t2, p, rfl⟩
        | ok e2 =>
          simp only
          cases hm : markNotReady (.rob t.nextEntry) e2.SourcePhysicalRegisters.entries t2
              e2.NumNotReadyOperands with
          | mk t3 r3 =>
            cases r3 with
            | error p => left; exact ⟨t3, p, rfl⟩
            | ok n =>
              simp only
              cases ha : renameAddressOperand t3 t.nextEntry
                  { e2 with NumNotReadyOperands := n } with
              | mk t4 r4 =>
                cases r4 with
                | error p => left; exact ⟨t4, p, rfl⟩
                | ok b =>
                  simp only
                  cases hl : renameLoadStore t4 d t.nextEntry
                      { e2 with
                          NumNotReadyOperands := n,
                          EffectiveAddressComputationOperandReady := b } with
                  | mk t5 r5 =>
                    cases r5 with
                    | error p => left; exact ⟨t5, p, rfl⟩
                    | ok l =>
                      right
                      exact ⟨t2, e2, t3, n, t4, b, t5, l, rfl, hm, ha, hl, rfl⟩

/-! ## Rename: the buffers and the stalls -/

/-- What `RegisterRenameOne` does to the buffers when it returns `true`: the new entry, of number
`nextEntry`, is appended to the reorder buffer and carries the dynamic instruction of the head of
the decode buffer; the decode buffer loses its last entry. -/
theorem rename_buffers (t : OoOThread) (d : DecodeBufferEntry) (rest : List DecodeBufferEntry)
    (t1 : OoOThread) (hd : t.DecodeBuffer.Entries = d :: rest)
    (h : t.RegisterRenameOne = ⟨t1, .ok true⟩) :
    t1.DecodeBuffer.Entries = (d :: rest).take rest.length ∧
      t1.ReorderBuffer.Entries = t.ReorderBuffer.Entries ++ [t.nextEntry] ∧
      (t1.robEntries t.nextEntry).DynamicInst = d.DynamicInst := by
  rcases rename_cases t d rest hd with ⟨_, h1⟩ | ⟨_, ⟨tp, p, h1⟩ | h1⟩
  · rw [h1] at h; simp at h
  · rw [h1] at h; simp at h
  · obtain ⟨t2, e2, t3, n, t4, b, t5, l, s1, s2, s3, s4, s5⟩ := h1
    rw [s5] at h
    injection h with h _
    subst h
    obtain ⟨f1, _, _, f4⟩ := renameOutputs_frame _ _ _ _ _ s1
    obtain ⟨g1, _, _⟩ := markNotReady_frame _ _ _ _ _ _ s2
    obtain ⟨k1, _, _⟩ := renameAddressOperand_frame _ _ _ _ _ s3
    obtain ⟨l1, _, _, _, _⟩ := renameLoadStore_spec _ _ _ _ _ _ s4
    have q := sameButRegistersAndLoadStoreQueue_trans
      (sameButRegisters_toQueue (sameButRegisters_trans f1 (sameButRegisters_trans g1 k1))) l1
    unfold SameButRegistersAndLoadStoreQueue at q
    have e2eq := f4 e2 rfl
    refine ⟨?_, ?_, ?_⟩
    · simp only [renameFinish]
      rw [q]
      simp only [hd, List.length_cons, Nat.add_sub_cancel]
    · simp only [renameFinish]
      rw [q]
    · simp only [renameFinish, if_true]
      rw [e2eq, renameInputs_fields]
      rfl

/-- C12, as the code has it: with two entries in the decode buffer, a successful
`RegisterRenameOne` builds the entry of the reorder buffer from the head entry, instruction 0,
and then cuts the decode buffer at its tail: the head entry is still there, to be renamed again,
and the second entry, instruction 1, is lost. -/
theorem rename_cuts_decode_buffer_tail :
    ((sampleThread [sampleEntry 0 .INT_COMP [sampleRegister 1, sampleRegister 2] [sampleRegister 3] 0,
        sampleEntry 1 .INT_COMP [sampleRegister 3] [sampleRegister 4] 0]).RegisterRenameOne).res = .ok true ∧
      ((sampleThread [sampleEntry 0 .INT_COMP [sampleRegister 1, sampleRegister 2] [sampleRegister 3] 0,
        sampleEntry 1 .INT_COMP [sampleRegister 3] [sampleRegister 4] 0]).RegisterRenameOne).thread.DecodeBuffer.Entries
        = [sampleEntry 0 .INT_COMP [sampleRegister 1, sampleRegister 2] [sampleRegister 3] 0] ∧
      ((sampleThread [sampleEntry 0 .INT_COMP [sampleRegister 1, sampleRegister 2] [sampleRegister 3] 0,
        sampleEntry 1 .INT_COMP [sampleRegister 3] [sampleRegister 4] 0]).RegisterRenameOne).thread.ReorderBuffer.Entries
        = [0] ∧
      (((sampleThread [sampleEntry 0 .INT_COMP [sampleRegister 1, sampleRegister 2] [sampleRegister 3] 0,
        sampleEntry 1 .INT_COMP [sampleRegister 3] [sampleRegister 4] 0]).RegisterRenameOne).thread.robEntries
          0).DynamicInst.Id = 0 :=
  ⟨rfl, by decide, by decide, by decide⟩

/-- C13: with a decode buffer that is not empty, `RegisterRenameOne` returns `false` exactly when
some register class has fewer free physical registers than the head instruction's
`NumPhysicalRegistersToAllocate` for that class, or the head instruction is a load or store and
the load/store queue is full; and when it returns `false` the thread, with its rename table,
register files, decode buffer, reorder buffer and load/store queue, is unchanged. -/
theorem rename_stalls_iff (t : OoOThread) (d : DecodeBufferEntry) (rest : List DecodeBufferEntry)
    (hd : t.DecodeBuffer.Entries = d :: rest) :
    ((t.RegisterRenameOne).res = .ok false ↔
      ((∃ p, p ∈ d.DynamicInst.StaticInst.NumPhysicalRegistersToAllocate ∧
          (t.GetPhysicalRegisterFile p.1).NumFreePhysicalRegisters < p.2) ∨
        (d.DynamicInst.StaticInst.Mnemonic.StaticInstType.IsLoadOrStore = true ∧
          t.LoadStoreQueue.Full = true))) ∧
    ((t.RegisterRenameOne).res = .ok false → (t.RegisterRenameOne).thread = t) := by
  have hst : renameStalls t d = true ↔
      ((∃ p, p ∈ d.DynamicInst.StaticInst.NumPhysicalRegistersToAllocate ∧
          (t.GetPhysicalRegisterFile p.1).NumFreePhysicalRegisters < p.2) ∨
        (d.DynamicInst.StaticInst.Mnemonic.StaticInstType.IsLoadOrStore = true ∧
          t.LoadStoreQueue.Full = true)) := by
    simp only [renameStalls, notEnoughFree, Bool.or_eq_true, List.any_eq_true,
      decide_eq_true_eq, Bool.and_eq_true]
  rcases rename_cases t d rest hd with ⟨c, h1⟩ | ⟨c, ⟨tp, p, h1⟩ | h1⟩
  · rw [h1]
    exact ⟨⟨fun _ => hst.mp c, fun _ => rfl⟩, fun _ => rfl⟩
  · rw [h1]
    refine ⟨⟨fun h => (by cases h), fun h => ?_⟩, fun h => (by cases h)⟩
    rw [hst.mpr h] at c
    cases c
  · obtain ⟨t2, e2, t3, n, t4, b, t5, l, _, _, _, _, s5⟩ := h1
    rw [s5]
    refine ⟨⟨fun h => (by simp at h), fun h => ?_⟩, fun h => (by simp at h)⟩
    rw [hst.mpr h] at c
    cases c

/-- C13, for an integer instruction at the head of the decode buffer of a new thread, which has
free registers in each file: `RegisterRenameOne` does not return `false`. -/
theorem rename_stalls_iff_witness :
    ((sampleThread [sampleEntry 0 .INT_COMP [sampleRegister 1] [sampleRegister 3] 0]).RegisterRenameOne).res
        = .ok false ↔
      ((∃ p, p ∈ (sampleEntry 0 .INT_COMP [sampleRegister 1] [sampleRegister 3]
            0).DynamicInst.StaticInst.NumPhysicalRegistersToAllocate ∧
          ((sampleThread [sampleEntry 0 .INT_COMP [sampleRegister 1] [sampleRegister 3]
            0]).GetPhysicalRegisterFile p.1).NumFreePhysicalRegisters < p.2) ∨
        ((sampleEntry 0 .INT_COMP [sampleRegister 1] [sampleRegister 3]
            0).DynamicInst.StaticInst.Mnemonic.StaticInstType.IsLoadOrStore = true ∧
          (sampleThread [sampleEntry 0 .INT_COMP [sampleRegister 1] [sampleRegister 3]
            0]).LoadStoreQueue.Full = true)) :=
  (rename_stalls_iff (sampleThread [sampleEntry 0 .INT_COMP [sampleRegister 1] [sampleRegister 3] 0])
    (sampleEntry 0 .INT_COMP [sampleRegister 1] [sampleRegister 3] 0) [] rfl).1

/-- What an assignment makes of the entries of a map. -/
theorem RegMap.set_entries (m : RegMap) (k : DependencyRef) (v : Option PhysRegRef)
    (hnd : (m.entries.map Prod.fst).Nodup) :
    ((m.set k v).entries.map Prod.fst).Nodup ∧
    (∀ x, x ∈ (m.set k v).entries → x = (k, v) ∨ x ∈ m.entries) ∧
    (∀ k1, k1 ∈ (m.set k v).entries.map Prod.fst ↔ k1 = k ∨ k1 ∈ m.entries.map Prod.fst) := by
  unfold RegMap.set
  by_cases hany : m.entries.any (fun p => decide (p.1 = k)) = true
  · rw [if_pos hany]
    have hk : k ∈ m.entries.map Prod.fst := by
      obtain ⟨x, hx1, hx2⟩ := List.any_eq_true.mp hany
      exact List.mem_map.mpr ⟨x, hx1, of_decide_eq_true hx2⟩
    have hfst : (m.entries.map (fun p => if p.1 = k then (k, v) else p)).map Prod.fst
        = m.entries.map Prod.fst := by
      rw [List.map_map]
      apply List.map_congr_left
      intro x _
      show (if x.1 = k then (k, v) else x).1 = x.1
      split_ifs with hx
      · exact hx.symm
      · rfl
    refine ⟨?_, ?_, ?_⟩
    · show ((m.entries.map (fun p => if p.1 = k then (k, v) else p)).map Prod.fst).Nodup
      rw [hfst]
      exact hnd
    · intro x hx
      obtain ⟨y, hy1, hy2⟩ := List.mem_map.mp hx
      split_ifs at hy2 with hy
      · exact Or.inl hy2.symm
      · rw [← hy2]
        exact Or.inr hy1
    · intro k1
      show k1 ∈ (m.entries.map (fun p => if p.1 = k then (k, v) else p)).map Prod.fst ↔ _
      rw [hfst]
      constructor
      · exact Or.inr
      · rintro (h | h)
        · rw [h]; exact hk
        · exact h
  · rw [if_neg hany]
    have hk : k ∉ m.entries.map Prod.fst := by
      intro hk
      apply hany
      obtain ⟨x, hx1, hx2⟩ := List.mem_map.mp hk
      exact List.any_eq_true.mpr ⟨x, hx1, decide_eq_true hx2⟩
    refine ⟨?_, ?_, ?_⟩
    · show ((m.entries ++ [(k, v)]).map Prod.fst).Nodup
      rw [List.map_append, List.nodup_append]
      refine ⟨hnd, by simp, ?_⟩
      intro a ha hb
      simp only [List.map_cons, List.map_nil, List.mem_singleton] at hb
      rw [hb] at ha
      exact hk ha
    · intro x hx
      rcases List.mem_append.mp hx with hx | hx
      · exact Or.inr hx
      · exact Or.inl (List.mem_singleton.mp hx)
    · intro k1
      show k1 ∈ (m.entries ++ [(k, v)]).map Prod.fst ↔ _
      rw [List.map_append, List.mem_append]
      simp only [List.map_cons, List.map_nil, List.mem_singleton]
      exact Or.comm

/-- The entries of the map of the sources after the loop over the input dependencies. -/
theorem renameInputs_entries (t : OoOThread) (ins : List DependencyRef) :
    ∀ (e : ReorderBufferEntry),
      (e.SourcePhysicalRegisters.entries.map Prod.fst).Nodup →
      (∀ x, x ∈ e.SourcePhysicalRegisters.entries → x.2 = t.RenameTable x.1) →
      ((renameInputs t ins e).SourcePhysicalRegisters.entries.map Prod.fst).Nodup ∧
      (∀ x, x ∈ (renameInputs t ins e).SourcePhysicalRegisters.entries →
        x.2 = t.RenameTable x.1) ∧
      (∀ k, k ∈ (renameInputs t ins e).SourcePhysicalRegisters.entries.map Prod.fst ↔
        k ∈ ins ∨ k ∈ e.SourcePhysicalRegisters.entries.map Prod.fst) := by
  induction ins with
  | nil =>
    intro e h1 h2
    exact ⟨h1, h2, fun k => by simp [renameInputs]⟩
  | cons d ds ih =>
    intro e h1 h2
    rw [renameInputs]
    obtain ⟨s1, s2, s3⟩ := RegMap.set_entries e.SourcePhysicalRegisters d (t.RenameTable d) h1
    obtain ⟨r1, r2, r3⟩ := ih
      { e with
          SourcePhysicalRegisters := e.SourcePhysicalRegisters.set d (t.RenameTable d) } s1
      (by
        intro x hx
        rcases s2 x hx with hx | hx
        · rw [hx]
        · exact h2 x hx)
    refine ⟨r1, r2, ?_⟩
    intro k
    rw [r3 k]
    show k ∈ ds ∨ k ∈ (e.SourcePhysicalRegisters.set d (t.RenameTable d)).entries.map Prod.fst ↔ _
    rw [s3 k, List.mem_cons]
    constructor
    · rintro (h | h | h)
      · exact Or.inl (Or.inr h)
      · exact Or.inl (Or.inl h)
      · exact Or.inr h
    · rintro ((h | h) | h)
      · exact Or.inr (Or.inl h)
      · exact Or.inl h
      · exact Or.inr (Or.inr h)

theorem reg_renameFinish (t : OoOThread) (id : Nat) (e : ReorderBufferEntry) (p : PhysRegRef) :
    (renameFinish t id e).reg p = t.reg p := by
  obtain ⟨pf, pi⟩ := p
  cases pf <;> rfl

/-- The stages of a call of `RegisterRenameOne` that returns `true`, with what they leave of the
registers and of the rename table. -/
theorem rename_true (t : OoOThread) (d : DecodeBufferEntry) (rest : List DecodeBufferEntry)
    (t1 : OoOThread) (hd : t.DecodeBuffer.Entries = d :: rest)
    (h : t.RegisterRenameOne = ⟨t1, .ok true⟩) :
    ∃ t2 e2 t3 n t4 b t5 l,
      renameOutputs d.DynamicInst.StaticInst.OutputDependencies t
        (renameInputs t d.DynamicInst.StaticInst.InputDependencies (renameNewEntry d))
          = ⟨t2, .ok e2⟩ ∧
      markNotReady (.rob t.nextEntry) e2.SourcePhysicalRegisters.entries t2
        e2.NumNotReadyOperands = ⟨t3, .ok n⟩ ∧
      renameAddressOperand t3 t.nextEntry { e2 with NumNotReadyOperands := n } = ⟨t4, .ok b⟩ ∧
      renameLoadStore t4 d t.nextEntry
        { e2 with
            NumNotReadyOperands := n,
            EffectiveAddressComputationOperandReady := b } = ⟨t5, .ok l⟩ ∧
      t1.robEntries t.nextEntry =
        { e2 with
            NumNotReadyOperands := n,
            EffectiveAddressComputationOperandReady := b,
            LoadStoreBufferEntry := l } ∧
      t1.lsqEntries = t5.lsqEntries ∧
      e2.SourcePhysicalRegisters =
        (renameInputs t d.DynamicInst.StaticInst.InputDependencies
          (renameNewEntry d)).SourcePhysicalRegisters ∧
      e2.NumNotReadyOperands = 0 ∧
      t1.RenameTable = t2.RenameTable ∧
      (∀ p, (t1.reg p).State = (t2.reg p).State ∧ (t1.reg p).Dependency = (t2.reg p).Dependency ∧
        (t1.reg p).Ready = (t2.reg p).Ready ∧ (t3.reg p).Ready = (t2.reg p).Ready ∧
        (t4.reg p).Ready = (t2.reg p).Ready) ∧
      (∀ p, (t2.reg p).Dependents = (t.reg p).Dependents ∧
        (t4.reg p).Dependents = (t3.reg p).Dependents ∧
        (t1.reg p).Dependents = (t5.reg p).Dependents) := by
  rcases rename_cases t d rest hd with ⟨_, h1⟩ | ⟨_, ⟨tp, p, h1⟩ | h1⟩
  · rw [h1] at h; simp at h
  · rw [h1] at h; simp at h
  · obtain ⟨t2, e2, t3, n, t4, b, t5, l, s1, s2, s3, s4, s5⟩ := h1
    rw [s5] at h
    injection h with h _
    subst h
    obtain ⟨_, _, f3, f4⟩ := renameOutputs_frame _ _ _ _ _ s1
    obtain ⟨_, g2, g3⟩ := markNotReady_frame _ _ _ _ _ _ s2
    obtain ⟨_, k2, k3⟩ := renameAddressOperand_frame _ _ _ _ _ s3
    obtain ⟨_, l2, l3, _, _⟩ := renameLoadStore_spec _ _ _ _ _ _ s4
    have e2eq := f4 e2 rfl
    refine ⟨t2, e2, t3, n, t4, b, t5, l, s1, s2, s3, s4, ?_, rfl, ?_, ?_, ?_, ?_, ?_⟩
    · simp only [renameFinish, if_true]
    · rw [e2eq]
    · rw [e2eq, renameInputs_fields]
      rfl
    · show t5.RenameTable = t2.RenameTable
      rw [l2, k2, g2]
    · intro p
      have a3 : (t3.reg p).State = (t2.reg p).State ∧
          (t3.reg p).Dependency = (t2.reg p).Dependency ∧
          (t3.reg p).Ready = (t2.reg p).Ready := by
        rw [g3 p]; exact ⟨rfl, rfl, rfl⟩
      have a4 : (t4.reg p).State = (t3.reg p).State ∧
          (t4.reg p).Dependency = (t3.reg p).Dependency ∧
          (t4.reg p).Ready = (t3.reg p).Ready := by
        rw [k3 p]; exact ⟨rfl, rfl, rfl⟩
      obtain ⟨b1, b2, b3⟩ := l3 p
      rw [reg_renameFinish]
      refine ⟨?_, ?_, ?_, a3.2.2, ?_⟩
      · rw [b1, a4.1, a3.1]
      · rw [b2, a4.2.1, a3.2.1]
      · rw [b3, a4.2.2, a3.2.2]
      · rw [a4.2.2, a3.2.2]
    · intro p
      refine ⟨f3 p, ?_, ?_⟩
      · rw [k3 p]
      · rw [reg_renameFinish]

/-- C14: after a successful `RegisterRenameOne` of an instruction whose output dependencies are
pairwise distinct. A dependency is the pointer that the instruction holds, and the mapping of the
rename table is the value of the map under this pointer, nil when the pointer is not one of its
keys. For every input dependency the source register of the new entry of the reorder buffer is
the mapping of the rename table from before the call, and it is a register: the call succeeds
only when every input is a key of the table. For every output dependency the old register of the
entry is the mapping from before the call, its target register is a register of the file of the
class that was free (`AVAILABLE`) before the call and is now allocated to the dependency, and the
rename table maps the dependency to it; and the rename table still maps every dependency that is
not an output as before. -/
theorem rename_maps_registers (t : OoOThread) (d : DecodeBufferEntry)
    (rest : List DecodeBufferEntry) (t1 : OoOThread) (hd : t.DecodeBuffer.Entries = d :: rest)
    (h : t.RegisterRenameOne = ⟨t1, .ok true⟩)
    (hnd : d.DynamicInst.StaticInst.OutputDependencies.Nodup) :
    (∀ r, r ∈ d.DynamicInst.StaticInst.InputDependencies →
      (t1.robEntries t.nextEntry).SourcePhysicalRegisters.get r = t.RenameTable r ∧
      ∃ p, t.RenameTable r = some p) ∧
    (∀ r, r ∈ d.DynamicInst.StaticInst.OutputDependencies →
      (t1.robEntries t.nextEntry).OldPhysicalRegisters.get r = t.RenameTable r ∧
      ∃ p, (t1.robEntries t.nextEntry).TargetPhysicalRegisters.get r = some p ∧
        p.File = r.DependencyType ∧ (t.reg p).State = .AVAILABLE ∧
        (t1.reg p).State = .RENAME_BUFFER_BUT_NOT_READY ∧ (t1.reg p).Dependency = some r ∧
        t1.RenameTable r = some p) ∧
    (∀ r, r ∉ d.DynamicInst.StaticInst.OutputDependencies →
      t1.RenameTable r = t.RenameTable r) := by
  obtain ⟨t2, e2, t3, n, t4, b, t5, l, s1, s2, _, _, hA, _, hS, _, hB, hC, _⟩ :=
    rename_true t d rest t1 hd h
  obtain ⟨o1, o2⟩ := renameOutputs_ok _ _ _ _ _ s1 hnd
  refine ⟨?_, ?_, ?_⟩
  · intro r hr
    refine ⟨?_, ?_⟩
    · rw [hA]
      show e2.SourcePhysicalRegisters.get r = _
      rw [hS, renameInputs_get, if_pos hr]
    · obtain ⟨_, r2, r3⟩ := renameInputs_entries t d.DynamicInst.StaticInst.InputDependencies
        (renameNewEntry d) (by simp [renameNewEntry, NewReorderBufferEntry, RegMap.empty])
        (by simp [renameNewEntry, NewReorderBufferEntry, RegMap.empty])
      obtain ⟨m1, _, _⟩ := markNotReady_count _ _ _ _ _ _ s2
      rw [hS] at m1
      obtain ⟨x, hx1, hx2⟩ := List.mem_map.mp ((r3 r).mpr (Or.inl hr))
      have hx3 := r2 x hx1
      have hx4 := m1 x hx1
      rw [hx3, hx2] at hx4
      cases hrt : t.RenameTable r with
      | none => exact absurd hrt hx4
      | some p => exact ⟨p, rfl⟩
  · intro r hr
    obtain ⟨q1, p, q2, q3, q4, q5, q6, q7⟩ := o1 r hr
    rw [hA]
    refine ⟨q1, p, q2, q3, q4, ?_, ?_, ?_⟩
    · rw [(hC p).1]; exact q5
    · rw [(hC p).2.1]; exact q6
    · rw [hB]; exact q7
  · intro r hr
    rw [hB]
    exact (o2 r hr).2.2

/-- C14, for an addition `r3 := r1 + r2` at the head of the decode buffer of a new thread, whose
dependencies are the keys of the rename table: the old register of the output `r3` in the new
entry is the mapping of `r3` from before the call. -/
theorem rename_maps_registers_witness :
    (((sampleThread [sampleEntry 0 .INT_COMP [sampleRegister 1, sampleRegister 2] [sampleRegister 3]
        0]).RegisterRenameOne).thread.robEntries 0).OldPhysicalRegisters.get (sampleRegister 3) =
      (sampleThread [sampleEntry 0 .INT_COMP [sampleRegister 1, sampleRegister 2] [sampleRegister 3]
        0]).RenameTable (sampleRegister 3) :=
  ((rename_maps_registers
    (sampleThread [sampleEntry 0 .INT_COMP [sampleRegister 1, sampleRegister 2] [sampleRegister 3] 0])
    (sampleEntry 0 .INT_COMP [sampleRegister 1, sampleRegister 2] [sampleRegister 3] 0) []
    ((sampleThread [sampleEntry 0 .INT_COMP [sampleRegister 1, sampleRegister 2] [sampleRegister 3]
      0]).RegisterRenameOne).thread rfl rfl (by decide)).2.1 (sampleRegister 3) (by decide)).1

/-- The rename table has one key for each logical register, the object that `NewOoOThread` made
for it. Another object for the same register, as a later call of `NewRegisterDependency` makes
it, is not a key: the table gives nil under it, and the rename of an instruction that holds it as
an input panics when it reads the ready flag of the source (line 229). -/
theorem rename_misses_foreign_dependency :
    (sampleThread []).RenameTable (sampleRegister 3) = some ⟨.INT, 3⟩ ∧
    (sampleThread []).RenameTable
      { toRegisterDependency := NewRegisterDependency .INT 3, Address := 100 } = none ∧
    ((sampleThread [sampleEntry 0 .INT_COMP
        [{ toRegisterDependency := NewRegisterDependency .INT 3, Address := 100 }] []
        0]).RegisterRenameOne).res = .error .NilPointer :=
  ⟨by decide, by decide, rfl⟩

/-! ## Rename: the count of operands not ready -/

/-- The source registers of the entry that `RegisterRenameOne` creates, when the rename table
maps the input dependencies of the instruction to registers that differ. -/
theorem rename_sources (t : OoOThread) (d : DecodeBufferEntry)
    (hinj : ∀ a, a ∈ d.DynamicInst.StaticInst.InputDependencies →
      ∀ b, b ∈ d.DynamicInst.StaticInst.InputDependencies →
        t.RenameTable a = t.RenameTable b → a = b) :
    (((renameInputs t d.DynamicInst.StaticInst.InputDependencies
        (renameNewEntry d)).SourcePhysicalRegisters.entries).map Prod.snd).Nodup ∧
    (∀ p, p ∈ ((renameInputs t d.DynamicInst.StaticInst.InputDependencies
        (renameNewEntry d)).SourcePhysicalRegisters.entries).filterMap Prod.snd ↔
      ∃ r, r ∈ d.DynamicInst.StaticInst.InputDependencies ∧ t.RenameTable r = some p) := by
  obtain ⟨r1, r2, r3⟩ := renameInputs_entries t d.DynamicInst.StaticInst.InputDependencies
    (renameNewEntry d) (by simp [renameNewEntry, NewReorderBufferEntry, RegMap.empty])
    (by simp [renameNewEntry, NewReorderBufferEntry, RegMap.empty])
  have hkeys : ∀ k, k ∈ (renameInputs t d.DynamicInst.StaticInst.InputDependencies
      (renameNewEntry d)).SourcePhysicalRegisters.entries.map Prod.fst ↔
      k ∈ d.DynamicInst.StaticInst.InputDependencies := by
    intro k
    rw [r3 k]
    simp [renameNewEntry, NewReorderBufferEntry, RegMap.empty]
  generalize (renameInputs t d.DynamicInst.StaticInst.InputDependencies
      (renameNewEntry d)).SourcePhysicalRegisters.entries = l at r1 r2 hkeys
  have hsnd : l.map Prod.snd = (l.map Prod.fst).map t.RenameTable := by
    rw [List.map_map]
    apply List.map_congr_left
    intro x hx
    exact r2 x hx
  refine ⟨?_, ?_⟩
  · rw [hsnd]
    apply List.Nodup.map_on _ r1
    intro a ha b hb hab
    exact hinj a ((hkeys a).mp ha) b ((hkeys b).mp hb) hab
  · intro p
    rw [List.mem_filterMap]
    constructor
    · rintro ⟨x, hx1, hx2⟩
      refine ⟨x.1, (hkeys x.1).mp (List.mem_map.mpr ⟨x, hx1, rfl⟩), ?_⟩
      rw [← r2 x hx1]
      exact hx2
    · rintro ⟨r, hr1, hr2⟩
      obtain ⟨x, hx1, hx2⟩ := List.mem_map.mp ((hkeys r).mpr hr1)
      refine ⟨x, hx1, ?_⟩
      rw [r2 x hx1, hx2]
      exact hr2

/-- C15: after a successful `RegisterRenameOne`. The map of the sources of the new entry of the
reorder buffer has one entry for each distinct input dependency of the instruction, with the
register that the rename table gave for it before the call. The count `NumNotReadyOperands` of
the entry is the number of these entries whose register is not ready. The entry has been appended
to the list `Dependents` of a register that is not ready once for each entry of the map that
holds the register, followed for a load or a store by as many copies of the paired entry of the
load/store queue; the list `Dependents` of a register that is ready, or that is no source, is as
before. For a load or a store the paired entry of the load/store queue has the same count
`NumNotReadyOperands`. When the rename table maps the input dependencies of the instruction to
registers that differ, the registers of the map differ: the count is then the number of the
distinct source registers that are not ready, and the entry is appended once to each of them. -/
theorem rename_counts_operands (t : OoOThread) (d : DecodeBufferEntry)
    (rest : List DecodeBufferEntry) (t1 : OoOThread) (hd : t.DecodeBuffer.Entries = d :: rest)
    (h : t.RegisterRenameOne = ⟨t1, .ok true⟩) :
    (((t1.robEntries t.nextEntry).SourcePhysicalRegisters.entries.map Prod.fst).Nodup ∧
      (∀ r, r ∈ (t1.robEntries t.nextEntry).SourcePhysicalRegisters.entries.map Prod.fst ↔
        r ∈ d.DynamicInst.StaticInst.InputDependencies) ∧
      (∀ x, x ∈ (t1.robEntries t.nextEntry).SourcePhysicalRegisters.entries →
        ∃ p, x.2 = some p ∧ t.RenameTable x.1 = some p)) ∧
    (t1.robEntries t.nextEntry).NumNotReadyOperands =
      (((t1.robEntries t.nextEntry).SourcePhysicalRegisters.entries.filterMap Prod.snd).filter
        (fun p => !(t1.reg p).Ready)).length ∧
    (∀ p, (t1.reg p).Dependents = (t.reg p).Dependents ++
      (List.replicate
          (if (t1.reg p).Ready = true then 0
            else ((t1.robEntries t.nextEntry).SourcePhysicalRegisters.entries.filterMap
              Prod.snd).count p)
          (EntryRef.rob t.nextEntry) ++
        (if d.DynamicInst.StaticInst.Mnemonic.StaticInstType.IsLoadOrStore then
          List.replicate
            (if (t1.reg p).Ready = true then 0
              else ((t1.robEntries t.nextEntry).SourcePhysicalRegisters.entries.filterMap
                Prod.snd).count p)
            (EntryRef.lsq t.nextEntry)
        else []))) ∧
    (d.DynamicInst.StaticInst.Mnemonic.StaticInstType.IsLoadOrStore = true →
      (t1.robEntries t.nextEntry).LoadStoreBufferEntry = some t.nextEntry ∧
      (t1.lsqEntries t.nextEntry).NumNotReadyOperands =
        (t1.robEntries t.nextEntry).NumNotReadyOperands) ∧
    ((∀ a, a ∈ d.DynamicInst.StaticInst.InputDependencies →
        ∀ b, b ∈ d.DynamicInst.StaticInst.InputDependencies →
          t.RenameTable a = t.RenameTable b → a = b) →
      ((t1.robEntries t.nextEntry).SourcePhysicalRegisters.entries.filterMap Prod.snd).Nodup) := by
  obtain ⟨t2, e2, t3, n, t4, b, t5, l, s1, s2, s3, s4, hA, hL, hS, hN, hB, hC, hD⟩ :=
    rename_true t d rest t1 hd h
  obtain ⟨r1, r2, r3⟩ := renameInputs_entries t d.DynamicInst.StaticInst.InputDependencies
    (renameNewEntry d) (by simp [renameNewEntry, NewReorderBufferEntry, RegMap.empty])
    (by simp [renameNewEntry, NewReorderBufferEntry, RegMap.empty])
  rw [← hS] at r1 r2 r3
  obtain ⟨m1, m2, m3⟩ := markNotReady_count _ _ _ _ _ _ s2
  obtain ⟨_, _, _, l4, l5⟩ := renameLoadStore_spec _ _ _ _ _ _ s4
  have hready : (fun p => !(t1.reg p).Ready) = (fun p => !(t2.reg p).Ready) := by
    funext p
    rw [(hC p).2.2.1]
  rw [hA]
  refine ⟨⟨r1, ?_, ?_⟩, ?_, ?_, ?_, ?_⟩
  · intro r
    show r ∈ e2.SourcePhysicalRegisters.entries.map Prod.fst ↔ _
    rw [r3 r]
    simp [renameNewEntry, NewReorderBufferEntry, RegMap.empty]
  · intro x hx
    have hx1 : x ∈ e2.SourcePhysicalRegisters.entries := hx
    have hx2 := r2 x hx1
    have hx3 := m1 x hx1
    cases hv : x.2 with
    | none => exact absurd hv hx3
    | some p =>
      refine ⟨p, rfl, ?_⟩
      rw [← hx2, hv]
  · show n = _
    rw [m2, hN, hready, Nat.zero_add]
  · intro p
    show _ = _ ++ (List.replicate
      (if (t1.reg p).Ready = true then 0
        else (e2.SourcePhysicalRegisters.entries.filterMap Prod.snd).count p) _ ++
      (if d.DynamicInst.StaticInst.Mnemonic.StaticInstType.IsLoadOrStore then
        List.replicate
          (if (t1.reg p).Ready = true then 0
            else (e2.SourcePhysicalRegisters.entries.filterMap Prod.snd).count p) _
      else []))
    rw [(hD p).2.2, (hC p).2.2.1]
    by_cases hls : d.DynamicInst.StaticInst.Mnemonic.StaticInstType.IsLoadOrStore = true
    · obtain ⟨_, _, _, l6⟩ := l5 hls l rfl
      rw [l6 p, (hD p).2.1, m3 p, (hD p).1, (hC p).2.2.2.2, hls]
      simp only [if_true, List.append_assoc]
    · have hls1 : d.DynamicInst.StaticInst.Mnemonic.StaticInstType.IsLoadOrStore = false := by
        simpa using hls
      obtain ⟨l7, _⟩ := l4 hls1
      rw [l7, (hD p).2.1, m3 p, (hD p).1, hls1]
      simp
  · intro hls
    obtain ⟨l6, l7, _, _⟩ := l5 hls l rfl
    refine ⟨l6, ?_⟩
    rw [hL, l7]
  · intro hinj
    obtain ⟨v1, _⟩ := rename_sources t d hinj
    rw [← hS] at v1
    show (e2.SourcePhysicalRegisters.entries.filterMap Prod.snd).Nodup
    have : e2.SourcePhysicalRegisters.entries.filterMap Prod.snd
        = (e2.SourcePhysicalRegisters.entries.map Prod.snd).filterMap id := by
      rw [List.filterMap_map]
      rfl
    rw [this]
    apply List.Nodup.filterMap _ v1
    intro a a' b hb hb'
    simp only [id, Option.mem_def] at hb hb'
    rw [hb, hb']

/-- C15, for the second of two additions `r3 := r3 + r1` in a row on a new thread: the source
register of `r3` is the target of the first addition, which is not ready; the source register of
`r1` is ready, and the count is 1. -/
theorem rename_counts_operands_witness :
    (((((sampleThread [sampleEntry 0 .INT_COMP [sampleRegister 3, sampleRegister 1]
            [sampleRegister 3] 0,
          sampleEntry 0 .INT_COMP [sampleRegister 3, sampleRegister 1] [sampleRegister 3]
            0]).RegisterRenameOne).thread.RegisterRenameOne).thread.robEntries
        1).NumNotReadyOperands =
      ((((((sampleThread [sampleEntry 0 .INT_COMP [sampleRegister 3, sampleRegister 1]
            [sampleRegister 3] 0,
          sampleEntry 0 .INT_COMP [sampleRegister 3, sampleRegister 1] [sampleRegister 3]
            0]).RegisterRenameOne).thread.RegisterRenameOne).thread.robEntries
        1).SourcePhysicalRegisters.entries.filterMap Prod.snd).filter
        (fun p => !((((sampleThread [sampleEntry 0 .INT_COMP [sampleRegister 3, sampleRegister 1]
            [sampleRegister 3] 0,
          sampleEntry 0 .INT_COMP [sampleRegister 3, sampleRegister 1] [sampleRegister 3]
            0]).RegisterRenameOne).thread.RegisterRenameOne).thread.reg p).Ready)).length) ∧
    ((((sampleThread [sampleEntry 0 .INT_COMP [sampleRegister 3, sampleRegister 1]
            [sampleRegister 3] 0,
          sampleEntry 0 .INT_COMP [sampleRegister 3, sampleRegister 1] [sampleRegister 3]
            0]).RegisterRenameOne).thread.RegisterRenameOne).thread.robEntries
        1).NumNotReadyOperands = 1 :=
  ⟨(rename_counts_operands
    ((sampleThread [sampleEntry 0 .INT_COMP [sampleRegister 3, sampleRegister 1]
        [sampleRegister 3] 0,
      sampleEntry 0 .INT_COMP [sampleRegister 3, sampleRegister 1] [sampleRegister 3]
        0]).RegisterRenameOne).thread
    (sampleEntry 0 .INT_COMP [sampleRegister 3, sampleRegister 1] [sampleRegister 3] 0) []
    ((((sampleThread [sampleEntry 0 .INT_COMP [sampleRegister 3, sampleRegister 1]
        [sampleRegister 3] 0,
      sampleEntry 0 .INT_COMP [sampleRegister 3, sampleRegister 1] [sampleRegister 3]
        0]).RegisterRenameOne).thread.RegisterRenameOne).thread)
    rfl rfl).2.1, by decide⟩

/-- C15, where the count is not that of the distinct registers: in the thread `sampleAliased` the
rename table holds the register 32 of the integer file, which is not ready, under the keys of
`r1` and of `r2`. The rename of `r3 := r1 + r2` succeeds; the map of the sources has two entries
with this one register; the count is 2, where one distinct source register is not ready, and
the entry is appended twice to the list `Dependents` of the register. -/
theorem rename_counts_aliased_counterexample :
    (sampleAliased.RegisterRenameOne).res = .ok true ∧
    sampleAliased.RenameTable (sampleRegister 1) = some ⟨.INT, 32⟩ ∧
    sampleAliased.RenameTable (sampleRegister 2) = some ⟨.INT, 32⟩ ∧
    ((sampleAliased.RegisterRenameOne).thread.robEntries 1).SourcePhysicalRegisters.entries =
      [(sampleRegister 1, some ⟨.INT, 32⟩), (sampleRegister 2, some ⟨.INT, 32⟩)] ∧
    ((sampleAliased.RegisterRenameOne).thread.reg ⟨.INT, 32⟩).Ready = false ∧
    ((sampleAliased.RegisterRenameOne).thread.robEntries 1).NumNotReadyOperands = 2 ∧
    (((((sampleAliased.RegisterRenameOne).thread.robEntries
        1).SourcePhysicalRegisters.entries.filterMap Prod.snd).dedup.filter
      (fun p => !((sampleAliased.RegisterRenameOne).thread.reg p).Ready)).length = 1) ∧
    (sampleAliased.reg ⟨.INT, 32⟩).Dependents = [] ∧
    ((sampleAliased.RegisterRenameOne).thread.reg ⟨.INT, 32⟩).Dependents =
      [EntryRef.rob 1, EntryRef.rob 1] :=
  ⟨rfl, by decide, by decide, by decide, by decide, by decide, by decide, by decide, by decide⟩

/-! ## Dispatch -/

theorem dispatchLoop_all (l : List Nat) (t : OoOThread)
    (h : ∀ x, x ∈ l → (t.robEntries x).Dispatched = true) : dispatchLoop l t = (t, false) := by
  induction l with
  | nil => rfl
  | cons a l ih =>
    rw [dispatchLoop, if_pos (h a (List.mem_cons_self a l))]
    exact ih (fun x hx => h x (List.mem_cons_of_mem a hx))

theorem dispatchLoop_first (pre : List Nat) (id : Nat) (post : List Nat) (t : OoOThread)
    (h : ∀ x, x ∈ pre → (t.robEntries x).Dispatched = true)
    (hid : (t.robEntries id).Dispatched = false) :
    dispatchLoop (pre ++ id :: post) t = (dispatchEntry id t, true) := by
  induction pre with
  | nil =>
    rw [List.nil_append, dispatchLoop, hid]
    rfl
  | cons a l ih =>
    rw [List.cons_append, dispatchLoop, if_pos (h a (List.mem_cons_self a l))]
    exact ih (fun x hx => h x (List.mem_cons_of_mem a hx))

/-- A list of entries has a first entry that is not dispatched, or none. -/
theorem first_not_dispatched (t : OoOThread) (l : List Nat) :
    (∀ x, x ∈ l → (t.robEntries x).Dispatched = true) ∨
    ∃ pre id post, l = pre ++ id :: post ∧
      (∀ x, x ∈ pre → (t.robEntries x).Dispatched = true) ∧
      (t.robEntries id).Dispatched = false := by
  induction l with
  | nil => exact Or.inl (fun x hx => by simp at hx)
  | cons a l ih =>
    by_cases ha : (t.robEntries a).Dispatched = true
    · rcases ih with ih | ⟨pre, id, post, h1, h2, h3⟩
      · left
        intro x hx
        rcases List.mem_cons.mp hx with hx | hx
        · rw [hx]; exact ha
        · exact ih x hx
      · right
        refine ⟨a :: pre, id, post, by rw [h1]; rfl, ?_, h3⟩
        intro x hx
        rcases List.mem_cons.mp hx with hx | hx
        · rw [hx]; exact ha
        · exact h2 x hx
    · right
      exact ⟨[], a, l, rfl, fun x hx => by simp at hx, by simpa using ha⟩

/-- The body of the loop on an entry without a paired entry of the load/store queue. -/
theorem dispatchEntry_none (id : Nat) (t : OoOThread)
    (h : (t.robEntries id).LoadStoreBufferEntry = none) :
    dispatchEntry id t =
      { t with
          Core :=
            if (t.robEntries id).AllOperandReady then
              { t.Core with ReadyInstructionQueue := t.Core.ReadyInstructionQueue ++ [EntryRef.rob id] }
            else
              { t.Core with
                  WaitingInstructionQueue := t.Core.WaitingInstructionQueue ++ [EntryRef.rob id] },
          robEntries := fun i =>
            if i = id then { t.robEntries id with Dispatched := true } else t.robEntries i } := by
  unfold dispatchEntry
  simp only [h]

/-- The body of the loop on an entry with a paired entry of the load/store queue. -/
theorem dispatchEntry_some (id : Nat) (t : OoOThread) (l : Nat)
    (h : (t.robEntries id).LoadStoreBufferEntry = some l) :
    (dispatchEntry id t).robEntries =
      (fun i => if i = id then { t.robEntries id with Dispatched := true }
        else t.robEntries i) ∧
    (dispatchEntry id t).lsqEntries =
      (fun i => if i = l then { t.lsqEntries l with Dispatched := true }
        else t.lsqEntries i) ∧
    (dispatchEntry id t).Core =
      (if (t.lsqEntries l).DynamicInst.StaticInst.Mnemonic.StaticInstType = .ST then
        if (t.lsqEntries l).AllOperandReady then
          { (if (t.robEntries id).AllOperandReady then
              { t.Core with ReadyInstructionQueue := t.Core.ReadyInstructionQueue ++ [EntryRef.rob id] }
            else
              { t.Core with
                  WaitingInstructionQueue := t.Core.WaitingInstructionQueue ++ [EntryRef.rob id] }) with
            ReadyStoreQueue := t.Core.ReadyStoreQueue ++ [EntryRef.lsq l] }
        else
          { (if (t.robEntries id).AllOperandReady then
              { t.Core with ReadyInstructionQueue := t.Core.ReadyInstructionQueue ++ [EntryRef.rob id] }
            else
              { t.Core with
                  WaitingInstructionQueue := t.Core.WaitingInstructionQueue ++ [EntryRef.rob id] }) with
            WaitingStoreQueue := t.Core.WaitingStoreQueue ++ [EntryRef.lsq l] }
      else
        (if (t.robEntries id).AllOperandReady then
          { t.Core with ReadyInstructionQueue := t.Core.ReadyInstructionQueue ++ [EntryRef.rob id] }
        else
          { t.Core with
              WaitingInstructionQueue := t.Core.WaitingInstructionQueue ++ [EntryRef.rob id] })) := by
  unfold dispatchEntry
  simp only [h]
  refine ⟨trivial, trivial, ?_⟩
  by_cases ha : (t.robEntries id).AllOperandReady = true <;>
    by_cases hs : (t.lsqEntries l).DynamicInst.StaticInst.Mnemonic.StaticInstType = .ST <;>
    by_cases hb : (t.lsqEntries l).AllOperandReady = true <;>
    simp [ha, hs, hb]

/-- C16: `DispatchOne` dispatches exactly one entry, the oldest entry of the reorder buffer whose
flag `Dispatched` is false. It returns `true` exactly when there is such an entry, and when it
returns `false` the thread is unchanged. When `id` is that entry, its flag `Dispatched` becomes
true and every other entry of the reorder buffer is unchanged; `id` is appended to
`ReadyInstructionQueue` when all its operands are ready and to `WaitingInstructionQueue`
otherwise, never to both; `ReadyLoadQueue` is unchanged; a paired entry of the load/store queue
is marked dispatched, and, when it is a store, appended to `ReadyStoreQueue` when all its operands
are ready and to `WaitingStoreQueue` otherwise; when it is not a store (a load) it is appended to
no queue. -/
theorem dispatch_one_oldest (t : OoOThread) :
    ((t.DispatchOne).2 = true ↔
      ∃ id, id ∈ t.ReorderBuffer.Entries ∧ (t.robEntries id).Dispatched = false) ∧
    ((t.DispatchOne).2 = false → (t.DispatchOne).1 = t) ∧
    (∀ pre id post, t.ReorderBuffer.Entries = pre ++ id :: post →
      (∀ x, x ∈ pre → (t.robEntries x).Dispatched = true) →
      (t.robEntries id).Dispatched = false →
      (t.DispatchOne).2 = true ∧
      (t.DispatchOne).1.robEntries id = { t.robEntries id with Dispatched := true } ∧
      (∀ i, i ≠ id → (t.DispatchOne).1.robEntries i = t.robEntries i) ∧
      (t.DispatchOne).1.Core.ReadyInstructionQueue = t.Core.ReadyInstructionQueue ++
        (if (t.robEntries id).AllOperandReady then [EntryRef.rob id] else []) ∧
      (t.DispatchOne).1.Core.WaitingInstructionQueue = t.Core.WaitingInstructionQueue ++
        (if (t.robEntries id).AllOperandReady then [] else [EntryRef.rob id]) ∧
      (t.DispatchOne).1.Core.ReadyLoadQueue = t.Core.ReadyLoadQueue ∧
      ((t.robEntries id).LoadStoreBufferEntry = none →
        (t.DispatchOne).1.lsqEntries = t.lsqEntries ∧
        (t.DispatchOne).1.Core.ReadyStoreQueue = t.Core.ReadyStoreQueue ∧
        (t.DispatchOne).1.Core.WaitingStoreQueue = t.Core.WaitingStoreQueue) ∧
      (∀ l, (t.robEntries id).LoadStoreBufferEntry = some l →
        (t.DispatchOne).1.lsqEntries l = { t.lsqEntries l with Dispatched := true } ∧
        (∀ i, i ≠ l → (t.DispatchOne).1.lsqEntries i = t.lsqEntries i) ∧
        (t.DispatchOne).1.Core.ReadyStoreQueue = t.Core.ReadyStoreQueue ++
          (if (t.lsqEntries l).DynamicInst.StaticInst.Mnemonic.StaticInstType = .ST
              ∧ (t.lsqEntries l).AllOperandReady = true then [EntryRef.lsq l] else []) ∧
        (t.DispatchOne).1.Core.WaitingStoreQueue = t.Core.WaitingStoreQueue ++
          (if (t.lsqEntries l).DynamicInst.StaticInst.Mnemonic.StaticInstType = .ST
              ∧ (t.lsqEntries l).AllOperandReady = false then [EntryRef.lsq l] else []))) := by
  have hmain : ∀ pre id post, t.ReorderBuffer.Entries = pre ++ id :: post →
      (∀ x, x ∈ pre → (t.robEntries x).Dispatched = true) →
      (t.robEntries id).Dispatched = false →
      t.DispatchOne = (dispatchEntry id t, true) := by
    intro pre id post h1 h2 h3
    unfold OoOThread.DispatchOne
    rw [h1]
    exact dispatchLoop_first pre id post t h2 h3
  refine ⟨?_, ?_, ?_⟩
  · rcases first_not_dispatched t t.ReorderBuffer.Entries with h | ⟨pre, id, post, h1, h2, h3⟩
    · have : t.DispatchOne = (t, false) := dispatchLoop_all _ t h
      rw [this]
      constructor
      · intro hf; cases hf
      · rintro ⟨id, hid1, hid2⟩
        rw [h id hid1] at hid2
        cases hid2
    · rw [hmain pre id post h1 h2 h3]
      refine ⟨fun _ => ⟨id, ?_, h3⟩, fun _ => rfl⟩
      rw [h1]
      simp
  · intro hf
    rcases first_not_dispatched t t.ReorderBuffer.Entries with h | ⟨pre, id, post, h1, h2, h3⟩
    · have : t.DispatchOne = (t, false) := dispatchLoop_all _ t h
      rw [this]
    · rw [hmain pre id post h1 h2 h3] at hf
      cases hf
  · intro pre id post h1 h2 h3
    rw [hmain pre id post h1 h2 h3]
    refine ⟨rfl, ?_⟩
    show (dispatchEntry id t).robEntries id = _ ∧ (∀ i, i ≠ id →
        (dispatchEntry id t).robEntries i = _) ∧
      (dispatchEntry id t).Core.ReadyInstructionQueue = _ ∧
      (dispatchEntry id t).Core.WaitingInstructionQueue = _ ∧
      (dispatchEntry id t).Core.ReadyLoadQueue = _ ∧
      (_ → (dispatchEntry id t).lsqEntries = _ ∧
        (dispatchEntry id t).Core.ReadyStoreQueue = _ ∧
        (dispatchEntry id t).Core.WaitingStoreQueue = _) ∧
      (∀ l, _ → (dispatchEntry id t).lsqEntries l = _ ∧
        (∀ i, i ≠ l → (dispatchEntry id t).lsqEntries i = _) ∧
        (dispatchEntry id t).Core.ReadyStoreQueue = _ ∧
        (dispatchEntry id t).Core.WaitingStoreQueue = _)
    rcases hls : (t.robEntries id).LoadStoreBufferEntry with _ | l
    · rw [dispatchEntry_none id t hls]
      refine ⟨by simp, fun i hi => by simp [hi], ?_, ?_, ?_, ?_, ?_⟩
      · by_cases ha : (t.robEntries id).AllOperandReady = true <;> simp [ha]
      · by_cases ha : (t.robEntries id).AllOperandReady = true <;> simp [ha]
      · by_cases ha : (t.robEntries id).AllOperandReady = true <;> simp [ha]
      · intro _
        by_cases ha : (t.robEntries id).AllOperandReady = true <;> simp [ha]
      · intro l hl
        cases hl
    · obtain ⟨e1, e2, e3⟩ := dispatchEntry_some id t l hls
      rw [e1, e2, e3]
      refine ⟨by simp, fun i hi => by simp [hi], ?_, ?_, ?_, ?_, ?_⟩
      · by_cases ha : (t.robEntries id).AllOperandReady = true <;>
          by_cases hs : (t.lsqEntries l).DynamicInst.StaticInst.Mnemonic.StaticInstType = .ST <;>
          by_cases hb : (t.lsqEntries l).AllOperandReady = true <;>
          simp [ha, hs, hb]
      · by_cases ha : (t.robEntries id).AllOperandReady = true <;>
          by_cases hs : (t.lsqEntries l).DynamicInst.StaticInst.Mnemonic.StaticInstType = .ST <;>
          by_cases hb : (t.lsqEntries l).AllOperandReady = true <;>
          simp [ha, hs, hb]
      · by_cases ha : (t.robEntries id).AllOperandReady = true <;>
          by_cases hs : (t.lsqEntries l).DynamicInst.StaticInst.Mnemonic.StaticInstType = .ST <;>
          by_cases hb : (t.lsqEntries l).AllOperandReady = true <;>
          simp [ha, hs, hb]
      · intro hn
        cases hn
      · intro l1 hl1
        cases hl1
        refine ⟨by simp, fun i hi => by simp [hi], ?_, ?_⟩
        · by_cases ha : (t.robEntries id).AllOperandReady = true <;>
            by_cases hs : (t.lsqEntries l).DynamicInst.StaticInst.Mnemonic.StaticInstType = .ST <;>
            by_cases hb : (t.lsqEntries l).AllOperandReady = true <;>
            simp [ha, hs, hb]
        · by_cases ha : (t.robEntries id).AllOperandReady = true <;>
            by_cases hs : (t.lsqEntries l).DynamicInst.StaticInst.Mnemonic.StaticInstType = .ST <;>
            by_cases hb : (t.lsqEntries l).AllOperandReady = true <;>
            simp [ha, hs, hb]

/-- C16, for a thread that has just renamed a store whose operands are ready: the entry 0 of the
reorder buffer is dispatched and the paired entry of the load/store queue, a store, goes to
`ReadyStoreQueue`. -/
theorem dispatch_one_oldest_witness :
    ((sampleRenamed [sampleEntry 0 .ST [sampleRegister 1, sampleRegister 2] [] 16]).DispatchOne).2 = true ∧
    ((sampleRenamed [sampleEntry 0 .ST [sampleRegister 1, sampleRegister 2] []
        16]).DispatchOne).1.Core.ReadyStoreQueue =
      (sampleRenamed [sampleEntry 0 .ST [sampleRegister 1, sampleRegister 2] [] 16]).Core.ReadyStoreQueue ++
        (if ((sampleRenamed [sampleEntry 0 .ST [sampleRegister 1, sampleRegister 2] []
              16]).lsqEntries 0).DynamicInst.StaticInst.Mnemonic.StaticInstType = .ST
            ∧ ((sampleRenamed [sampleEntry 0 .ST [sampleRegister 1, sampleRegister 2] []
              16]).lsqEntries 0).AllOperandReady = true then [EntryRef.lsq 0] else []) ∧
    ((sampleRenamed [sampleEntry 0 .ST [sampleRegister 1, sampleRegister 2] []
        16]).DispatchOne).1.Core.ReadyStoreQueue = [EntryRef.lsq 0] :=
  have h := (dispatch_one_oldest
    (sampleRenamed [sampleEntry 0 .ST [sampleRegister 1, sampleRegister 2] [] 16])).2.2 [] 0 [] rfl
      (fun x hx => by simp at hx) rfl
  ⟨h.1, (h.2.2.2.2.2.2.2 0 rfl).2.2.1, by decide⟩

/-! ## Refresh of the load/store queue -/

/-- The test of `RefreshLoadStoreQueue` on an entry, as a proposition: the entry is a load that is
dispatched, not issued, not completed, with all operands ready, not in the ready load queue, and
its effective address is not in `stdUnknowns`. -/
theorem refreshLoad_eq (id : Nat) (e : LoadStoreQueueEntry) (std : List Int)
    (q : List EntryRef) :
    refreshLoad id e std q = q ++
      (if e.DynamicInst.StaticInst.Mnemonic.StaticInstType = .LD ∧ e.Dispatched = true ∧
          e.Issued = false ∧ e.Completed = false ∧ e.AllOperandReady = true ∧
          EntryRef.lsq id ∉ q ∧ e.EffectiveAddress ∉ std then [EntryRef.lsq id] else []) := by
  unfold refreshLoad
  by_cases h1 : e.DynamicInst.StaticInst.Mnemonic.StaticInstType = .LD
  · by_cases h2 : e.Dispatched = true
    · by_cases h3 : e.Issued = true
      · simp [h1, h2, h3]
      · by_cases h4 : e.Completed = true
        · simp [h1, h2, h3, h4]
        · by_cases h5 : e.AllOperandReady = true
          · have h3f : e.Issued = false := by simpa using h3
            have h4f : e.Completed = false := by simpa using h4
            by_cases h6 : EntryRef.lsq id ∈ q
            · have : (q.any fun readyLoad => decide (readyLoad = EntryRef.lsq id)) = true :=
                List.any_eq_true.mpr ⟨_, h6, by simp⟩
              simp [h1, h2, h3f, h4f, h5, h6, this]
            · have h6a : (q.any fun readyLoad => decide (readyLoad = EntryRef.lsq id))
                  = false := by
                rw [Bool.eq_false_iff]
                intro hc
                obtain ⟨x, hx1, hx2⟩ := List.any_eq_true.mp hc
                rw [of_decide_eq_true hx2] at hx1
                exact h6 hx1
              by_cases h7 : e.EffectiveAddress ∈ std
              · have : (std.any fun stdUnknown => decide (stdUnknown = e.EffectiveAddress))
                    = true := List.any_eq_true.mpr ⟨_, h7, by simp⟩
                simp [h1, h2, h3f, h4f, h5, h6, h7, this]
              · have h7a : (std.any fun stdUnknown => decide (stdUnknown = e.EffectiveAddress))
                    = false := by
                  rw [Bool.eq_false_iff]
                  intro hc
                  obtain ⟨x, hx1, hx2⟩ := List.any_eq_true.mp hc
                  rw [of_decide_eq_true hx2] at hx1
                  exact h7 hx1
                simp [h1, h2, h3f, h4f, h5, h6, h7, h6a, h7a]
          · simp [h1, h2, h3, h4, h5]
    · simp [h1, h2]
  · simp [h1]

/-- What the loop of `RefreshLoadStoreQueue` appends to the ready load queue. -/
theorem refreshLoop_added (h : Nat → LoadStoreQueueEntry) (ids : List Nat) :
    ∀ (std : List Int) (q : List EntryRef),
      ∃ added, refreshLoop h ids std q = q ++ added ∧ added.Nodup ∧
        ∀ x, x ∈ added → x ∉ q ∧
          ∃ pre id post std1, ids = pre ++ id :: post ∧ x = EntryRef.lsq id ∧
            stdUnknownsAfter h (pre ++ [id]) std = some std1 ∧
            (h id).DynamicInst.StaticInst.Mnemonic.StaticInstType = .LD ∧
            (h id).Dispatched = true ∧ (h id).Issued = false ∧ (h id).Completed = false ∧
            (h id).AllOperandReady = true ∧ (h id).EffectiveAddress ∉ std1 := by
  induction ids with
  | nil =>
    intro std q
    exact ⟨[], by simp [refreshLoop], List.nodup_nil, fun x hx => by simp at hx⟩
  | cons id rest ih =>
    intro std q
    rw [refreshLoop]
    cases hs : refreshStore (h id) std with
    | none => exact ⟨[], by simp, List.nodup_nil, fun x hx => by simp at hx⟩
    | some std1 =>
      simp only []
      rw [refreshLoad_eq]
      by_cases hc : (h id).DynamicInst.StaticInst.Mnemonic.StaticInstType = .LD ∧
          (h id).Dispatched = true ∧ (h id).Issued = false ∧ (h id).Completed = false ∧
          (h id).AllOperandReady = true ∧ EntryRef.lsq id ∉ q ∧
          (h id).EffectiveAddress ∉ std1
      · rw [if_pos hc]
        obtain ⟨added, a1, a2, a3⟩ := ih std1 (q ++ [EntryRef.lsq id])
        refine ⟨EntryRef.lsq id :: added, ?_, ?_, ?_⟩
        · rw [a1, List.append_assoc]
          rfl
        · rw [List.nodup_cons]
          refine ⟨?_, a2⟩
          intro hm
          exact (a3 _ hm).1 (by simp)
        · intro x hx
          rcases List.mem_cons.mp hx with hx | hx
          · subst hx
            refine ⟨hc.2.2.2.2.2.1, [], id, rest, std1, rfl, rfl, ?_, hc.1, hc.2.1, hc.2.2.1,
              hc.2.2.2.1, hc.2.2.2.2.1, hc.2.2.2.2.2.2⟩
            simp [stdUnknownsAfter, hs]
          · obtain ⟨b1, pre, id1, post, std2, b2, b3, b4, b5⟩ := a3 x hx
            refine ⟨fun hq => b1 (List.mem_append_left _ hq), id :: pre, id1, post, std2, ?_, b3,
              ?_, b5⟩
            · rw [b2]; rfl
            · rw [List.cons_append, stdUnknownsAfter, hs]
              exact b4
      · rw [if_neg hc, List.append_nil]
        obtain ⟨added, a1, a2, a3⟩ := ih std1 q
        refine ⟨added, a1, a2, ?_⟩
        intro x hx
        obtain ⟨b1, pre, id1, post, std2, b2, b3, b4, b5⟩ := a3 x hx
        refine ⟨b1, id :: pre, id1, post, std2, ?_, b3, ?_, b5⟩
        · rw [b2]; rfl
        · rw [List.cons_append, stdUnknownsAfter, hs]
          exact b4

/-- C19: `RefreshLoadStoreQueue` changes only the ready load queue, to which it appends entries;
every entry appended is an entry `id` of the load/store queue of the thread that is a load,
dispatched, neither issued nor completed, with all operands ready, that was not in the ready load
queue, and whose effective address is not in the list `stdUnknowns` recorded by the scan up to
this entry; the entries appended differ from each other, so a ready load queue without duplicates
stays without duplicates. -/
theorem refresh_appends_ready_loads (t : OoOThread) :
    t.RefreshLoadStoreQueue =
      { t with
          Core :=
            { t.Core with ReadyLoadQueue := (t.RefreshLoadStoreQueue).Core.ReadyLoadQueue } } ∧
    (∃ added, (t.RefreshLoadStoreQueue).Core.ReadyLoadQueue = t.Core.ReadyLoadQueue ++ added ∧
      ∀ x, x ∈ added → x ∉ t.Core.ReadyLoadQueue ∧
        ∃ pre id post stdUnknowns, t.LoadStoreQueue.Entries = pre ++ id :: post ∧
          x = EntryRef.lsq id ∧
          stdUnknownsAfter t.lsqEntries (pre ++ [id]) [] = some stdUnknowns ∧
          (t.lsqEntries id).DynamicInst.StaticInst.Mnemonic.StaticInstType = .LD ∧
          (t.lsqEntries id).Dispatched = true ∧ (t.lsqEntries id).Issued = false ∧
          (t.lsqEntries id).Completed = false ∧ (t.lsqEntries id).AllOperandReady = true ∧
          (t.lsqEntries id).EffectiveAddress ∉ stdUnknowns) ∧
    (t.Core.ReadyLoadQueue.Nodup → (t.RefreshLoadStoreQueue).Core.ReadyLoadQueue.Nodup) := by
  obtain ⟨added, a1, a2, a3⟩ :=
    refreshLoop_added t.lsqEntries t.LoadStoreQueue.Entries [] t.Core.ReadyLoadQueue
  have hq : (t.RefreshLoadStoreQueue).Core.ReadyLoadQueue = t.Core.ReadyLoadQueue ++ added := a1
  refine ⟨rfl, ⟨added, hq, a3⟩, ?_⟩
  intro hnd
  rw [hq, List.nodup_append]
  refine ⟨hnd, a2, ?_⟩
  intro x hx1 hx2
  exact (a3 x hx2).1 hx1

/-- C17, as the code has it: the scan of `RefreshLoadStoreQueue` ends at a store whose flag
`StoreAddressReady` is true, not at one whose flag is false. In the sample thread the load/store
queue holds the store 1, whose address operand is not ready (`StoreAddressReady = false`), and
the younger load 2; the refresh appends the load 2 to the empty ready load queue. And in every
thread whose oldest entry of the load/store queue is a store with `StoreAddressReady = true`, the
refresh leaves the ready load queue as it was. -/
theorem refresh_passes_unknown_store_address :
    (sampleUnknownAddress.LoadStoreQueue.Entries = [1, 2] ∧
      (sampleUnknownAddress.lsqEntries 1).DynamicInst.StaticInst.Mnemonic.StaticInstType = .ST ∧
      (sampleUnknownAddress.lsqEntries 1).StoreAddressReady = false ∧
      (sampleUnknownAddress.lsqEntries 2).DynamicInst.StaticInst.Mnemonic.StaticInstType = .LD ∧
      sampleUnknownAddress.Core.ReadyLoadQueue = [] ∧
      (sampleUnknownAddress.RefreshLoadStoreQueue).Core.ReadyLoadQueue = [EntryRef.lsq 2]) ∧
    (∀ (t : OoOThread) (s : Nat) (rest : List Nat),
      t.LoadStoreQueue.Entries = s :: rest →
      (t.lsqEntries s).DynamicInst.StaticInst.Mnemonic.StaticInstType = .ST →
      (t.lsqEntries s).StoreAddressReady = true →
      (t.RefreshLoadStoreQueue).Core.ReadyLoadQueue = t.Core.ReadyLoadQueue) := by
  refine ⟨⟨by decide, by decide, by decide, by decide, by decide, by decide⟩, ?_⟩
  intro t s rest h1 h2 h3
  show refreshLoop t.lsqEntries t.LoadStoreQueue.Entries [] t.Core.ReadyLoadQueue = _
  rw [h1, refreshLoop]
  simp [refreshStore, h2, h3]

/-- The loop appends no entry that it does not scan. -/
theorem refreshLoop_not_scanned (h : Nat → LoadStoreQueueEntry) (ids : List Nat) (l : Nat)
    (hl : l ∉ ids) (std : List Int) (q : List EntryRef) :
    ∃ added, refreshLoop h ids std q = q ++ added ∧ EntryRef.lsq l ∉ added := by
  obtain ⟨added, a1, _, a3⟩ := refreshLoop_added h ids std q
  refine ⟨added, a1, ?_⟩
  intro hm
  obtain ⟨_, pre, id, post, std1, b1, b2, _⟩ := a3 _ hm
  injection b2 with b2
  apply hl
  rw [b1, b2]
  simp

/-- A store that is not the last word on an address leaves the address in `stdUnknowns`. -/
theorem refreshStore_keeps (e : LoadStoreQueueEntry) (std std1 : List Int) (a : Int)
    (ha : a ∈ std)
    (hne : e.DynamicInst.StaticInst.Mnemonic.StaticInstType = .ST → e.EffectiveAddress ≠ a)
    (hs : refreshStore e std = some std1) : a ∈ std1 := by
  unfold refreshStore at hs
  by_cases h1 : e.DynamicInst.StaticInst.Mnemonic.StaticInstType = .ST
  · rw [if_pos h1] at hs
    by_cases h2 : e.StoreAddressReady = true
    · rw [if_pos h2] at hs
      cases hs
    · rw [if_neg h2] at hs
      by_cases h3 : (!e.AllOperandReady) = true
      · rw [if_pos h3] at hs
        injection hs with hs
        rw [← hs]
        exact List.mem_append_left _ ha
      · rw [if_neg h3] at hs
        injection hs with hs
        rw [← hs]
        refine List.mem_map.mpr ⟨a, ha, ?_⟩
        rw [if_neg]
        exact fun hc => hne h1 hc.symm
  · rw [if_neg h1] at hs
    injection hs with hs
    rw [← hs]
    exact ha

/-- With the address of `l` in `stdUnknowns` and no store on this address before `l`, the loop
does not append `l`. -/
theorem refreshLoop_blocked (h : Nat → LoadStoreQueueEntry) (l : Nat) (post : List Nat)
    (hpost : l ∉ post) (mid : List Nat) :
    ∀ (std : List Int) (q : List EntryRef), (h l).EffectiveAddress ∈ std → l ∉ mid →
      (∀ x, x ∈ mid → (h x).DynamicInst.StaticInst.Mnemonic.StaticInstType = .ST →
        (h x).EffectiveAddress ≠ (h l).EffectiveAddress) →
      ∃ added, refreshLoop h (mid ++ l :: post) std q = q ++ added ∧
        EntryRef.lsq l ∉ added := by
  induction mid with
  | nil =>
    intro std q hstd _ _
    rw [List.nil_append, refreshLoop]
    cases hs : refreshStore (h l) std with
    | none => exact ⟨[], by simp, by simp⟩
    | some std1 =>
      simp only []
      rw [refreshLoad_eq]
      have hno : ¬ ((h l).DynamicInst.StaticInst.Mnemonic.StaticInstType = .LD ∧
          (h l).Dispatched = true ∧ (h l).Issued = false ∧ (h l).Completed = false ∧
          (h l).AllOperandReady = true ∧ EntryRef.lsq l ∉ q ∧
          (h l).EffectiveAddress ∉ std1) := by
        rintro ⟨c1, _, _, _, _, _, c7⟩
        apply c7
        have : std1 = std := by
          unfold refreshStore at hs
          rw [if_neg (by rw [c1]; decide)] at hs
          injection hs with hs
          exact hs.symm
        rw [this]
        exact hstd
      rw [if_neg hno, List.append_nil]
      exact refreshLoop_not_scanned h post l hpost std1 q
  | cons x mid ih =>
    intro std q hstd hmid hst
    rw [List.cons_append, refreshLoop]
    cases hs : refreshStore (h x) std with
    | none => exact ⟨[], by simp, by simp⟩
    | some std1 =>
      simp only []
      have hstd1 : (h l).EffectiveAddress ∈ std1 :=
        refreshStore_keeps (h x) std std1 _ hstd (hst x (List.mem_cons_self x mid)) hs
      have hxl : x ≠ l := fun hc => hmid (by rw [hc]; exact List.mem_cons_self l mid)
      obtain ⟨added, a1, a2⟩ := ih std1 (refreshLoad x (h x) std1 q) hstd1
        (fun hc => hmid (List.mem_cons_of_mem x hc))
        (fun y hy => hst y (List.mem_cons_of_mem x hy))
      rw [a1, refreshLoad_eq, List.append_assoc]
      refine ⟨_, rfl, ?_⟩
      intro hc
      rcases List.mem_append.mp hc with hc | hc
      · split_ifs at hc
        · rw [List.mem_singleton] at hc
          injection hc with hc
          exact hxl hc.symm
        · simp at hc
      · exact a2 hc

/-- The entries scanned before do not matter to whether `l` is appended after them. -/
theorem refreshLoop_prefix (h : Nat → LoadStoreQueueEntry) (l : Nat) (tail : List Nat)
    (htail : ∀ (std : List Int) (q : List EntryRef),
      ∃ added, refreshLoop h tail std q = q ++ added ∧ EntryRef.lsq l ∉ added)
    (pre : List Nat) :
    ∀ (std : List Int) (q : List EntryRef), l ∉ pre →
      ∃ added, refreshLoop h (pre ++ tail) std q = q ++ added ∧ EntryRef.lsq l ∉ added := by
  induction pre with
  | nil =>
    intro std q _
    exact htail std q
  | cons x pre ih =>
    intro std q hpre
    rw [List.cons_append, refreshLoop]
    cases hs : refreshStore (h x) std with
    | none => exact ⟨[], by simp, by simp⟩
    | some std1 =>
      simp only []
      have hxl : x ≠ l := fun hc => hpre (by rw [hc]; exact List.mem_cons_self l pre)
      obtain ⟨added, a1, a2⟩ := ih std1 (refreshLoad x (h x) std1 q)
        (fun hc => hpre (List.mem_cons_of_mem x hc))
      rw [a1, refreshLoad_eq, List.append_assoc]
      refine ⟨_, rfl, ?_⟩
      intro hc
      rcases List.mem_append.mp hc with hc | hc
      · split_ifs at hc
        · rw [List.mem_singleton] at hc
          injection hc with hc
          exact hxl hc.symm
        · simp at hc
      · exact a2 hc

/-- C18: a load is not promoted past an older store on the same address whose data is not ready.
In a load/store queue without repeated entries, let `l` be an entry and `s` an older entry that is
a store with the effective address of `l` and without all operands ready, such that no store
between `s` and `l` has this effective address (`s` is the youngest such store). Then
`RefreshLoadStoreQueue` does not append `l` to the ready load queue. -/
theorem refresh_holds_load_behind_store (t : OoOThread) (pre mid post : List Nat) (s l : Nat)
    (hq : t.LoadStoreQueue.Entries = pre ++ s :: (mid ++ l :: post))
    (hnd : t.LoadStoreQueue.Entries.Nodup)
    (hst : (t.lsqEntries s).DynamicInst.StaticInst.Mnemonic.StaticInstType = .ST)
    (hea : (t.lsqEntries s).EffectiveAddress = (t.lsqEntries l).EffectiveAddress)
    (hnr : (t.lsqEntries s).AllOperandReady = false)
    (hmid : ∀ x, x ∈ mid →
      (t.lsqEntries x).DynamicInst.StaticInst.Mnemonic.StaticInstType = .ST →
      (t.lsqEntries x).EffectiveAddress ≠ (t.lsqEntries l).EffectiveAddress) :
    ∃ added, (t.RefreshLoadStoreQueue).Core.ReadyLoadQueue = t.Core.ReadyLoadQueue ++ added ∧
      EntryRef.lsq l ∉ added := by
  rw [hq] at hnd
  have hparts := List.nodup_append.mp hnd
  have hpre : l ∉ pre := by
    intro hc
    exact hparts.2.2 hc (by simp)
  have htl := List.nodup_cons.mp hparts.2.1
  have hsl : s ≠ l := by
    intro hc
    apply htl.1
    rw [hc]
    simp
  have hparts2 := List.nodup_append.mp htl.2
  have hmidl : l ∉ mid := by
    intro hc
    exact hparts2.2.2 hc (by simp)
  have hpost : l ∉ post := (List.nodup_cons.mp hparts2.2.1).1
  show ∃ added, refreshLoop t.lsqEntries t.LoadStoreQueue.Entries [] t.Core.ReadyLoadQueue
    = t.Core.ReadyLoadQueue ++ added ∧ EntryRef.lsq l ∉ added
  rw [hq]
  apply refreshLoop_prefix t.lsqEntries l _ _ pre [] _ hpre
  intro std q
  rw [refreshLoop]
  cases hs : refreshStore (t.lsqEntries s) std with
  | none => exact ⟨[], by simp, by simp⟩
  | some std1 =>
    simp only []
    have hstd1 : (t.lsqEntries l).EffectiveAddress ∈ std1 := by
      unfold refreshStore at hs
      rw [if_pos hst] at hs
      by_cases h2 : (t.lsqEntries s).StoreAddressReady = true
      · rw [if_pos h2] at hs
        cases hs
      · rw [if_neg h2, hnr] at hs
        simp only [Bool.not_false, if_true] at hs
        injection hs with hs
        rw [← hs, hea]
        simp
    obtain ⟨added, a1, a2⟩ := refreshLoop_blocked t.lsqEntries l post hpost mid std1
      (refreshLoad s (t.lsqEntries s) std1 q) hstd1 hmidl hmid
    rw [a1, refreshLoad_eq, List.append_assoc]
    refine ⟨_, rfl, ?_⟩
    intro hc
    rcases List.mem_append.mp hc with hc | hc
    · split_ifs at hc
      · rw [List.mem_singleton] at hc
        injection hc with hc
        exact hsl hc.symm
      · simp at hc
    · exact a2 hc

/-- C18, for `SW r1, 0(r2); LW r3, 0(r2)` with `r1` not written back: the load, entry 2, is not
appended to the ready load queue, which stays empty. -/
theorem refresh_holds_load_behind_store_witness :
    (∃ added, (sampleUnknownData.RefreshLoadStoreQueue).Core.ReadyLoadQueue =
        sampleUnknownData.Core.ReadyLoadQueue ++ added ∧ EntryRef.lsq 2 ∉ added) ∧
      (sampleUnknownData.RefreshLoadStoreQueue).Core.ReadyLoadQueue = [] :=
  ⟨refresh_holds_load_behind_store sampleUnknownData [] [] [] 1 2 (by decide) (by decide)
    (by decide) (by decide) (by decide) (fun x hx => by simp at hx), by decide⟩

/-! ## Commit -/

/-- The loop over the outputs changes the register files only, and does not run out of steps. -/
theorem commitOutputs_frame (NI NF : Nat) (e : ReorderBufferEntry)
    (outs : List DependencyRef) :
    ∀ (t t1 : OoOThread) (r : Except Panic Unit),
      commitOutputs NI NF e outs t = ⟨t1, r⟩ →
      SameButRegisters t t1 ∧ r ≠ .error .OutOfFuel := by
  induction outs with
  | nil =>
    intro t t1 r h
    simp only [commitOutputs, Outcome.mk.injEq] at h
    rw [← h.1, ← h.2]
    exact ⟨sameButRegisters_refl t, fun hc => by cases hc⟩
  | cons d ds ih =>
    intro t t1 r h
    rw [commitOutputs] at h
    by_cases hz : d.ToInt NI NF ≠ 0
    · rw [if_pos hz] at h
      cases ho : e.OldPhysicalRegisters.get d with
      | none =>
        rw [ho] at h
        simp only [Outcome.mk.injEq] at h
        rw [← h.1, ← h.2]
        exact ⟨sameButRegisters_refl t, fun hc => by cases hc⟩
      | some old =>
        rw [ho] at h
        simp only [] at h
        cases hr : (t.GetPhysicalRegisterFile old.File).Reclaim old.Index with
        | error p =>
          rw [hr] at h
          simp only [Outcome.mk.injEq] at h
          rw [← h.1, ← h.2]
          refine ⟨sameButRegisters_refl t, ?_⟩
          unfold PhysicalRegisterFile.Reclaim at hr
          split_ifs at hr
          injection hr with hr
          rw [← hr]
          intro hc
          cases hc
        | ok file =>
          rw [hr] at h
          simp only [] at h
          cases hg : e.TargetPhysicalRegisters.get d with
          | none =>
            rw [hg] at h
            simp only [Outcome.mk.injEq] at h
            rw [← h.1, ← h.2]
            exact ⟨sameButRegisters_setFile _ _ _, fun hc => by cases hc⟩
          | some target =>
            rw [hg] at h
            simp only [] at h
            obtain ⟨i1, i2⟩ := ih _ _ _ h
            exact ⟨sameButRegisters_trans (sameButRegisters_setFile _ _ _)
              (sameButRegisters_trans (sameButRegisters_setFile _ _ _) i1), i2⟩
    · rw [if_neg hz] at h
      exact ih _ _ _ h

/-- The end of a turn of the loop of `Commit`. -/
theorem commitRetire_spec (NI NF id : Nat) (e : ReorderBufferEntry) (ta t1 : OoOThread)
    (r : Except Panic Bool) (h : commitRetire NI NF id e ta = ⟨t1, r⟩) :
    t1.robEntries = ta.robEntries ∧ t1.lsqEntries = ta.lsqEntries ∧
    t1.Core.CommitWidth = ta.Core.CommitWidth ∧ r ≠ .error .OutOfFuel ∧
    ((r = .ok true ∧ t1.ReorderBuffer.Entries = ta.ReorderBuffer.Entries.drop 1 ∧
        t1.numDynamicInsts = ta.numDynamicInsts + 1) ∨
      (r ≠ .ok true ∧ t1.ReorderBuffer.Entries = ta.ReorderBuffer.Entries ∧
        t1.numDynamicInsts = ta.numDynamicInsts)) := by
  unfold commitRetire at h
  cases ho : commitOutputs NI NF e e.DynamicInst.StaticInst.OutputDependencies ta with
  | mk t2 r2 =>
    obtain ⟨f, fr⟩ := commitOutputs_frame _ _ _ _ _ _ _ ho
    unfold SameButRegisters at f
    have f1 : t2.robEntries = ta.robEntries := by
      have := congrArg OoOThread.robEntries f; exact this
    have f2 : t2.lsqEntries = ta.lsqEntries := by
      have := congrArg OoOThread.lsqEntries f; exact this
    have f3 : t2.Core = ta.Core := by
      have := congrArg OoOThread.Core f; exact this
    have f4 : t2.ReorderBuffer = ta.ReorderBuffer := by
      have := congrArg OoOThread.ReorderBuffer f; exact this
    have f5 : t2.numDynamicInsts = ta.numDynamicInsts := by
      have := congrArg OoOThread.numDynamicInsts f; exact this
    rw [ho] at h
    cases r2 with
    | error p =>
      simp only [Outcome.mk.injEq] at h
      obtain ⟨k1, k2⟩ := h
      subst k1
      subst k2
      refine ⟨f1, f2, by rw [f3], ?_, Or.inr ⟨?_, ?_, ?_⟩⟩
      · intro hc
        injection hc with hc
        exact fr (by rw [hc])
      · intro hc; cases hc
      · rw [f4]
      · rw [f5]
    | ok u =>
      simp only [Outcome.mk.injEq] at h
      obtain ⟨k1, k2⟩ := h
      subst k1
      subst k2
      refine ⟨f1, f2, ?_, fun hc => (by cases hc), Or.inl ⟨rfl, ?_, ?_⟩⟩
      · show (t2.Core.RemoveFromQueues _).CommitWidth = _
        rw [f3]
        rfl
      · show t2.ReorderBuffer.Entries.drop 1 = _
        rw [f4]
      · show t2.numDynamicInsts + 1 = _
        rw [f5]

/-- One turn of the loop of `Commit` on an entry that is not both completed and speculative. -/
theorem commitOne_spec (NI NF id : Nat) (t t1 : OoOThread) (r : Except Panic Bool)
    (hns : (t.robEntries id).Completed = true → (t.robEntries id).Speculative = false)
    (h : commitOne NI NF id t = ⟨t1, r⟩) :
    t1.robEntries = t.robEntries ∧ t1.lsqEntries = t.lsqEntries ∧
    t1.Core.CommitWidth = t.Core.CommitWidth ∧ r ≠ .error .OutOfFuel ∧
    ((r = .ok true ∧ CommitReady t id ∧
        t1.ReorderBuffer.Entries = t.ReorderBuffer.Entries.drop 1 ∧
        t1.numDynamicInsts = t.numDynamicInsts + 1) ∨
      (r ≠ .ok true ∧ t1.ReorderBuffer.Entries = t.ReorderBuffer.Entries ∧
        t1.numDynamicInsts = t.numDynamicInsts)) := by
  unfold commitOne at h
  simp only [] at h
  by_cases hc : (t.robEntries id).Completed = true
  · have hs := hns hc
    simp only [hc, hs, Bool.not_true, Bool.false_eq_true, if_false] at h
    by_cases hea : (t.robEntries id).EffectiveAddressComputation = true
    · simp only [hea, if_true] at h
      cases hl : (t.robEntries id).LoadStoreBufferEntry with
      | none =>
        rw [hl] at h
        simp only [Outcome.mk.injEq] at h
        obtain ⟨k1, k2⟩ := h
        subst k1
        subst k2
        exact ⟨rfl, rfl, rfl, fun hc => (by cases hc), Or.inr ⟨fun hc => (by cases hc), rfl, rfl⟩⟩
      | some l =>
        rw [hl] at h
        simp only [] at h
        by_cases hlc : (t.lsqEntries l).Completed = true
        · simp only [hlc, Bool.not_true, Bool.false_eq_true, if_false] at h
          obtain ⟨g1, g2, g3, g0, g4⟩ := commitRetire_spec _ _ _ _ _ _ _ h
          refine ⟨g1, g2, g3, g0, ?_⟩
          rcases g4 with ⟨g5, g6, g7⟩ | g4
          · exact Or.inl ⟨g5, ⟨hc, fun _ => ⟨l, hl, hlc⟩⟩, g6, g7⟩
          · exact Or.inr g4
        · have hlc1 : (t.lsqEntries l).Completed = false := by simpa using hlc
          simp only [hlc1, Bool.not_false, if_true, Outcome.mk.injEq] at h
          obtain ⟨k1, k2⟩ := h
          subst k1
          subst k2
          exact ⟨rfl, rfl, rfl, fun hc => (by cases hc), Or.inr ⟨fun hc => (by cases hc), rfl, rfl⟩⟩
    · have hea1 : (t.robEntries id).EffectiveAddressComputation = false := by simpa using hea
      simp only [hea1, Bool.false_eq_true, if_false] at h
      obtain ⟨g1, g2, g3, g0, g4⟩ := commitRetire_spec _ _ _ _ _ _ _ h
      refine ⟨g1, g2, g3, g0, ?_⟩
      rcases g4 with ⟨g5, g6, g7⟩ | g4
      · exact Or.inl ⟨g5, ⟨hc, fun hx => (by rw [hea1] at hx; cases hx)⟩, g6, g7⟩
      · exact Or.inr g4
  · have hc1 : (t.robEntries id).Completed = false := by simpa using hc
    simp only [hc1, Bool.not_false, if_true, Outcome.mk.injEq] at h
    obtain ⟨k1, k2⟩ := h
    subst k1
    subst k2
    exact ⟨rfl, rfl, rfl, fun hc => (by cases hc), Or.inr ⟨fun hc => (by cases hc), rfl, rfl⟩⟩

/-- The loop of `Commit`, when no entry that it comes to is both completed and speculative. -/
theorem commitLoop_spec (NI NF : Nat) :
    ∀ (fuel : Nat) (t : OoOThread) (n : Nat) (t1 : OoOThread) (r : Except Panic Unit),
      commitLoop NI NF fuel t n = ⟨t1, r⟩ →
      t.ReorderBuffer.Entries.length ≤ fuel →
      (∀ pre id post, t.ReorderBuffer.Entries = pre ++ id :: post →
        n + pre.length < t.Core.CommitWidth → (∀ x, x ∈ pre → CommitReady t x) →
        (t.robEntries id).Completed = true → (t.robEntries id).Speculative = false) →
      ∃ k, k ≤ t.Core.CommitWidth - n ∧ k ≤ t.ReorderBuffer.Entries.length ∧
        t1.ReorderBuffer.Entries = t.ReorderBuffer.Entries.drop k ∧
        t1.robEntries = t.robEntries ∧ t1.lsqEntries = t.lsqEntries ∧
        t1.numDynamicInsts = t.numDynamicInsts + k ∧
        (∀ x, x ∈ t.ReorderBuffer.Entries.take k → CommitReady t x) ∧
        (∀ id rest, t.ReorderBuffer.Entries = id :: rest →
          (t.robEntries id).Completed = false → k = 0) ∧
        r ≠ .error .OutOfFuel := by
  intro fuel
  induction fuel with
  | zero =>
    intro t n t1 r h hlen _
    have he : t.ReorderBuffer.Entries = [] := List.length_eq_zero.mp (Nat.le_zero.mp hlen)
    simp only [commitLoop, PipelineBuffer.Empty, he, List.isEmpty_nil, Bool.not_true,
      Bool.false_and, Bool.false_eq_true, if_false, Outcome.mk.injEq] at h
    obtain ⟨h1, h2⟩ := h
    subst h1
    subst h2
    exact ⟨0, Nat.zero_le _, Nat.zero_le _, rfl, rfl, rfl, rfl, fun x hx => (by simp at hx),
      fun _ _ _ _ => rfl, fun hc => (by cases hc)⟩
  | succ fuel ih =>
    intro t n t1 r h hlen hspec
    rw [commitLoop] at h
    by_cases hcond : (!t.ReorderBuffer.Empty && decide (n < t.Core.CommitWidth)) = true
    · rw [if_pos hcond] at h
      simp only [Bool.and_eq_true, decide_eq_true_eq] at hcond
      obtain ⟨_, hw⟩ := hcond
      cases he : t.ReorderBuffer.Entries with
      | nil =>
        rw [he] at h
        simp only [Outcome.mk.injEq] at h
        obtain ⟨h1, h2⟩ := h
        subst h1
        subst h2
        exact ⟨0, Nat.zero_le _, Nat.zero_le _, by rw [he]; rfl, rfl, rfl, rfl,
          fun x hx => (by simp at hx), fun _ _ _ _ => rfl, fun hc => (by cases hc)⟩
      | cons id rest =>
        rw [he] at h
        simp only [] at h
        have hns : (t.robEntries id).Completed = true → (t.robEntries id).Speculative = false :=
          hspec [] id rest (by rw [he]; rfl) (by simpa using hw) (fun x hx => by simp at hx)
        cases hco : commitOne NI NF id t with
        | mk ta ra =>
          obtain ⟨c1, c2, c3, c0, c4⟩ := commitOne_spec NI NF id t ta ra hns hco
          rw [hco] at h
          rcases c4 with ⟨c5, c6, c7, c8⟩ | ⟨c5, c7, c8⟩
          · subst c5
            simp only [] at h
            rw [he] at c7
            simp only [List.drop_succ_cons, List.drop_zero] at c7
            have hlen1 : ta.ReorderBuffer.Entries.length ≤ fuel := by
              rw [c7]
              rw [he] at hlen
              simpa using hlen
            have hready : ∀ x, CommitReady ta x ↔ CommitReady t x := by
              intro x
              unfold CommitReady
              rw [c1, c2]
            obtain ⟨k, k1, k2, k3, k4, k5, k6, k7, _, k9⟩ := ih ta (n + 1) t1 r h hlen1 (by
              intro pre id1 post q1 q2 q3 q4
              rw [c1] at q4 ⊢
              rw [c3] at q2
              refine hspec (id :: pre) id1 post ?_ ?_ ?_ q4
              · rw [he, List.cons_append, ← q1, c7]
              · simp only [List.length_cons]
                omega
              · intro x hx
                rcases List.mem_cons.mp hx with hx | hx
                · rw [hx]; exact c6
                · exact (hready x).mp (q3 x hx))
            refine ⟨k + 1, ?_, ?_, ?_, ?_, ?_, ?_, ?_, ?_, k9⟩
            · rw [c3] at k1
              omega
            · rw [c7] at k2
              simp only [List.length_cons]
              omega
            · rw [k3, c7]
              rfl
            · rw [k4, c1]
            · rw [k5, c2]
            · rw [k6, c8]
              omega
            · intro x hx
              simp only [List.take_succ_cons] at hx
              rcases List.mem_cons.mp hx with hx | hx
              · rw [hx]; exact c6
              · rw [c7] at k7
                exact (hready x).mp (k7 x hx)
            · intro id1 rest1 q1 q2
              injection q1 with q1 _
              rw [← q1, c6.1] at q2
              cases q2
          · have hres : t1 = ta ∧ r ≠ .error .OutOfFuel := by
              cases ra with
              | error p =>
                simp only [Outcome.mk.injEq] at h
                refine ⟨h.1.symm, ?_⟩
                rw [← h.2]
                intro hc
                injection hc with hc
                exact c0 (by rw [hc])
              | ok b =>
                cases b with
                | true => exact absurd rfl c5
                | false =>
                  simp only [Outcome.mk.injEq] at h
                  refine ⟨h.1.symm, ?_⟩
                  rw [← h.2]
                  intro hc
                  cases hc
            obtain ⟨hr1, hr2⟩ := hres
            subst hr1
            refine ⟨0, Nat.zero_le _, Nat.zero_le _, ?_, c1, c2, c8, fun x hx => (by simp at hx),
              fun _ _ _ _ => rfl, hr2⟩
            rw [c7, he]
            rfl
    · rw [if_neg hcond] at h
      simp only [Outcome.mk.injEq] at h
      obtain ⟨h1, h2⟩ := h
      subst h1
      subst h2
      have hk : ∀ id rest, t.ReorderBuffer.Entries = id :: rest →
          (t.robEntries id).Completed = false → (0 : Nat) = 0 := fun _ _ _ _ => rfl
      exact ⟨0, Nat.zero_le _, Nat.zero_le _, rfl, rfl, rfl, rfl, fun x hx => (by simp at hx),
        hk, fun hc => (by cases hc)⟩

/-- C20: `Commit` retires in insertion order and within the width. In every state in which the
loop of `Commit` comes to no entry that is completed and speculative (no entry of the reorder
buffer that follows fewer than `CommitWidth` entries, all ready to be retired, is completed and
speculative), the reorder buffer after `Commit` is the reorder buffer before without its first
`k` entries, the remaining entries unchanged and in order, where `k` is at most `CommitWidth`;
every entry removed was completed, as was its paired entry of the load/store queue when it
computes an effective address; the counter of retired instructions has grown by `k`; and `k` is 0
when the head entry is not completed. The loop does not run out of steps. -/
theorem commit_retires_in_order (NI NF : Nat) (t : OoOThread)
    (hspec : ∀ pre id post, t.ReorderBuffer.Entries = pre ++ id :: post →
      pre.length < t.Core.CommitWidth → (∀ x, x ∈ pre → CommitReady t x) →
      (t.robEntries id).Completed = true → (t.robEntries id).Speculative = false) :
    ∃ k, k ≤ t.Core.CommitWidth ∧ k ≤ t.ReorderBuffer.Entries.length ∧
      (t.Commit NI NF).thread.ReorderBuffer.Entries = t.ReorderBuffer.Entries.drop k ∧
      (t.Commit NI NF).thread.robEntries = t.robEntries ∧
      (t.Commit NI NF).thread.lsqEntries = t.lsqEntries ∧
      (t.Commit NI NF).thread.numDynamicInsts = t.numDynamicInsts + k ∧
      (∀ x, x ∈ t.ReorderBuffer.Entries.take k → CommitReady t x) ∧
      (∀ id rest, t.ReorderBuffer.Entries = id :: rest →
        (t.robEntries id).Completed = false → k = 0) ∧
      (t.Commit NI NF).res ≠ .error .OutOfFuel := by
  have hp : ∀ tp : OoOThread, tp.ReorderBuffer = t.ReorderBuffer → tp.robEntries = t.robEntries →
      tp.lsqEntries = t.lsqEntries → tp.Core = t.Core →
      tp.numDynamicInsts = t.numDynamicInsts →
      ∃ k, k ≤ t.Core.CommitWidth ∧ k ≤ t.ReorderBuffer.Entries.length ∧
        (commitLoop NI NF tp.ReorderBuffer.Entries.length tp 0).thread.ReorderBuffer.Entries
          = t.ReorderBuffer.Entries.drop k ∧
        (commitLoop NI NF tp.ReorderBuffer.Entries.length tp 0).thread.robEntries
          = t.robEntries ∧
        (commitLoop NI NF tp.ReorderBuffer.Entries.length tp 0).thread.lsqEntries
          = t.lsqEntries ∧
        (commitLoop NI NF tp.ReorderBuffer.Entries.length tp 0).thread.numDynamicInsts
          = t.numDynamicInsts + k ∧
        (∀ x, x ∈ t.ReorderBuffer.Entries.take k → CommitReady t x) ∧
        (∀ id rest, t.ReorderBuffer.Entries = id :: rest →
          (t.robEntries id).Completed = false → k = 0) ∧
        (commitLoop NI NF tp.ReorderBuffer.Entries.length tp 0).res ≠ .error .OutOfFuel := by
    intro tp p1 p2 p3 p4 p5
    have hready : ∀ x, CommitReady tp x ↔ CommitReady t x := by
      intro x
      unfold CommitReady
      rw [p2, p3]
    obtain ⟨k, k1, k2, k3, k4, k5, k6, k7, k8, k9⟩ := commitLoop_spec NI NF
      tp.ReorderBuffer.Entries.length tp 0 _ _ rfl (Nat.le_refl _) (by
        intro pre id post q1 q2 q3 q4
        rw [p1] at q1
        rw [p4, Nat.zero_add] at q2
        rw [p2] at q4 ⊢
        exact hspec pre id post q1 q2 (fun x hx => (hready x).mp (q3 x hx)) q4)
    rw [p1] at k2 k3 k7 k8
    rw [p4] at k1
    rw [p2] at k4 k8
    refine ⟨k, by omega, k2, ?_, k4, ?_, ?_, ?_, k8, k9⟩
    · rw [← p1] at k3 ⊢
      rw [k3, p1]
    · rw [k5, p3]
    · rw [k6, p5]
    · intro x hx
      exact (hready x).mp (k7 x hx)
  unfold OoOThread.Commit
  simp only []
  split_ifs
  · exact hp _ rfl rfl rfl rfl rfl
  · exact hp _ rfl rfl rfl rfl rfl
  · exact hp _ rfl rfl rfl rfl rfl

/-- C20, for a thread with two instructions in flight of which only the first is completed:
`Commit` retires the first and leaves the second at the head of the reorder buffer. -/
theorem commit_retires_in_order_witness :
    (∃ k, k ≤ sampleCompleted.Core.CommitWidth ∧
      k ≤ sampleCompleted.ReorderBuffer.Entries.length ∧
      (sampleCompleted.Commit 32 32).thread.ReorderBuffer.Entries =
        sampleCompleted.ReorderBuffer.Entries.drop k ∧
      (sampleCompleted.Commit 32 32).thread.robEntries = sampleCompleted.robEntries ∧
      (sampleCompleted.Commit 32 32).thread.lsqEntries = sampleCompleted.lsqEntries ∧
      (sampleCompleted.Commit 32 32).thread.numDynamicInsts =
        sampleCompleted.numDynamicInsts + k ∧
      (∀ x, x ∈ sampleCompleted.ReorderBuffer.Entries.take k → CommitReady sampleCompleted x) ∧
      (∀ id rest, sampleCompleted.ReorderBuffer.Entries = id :: rest →
        (sampleCompleted.robEntries id).Completed = false → k = 0) ∧
      (sampleCompleted.Commit 32 32).res ≠ .error .OutOfFuel) ∧
    sampleCompleted.ReorderBuffer.Entries = [0, 1] ∧
    (sampleCompleted.Commit 32 32).thread.ReorderBuffer.Entries = [1] ∧
    (sampleCompleted.Commit 32 32).thread.numDynamicInsts = 1 :=
  ⟨commit_retires_in_order 32 32 sampleCompleted (by
      intro pre id post h _ _ _
      have hm : id ∈ sampleCompleted.ReorderBuffer.Entries := by rw [h]; simp
      have he : sampleCompleted.ReorderBuffer.Entries = [0, 1] := by decide
      rw [he] at hm
      simp only [List.mem_cons, List.mem_singleton, List.not_mem_nil, or_false] at hm
      rcases hm with hm | hm <;> subst hm <;> decide),
    by decide, by decide, by decide⟩

/-! ## The pool of functional units -/

/-- C25: `NewFUPool` builds the default table. Each of the five types of functional unit has a
descriptor, of quantity 8, 2, 8, 2, 4 for `INT_ALU`, `INT_MULT_DIV`, `FP_ADD`, `FP_MULT_DIV`,
`MEM_PORT`, with `NumFree = Quantity`; the operations of the descriptors, with their operation
latency and issue latency, are the eleven of the table and no other; `FUOperationToFUTypes` maps
each of the eleven operations to the type whose descriptor lists it, and `NONE` to nothing; and
every stall counter is 0. -/
theorem new_fu_pool_default_table :
    (∀ t : FUType, ∃ d, NewFUPool.Descriptors t = some d ∧ d.FUType = t ∧
      d.NumFree = d.Quantity ∧
      d.Quantity = (match t with
        | .INT_ALU => 8
        | .INT_MULT_DIV => 2
        | .FP_ADD => 8
        | .FP_MULT_DIV => 2
        | .MEM_PORT => 4)) ∧
    (∀ (t : FUType) (o : FUOperationType),
      (NewFUPool.Descriptors t).bind (fun d => d.Operations o) =
        (match t, o with
          | .INT_ALU, .INT_ALU => some { OperationLatency := 2, IssueLatency := 1 }
          | .INT_MULT_DIV, .INT_MULT => some { OperationLatency := 3, IssueLatency := 1 }
          | .INT_MULT_DIV, .INT_DIV => some { OperationLatency := 20, IssueLatency := 19 }
          | .FP_ADD, .FP_ADD => some { OperationLatency := 4, IssueLatency := 1 }
          | .FP_ADD, .FP_CMP => some { OperationLatency := 4, IssueLatency := 1 }
          | .FP_ADD, .FP_CVT => some { OperationLatency := 4, IssueLatency := 1 }
          | .FP_MULT_DIV, .FP_MULT => some { OperationLatency := 8, IssueLatency := 1 }
          | .FP_MULT_DIV, .FP_DIV => some { OperationLatency := 40, IssueLatency := 20 }
          | .FP_MULT_DIV, .FP_SQRT => some { OperationLatency := 80, IssueLatency := 40 }
          | .MEM_PORT, .READ_PORT => some { OperationLatency := 1, IssueLatency := 1 }
          | .MEM_PORT, .WRITE_PORT => some { OperationLatency := 1, IssueLatency := 1 }
          | _, _ => none)) ∧
    (∀ o : FUOperationType,
      NewFUPool.FUOperationToFUTypes o =
        (match o with
          | .NONE => none
          | .INT_ALU => some .INT_ALU
          | .INT_MULT => some .INT_MULT_DIV
          | .INT_DIV => some .INT_MULT_DIV
          | .FP_ADD => some .FP_ADD
          | .FP_CMP => some .FP_ADD
          | .FP_CVT => some .FP_ADD
          | .FP_MULT => some .FP_MULT_DIV
          | .FP_DIV => some .FP_MULT_DIV
          | .FP_SQRT => some .FP_MULT_DIV
          | .READ_PORT => some .MEM_PORT
          | .WRITE_PORT => some .MEM_PORT)) ∧
    (∀ t : FUType, NewFUPool.NumStallsOnNoFreeFU t = some 0) ∧
    (∀ o : FUOperationType, NewFUPool.NumStallsOnAcquireFailedOnNoFreeFU o = some 0) := by
  refine ⟨?_, ?_, ?_, ?_, ?_⟩
  · intro t
    cases t <;> exact ⟨_, rfl, rfl, rfl, rfl⟩
  · intro t o
    cases t <;> cases o <;> rfl
  · intro o
    cases o <;> rfl
  · intro t
    cases t <;> rfl
  · intro o
    cases o <;> rfl

/-! ## Rename and the bounds of the buffers -/

/-- The part of `RegisterRenameOne` on the load/store queue keeps the size of the queue. -/
theorem renameLoadStore_size (t : OoOThread) (d : DecodeBufferEntry) (id : Nat)
    (e : ReorderBufferEntry) (t1 : OoOThread) (r : Except Panic (Option Nat))
    (h : renameLoadStore t d id e = ⟨t1, r⟩) :
    t1.LoadStoreQueue.Size = t.LoadStoreQueue.Size := by
  unfold renameLoadStore at h
  by_cases hls : d.DynamicInst.StaticInst.Mnemonic.StaticInstType.IsLoadOrStore = true
  · simp only [hls, if_true] at h
    cases hm : markNotReady (.lsq id) e.SourcePhysicalRegisters.entries t 0 with
    | mk tm rm =>
      obtain ⟨m1, _, _⟩ := markNotReady_frame _ _ _ _ _ _ hm
      unfold SameButRegisters at m1
      have hq : tm.LoadStoreQueue = t.LoadStoreQueue := by
        have := congrArg OoOThread.LoadStoreQueue m1; exact this
      have hm' : markNotReady (EntryRef.lsq id)
          ({ NewLoadStoreQueueEntry d.DynamicInst d.Npc d.Nnpc d.PredictedNnpc 0 none false with
              EffectiveAddress := d.DynamicInst.EffectiveAddress,
              SourcePhysicalRegisters := e.SourcePhysicalRegisters,
              TargetPhysicalRegisters := e.TargetPhysicalRegisters } :
            LoadStoreQueueEntry).SourcePhysicalRegisters.entries t 0 = ⟨tm, rm⟩ := hm
      rw [hm'] at h
      cases rm with
      | error q =>
        simp only [Outcome.mk.injEq] at h
        rw [← h.1, hq]
      | ok cnt =>
        simp only at h
        split at h
        · simp only [Outcome.mk.injEq] at h
          rw [← h.1, hq]
        · split at h
          · simp only [Outcome.mk.injEq] at h
            rw [← h.1, hq]
          · rename_i sa _
            simp only [Outcome.mk.injEq] at h
            rw [← h.1, ← hq]
            show (if (tm.reg sa).Ready = true then tm
                else tm.setReg sa _).LoadStoreQueue.Size = _
            split_ifs
            · rfl
            · simp only [OoOThread.setReg]
              cases sa.File <;> rfl
  · simp only [hls, Bool.false_eq_true, if_false, Outcome.mk.injEq] at h
    rw [← h.1]

/-- When `RegisterRenameOne` returns `false`. -/
theorem rename_false_iff (t : OoOThread) (d : DecodeBufferEntry) (rest : List DecodeBufferEntry)
    (hd : t.DecodeBuffer.Entries = d :: rest) :
    (t.RegisterRenameOne).res = .ok false ↔ renameStalls t d = true := by
  rcases rename_cases t d rest hd with ⟨c, h1⟩ | ⟨c, ⟨tp, p, h1⟩ | h1⟩
  · rw [h1]
    exact ⟨fun _ => c, fun _ => rfl⟩
  · rw [h1]
    refine ⟨fun h => (by cases h), fun h => ?_⟩
    rw [h] at c
    cases c
  · obtain ⟨t2, e2, t3, n, t4, b, t5, l, _, _, _, _, s5⟩ := h1
    rw [s5]
    refine ⟨fun h => (by simp at h), fun h => ?_⟩
    rw [h] at c
    cases c

/-- C27, as the code has it: `RegisterRenameOne` does not look at the reorder buffer. With a
decode buffer that is not empty, whether it returns `false` is the same whatever the reorder
buffer holds; when it returns `true` the reorder buffer has one entry more than before, of the
same size, so the bound on the reorder buffer is kept when the buffer was not full before the
call; and the bound on the load/store queue is kept by every call that returns. -/
theorem rename_keeps_bounds (t : OoOThread) (d : DecodeBufferEntry)
    (rest : List DecodeBufferEntry) (hd : t.DecodeBuffer.Entries = d :: rest) :
    (∀ reorderBuffer : PipelineBuffer Nat,
      (({ t with ReorderBuffer := reorderBuffer }).RegisterRenameOne).res = .ok false ↔
        (t.RegisterRenameOne).res = .ok false) ∧
    ((t.RegisterRenameOne).res = .ok true →
      (t.RegisterRenameOne).thread.ReorderBuffer.Size = t.ReorderBuffer.Size ∧
      (t.RegisterRenameOne).thread.ReorderBuffer.Entries.length =
        t.ReorderBuffer.Entries.length + 1 ∧
      (t.ReorderBuffer.Full = false →
        (t.RegisterRenameOne).thread.ReorderBuffer.Entries.length ≤ t.ReorderBuffer.Size)) ∧
    (∀ b, (t.RegisterRenameOne).res = .ok b →
      (t.RegisterRenameOne).thread.LoadStoreQueue.Size = t.LoadStoreQueue.Size ∧
      (t.LoadStoreQueue.Entries.length ≤ t.LoadStoreQueue.Size →
        (t.RegisterRenameOne).thread.LoadStoreQueue.Entries.length ≤
          t.LoadStoreQueue.Size)) := by
  refine ⟨?_, ?_, ?_⟩
  · intro rb
    rw [rename_false_iff t d rest hd,
      rename_false_iff { t with ReorderBuffer := rb } d rest hd]
    rfl
  · intro htrue
    rcases rename_cases t d rest hd with ⟨_, h1⟩ | ⟨_, ⟨tp, p, h1⟩ | h1⟩
    · rw [h1] at htrue; cases htrue
    · rw [h1] at htrue; cases htrue
    · obtain ⟨t2, e2, t3, n, t4, b, t5, l, s1, s2, s3, s4, s5⟩ := h1
      rw [s5]
      obtain ⟨f1, _, _, _⟩ := renameOutputs_frame _ _ _ _ _ s1
      obtain ⟨g1, _, _⟩ := markNotReady_frame _ _ _ _ _ _ s2
      obtain ⟨k1, _, _⟩ := renameAddressOperand_frame _ _ _ _ _ s3
      obtain ⟨l1, _, _, _, _⟩ := renameLoadStore_spec _ _ _ _ _ _ s4
      have q := sameButRegistersAndLoadStoreQueue_trans
        (sameButRegisters_toQueue (sameButRegisters_trans f1 (sameButRegisters_trans g1 k1))) l1
      unfold SameButRegistersAndLoadStoreQueue at q
      have hrb : t5.ReorderBuffer = t.ReorderBuffer := by
        have := congrArg OoOThread.ReorderBuffer q; exact this
      have hlen : (renameFinish t5 t.nextEntry
          { e2 with
              NumNotReadyOperands := n,
              EffectiveAddressComputationOperandReady := b,
              LoadStoreBufferEntry := l }).ReorderBuffer.Entries.length
          = t.ReorderBuffer.Entries.length + 1 := by
        show (t5.ReorderBuffer.Entries ++ [t.nextEntry]).length = _
        rw [hrb]
        simp
      refine ⟨?_, hlen, ?_⟩
      · show t5.ReorderBuffer.Size = _
        rw [hrb]
      · intro hfull
        rw [hlen]
        simp only [PipelineBuffer.Full, decide_eq_false_iff_not, Nat.not_le] at hfull
        omega
  · intro b0 hok
    rcases rename_cases t d rest hd with ⟨c, h1⟩ | ⟨c, ⟨tp, p, h1⟩ | h1⟩
    · rw [h1]
      exact ⟨rfl, fun h => h⟩
    · rw [h1] at hok
      cases hok
    · obtain ⟨t2, e2, t3, n, t4, b, t5, l, s1, s2, s3, s4, s5⟩ := h1
      rw [s5]
      obtain ⟨f1, _, _, _⟩ := renameOutputs_frame _ _ _ _ _ s1
      obtain ⟨g1, _, _⟩ := markNotReady_frame _ _ _ _ _ _ s2
      obtain ⟨k1, _, _⟩ := renameAddressOperand_frame _ _ _ _ _ s3
      obtain ⟨_, _, _, l4, l5⟩ := renameLoadStore_spec _ _ _ _ _ _ s4
      have hsz := renameLoadStore_size _ _ _ _ _ _ s4
      have q := sameButRegisters_trans f1 (sameButRegisters_trans g1 k1)
      unfold SameButRegisters at q
      have hq : t4.LoadStoreQueue = t.LoadStoreQueue := by
        have := congrArg OoOThread.LoadStoreQueue q; exact this
      refine ⟨?_, ?_⟩
      · show t5.LoadStoreQueue.Size = _
        rw [hsz, hq]
      · intro hb
        show t5.LoadStoreQueue.Entries.length ≤ _
        by_cases hls : d.DynamicInst.StaticInst.Mnemonic.StaticInstType.IsLoadOrStore = true
        · obtain ⟨_, _, l6, _⟩ := l5 hls l rfl
          rw [l6, hq]
          have hnf : t.LoadStoreQueue.Full = false := by
            simp only [renameStalls, hls, Bool.true_and, Bool.or_eq_false_iff] at c
            exact c.2
          simp only [PipelineBuffer.Full, decide_eq_false_iff_not, Nat.not_le] at hnf
          simp only [List.length_append, List.length_singleton]
          omega
        · have hls1 : d.DynamicInst.StaticInst.Mnemonic.StaticInstType.IsLoadOrStore
              = false := by simpa using hls
          obtain ⟨l7, _⟩ := l4 hls1
          rw [l7, hq]
          exact hb

/-- C27, for an addition at the head of the decode buffer of a new thread, whose reorder buffer
is empty: the reorder buffer holds one entry after the call. -/
theorem rename_keeps_bounds_witness :
    ((sampleThread [sampleEntry 0 .INT_COMP [sampleRegister 1, sampleRegister 2] [sampleRegister 3]
        0]).RegisterRenameOne).thread.ReorderBuffer.Entries.length =
      (sampleThread [sampleEntry 0 .INT_COMP [sampleRegister 1, sampleRegister 2] [sampleRegister 3]
        0]).ReorderBuffer.Entries.length + 1 :=
  ((rename_keeps_bounds
    (sampleThread [sampleEntry 0 .INT_COMP [sampleRegister 1, sampleRegister 2] [sampleRegister 3] 0])
    (sampleEntry 0 .INT_COMP [sampleRegister 1, sampleRegister 2] [sampleRegister 3] 0) [] rfl).2.1 rfl).2.1

/-- C27 fails as stated: with 8 entries in a reorder buffer of size 8, free registers and an
instruction that is not a load or store at the head of the decode buffer, `RegisterRenameOne`
returns `true` and the reorder buffer holds 9 entries. -/
theorem rename_full_reorder_buffer_counterexample :
    sampleFullReorderBuffer.ReorderBuffer.Size = 8 ∧
    sampleFullReorderBuffer.ReorderBuffer.Entries.length = 8 ∧
    sampleFullReorderBuffer.ReorderBuffer.Full = true ∧
    (sampleFullReorderBuffer.RegisterRenameOne).res = .ok true ∧
    (sampleFullReorderBuffer.RegisterRenameOne).thread.ReorderBuffer.Entries.length = 9 :=
  ⟨by decide, by decide, by decide, rfl, by decide⟩

/-! ## Commit: the registers of the outputs -/

/-- The registers after the old register of an output is reclaimed. -/
theorem reg_reclaim (t : OoOThread) (old : PhysRegRef) (file : PhysicalRegisterFile)
    (h : (t.GetPhysicalRegisterFile old.File).Reclaim old.Index = .ok file) (p : PhysRegRef) :
    (t.setPhysicalRegisterFile old.File file).reg p =
      if p = old then
        { t.reg old with
            State := .AVAILABLE,
            Dependents := [],
            EffectiveAddressComputationOperandDependents := [],
            StoreAddressDependents := [] }
      else t.reg p := by
  unfold PhysicalRegisterFile.Reclaim at h
  split_ifs at h
  injection h with h
  subst h
  rw [reg_setPhysicalRegisterFile]
  obtain ⟨pf, pi⟩ := p
  obtain ⟨rf, ri⟩ := old
  simp only [PhysRegRef.mk.injEq]
  by_cases h1 : pf = rf
  · subst h1
    by_cases h2 : pi = ri
    · simp [h2, OoOThread.reg]
    · simp [h2, OoOThread.reg]
  · simp [h1]

/-- The registers after the target register of an output is committed. -/
theorem reg_commit (t : OoOThread) (target : PhysRegRef) (p : PhysRegRef) :
    (t.setPhysicalRegisterFile target.File
      ((t.GetPhysicalRegisterFile target.File).Commit target.Index)).reg p =
      if p = target then { t.reg target with State := .ARCH_REGISTER } else t.reg p := by
  rw [reg_setPhysicalRegisterFile]
  obtain ⟨pf, pi⟩ := p
  obtain ⟨rf, ri⟩ := target
  simp only [PhysRegRef.mk.injEq, PhysicalRegisterFile.Commit]
  by_cases h1 : pf = rf
  · subst h1
    by_cases h2 : pi = ri
    · simp [h2, OoOThread.reg]
    · simp [h2, OoOThread.reg]
  · simp [h1]

/-- The flat index of a logical register in range is 0 for the register 0 of the integer class
only. -/
theorem toInt_zero_iff (NI NF : Nat) (hNI : 0 < NI) (hsum : NI + NF < 4294967296)
    (d : RegisterDependency) (h1 : d.DependencyType = .INT → d.Num < NI)
    (h2 : d.DependencyType = .FP → d.Num < NF)
    (h3 : d.DependencyType = .MISC → NI + NF + d.Num < 4294967296) :
    d.ToInt NI NF = 0 ↔ d = ⟨.INT, 0⟩ := by
  obtain ⟨c, n⟩ := d
  cases c
  · simp [RegisterDependency.ToInt]
  · have hn : n < NF := h2 rfl
    simp only [RegisterDependency.ToInt, u32, RegisterDependency.mk.injEq]
    constructor
    · intro h
      omega
    · rintro ⟨h, _⟩
      cases h
  · have hn : NI + NF + n < 4294967296 := h3 rfl
    simp only [RegisterDependency.ToInt, u32, RegisterDependency.mk.injEq]
    constructor
    · intro h
      omega
    · rintro ⟨h, _⟩
      cases h

/-- The loop of `Commit` over the outputs: a register that is neither the old nor the target
register of an output other than the zero register is left as it was; when these registers differ
from each other, the old ones end `AVAILABLE` and the target ones `ARCH_REGISTER`. -/
theorem commitOutputs_effect (NI NF : Nat) (e : ReorderBufferEntry)
    (outs : List DependencyRef) :
    ∀ (t t1 : OoOThread), commitOutputs NI NF e outs t = ⟨t1, .ok ()⟩ →
      (∀ p, (∀ d, d ∈ outs → d.ToInt NI NF ≠ 0 →
          e.OldPhysicalRegisters.get d ≠ some p ∧ e.TargetPhysicalRegisters.get d ≠ some p) →
        t1.reg p = t.reg p) ∧
      (outs.Nodup →
        (∀ d, d ∈ outs → ∀ d1, d1 ∈ outs → d.ToInt NI NF ≠ 0 → d1.ToInt NI NF ≠ 0 →
          ∀ p, e.OldPhysicalRegisters.get d = some p →
            e.TargetPhysicalRegisters.get d1 ≠ some p) →
        (∀ d, d ∈ outs → ∀ d1, d1 ∈ outs → d.ToInt NI NF ≠ 0 → d1.ToInt NI NF ≠ 0 → d ≠ d1 →
          ∀ p, e.OldPhysicalRegisters.get d = some p →
            e.OldPhysicalRegisters.get d1 ≠ some p) →
        (∀ d, d ∈ outs → ∀ d1, d1 ∈ outs → d.ToInt NI NF ≠ 0 → d1.ToInt NI NF ≠ 0 → d ≠ d1 →
          ∀ p, e.TargetPhysicalRegisters.get d = some p →
            e.TargetPhysicalRegisters.get d1 ≠ some p) →
        ∀ d, d ∈ outs → d.ToInt NI NF ≠ 0 →
          ∃ old target, e.OldPhysicalRegisters.get d = some old ∧
            e.TargetPhysicalRegisters.get d = some target ∧
            (t1.reg old).State = .AVAILABLE ∧ (t1.reg target).State = .ARCH_REGISTER) := by
  induction outs with
  | nil =>
    intro t t1 h
    simp only [commitOutputs, Outcome.mk.injEq] at h
    rw [← h.1]
    exact ⟨fun _ _ => rfl, fun _ _ _ _ d hd => (by simp at hd)⟩
  | cons a ds ih =>
    intro t t1 h
    rw [commitOutputs] at h
    by_cases hz : a.ToInt NI NF ≠ 0
    · rw [if_pos hz] at h
      cases ho : e.OldPhysicalRegisters.get a with
      | none =>
        rw [ho] at h
        simp at h
      | some old =>
        rw [ho] at h
        simp only [] at h
        cases hr : (t.GetPhysicalRegisterFile old.File).Reclaim old.Index with
        | error q =>
          rw [hr] at h
          simp at h
        | ok file =>
          rw [hr] at h
          simp only [] at h
          cases hg : e.TargetPhysicalRegisters.get a with
          | none =>
            rw [hg] at h
            simp at h
          | some target =>
            rw [hg] at h
            simp only [] at h
            obtain ⟨i1, i2⟩ := ih _ _ h
            have hstep : ∀ p, ((t.setPhysicalRegisterFile old.File file).setPhysicalRegisterFile
                target.File (((t.setPhysicalRegisterFile old.File file).GetPhysicalRegisterFile
                  target.File).Commit target.Index)).reg p =
                if p = target then
                  { (t.setPhysicalRegisterFile old.File file).reg target with
                      State := .ARCH_REGISTER }
                else if p = old then
                  { t.reg old with
                      State := .AVAILABLE,
                      Dependents := [],
                      EffectiveAddressComputationOperandDependents := [],
                      StoreAddressDependents := [] }
                else t.reg p := by
              intro p
              rw [reg_commit]
              split_ifs with h1 h2
              · rfl
              · rw [reg_reclaim t old file hr, if_pos h2]
              · rw [reg_reclaim t old file hr, if_neg h2]
            refine ⟨?_, ?_⟩
            · intro p hp
              rw [i1 p (fun d hd hdz => hp d (List.mem_cons_of_mem a hd) hdz), hstep p]
              obtain ⟨hp1, hp2⟩ := hp a (List.mem_cons_self a ds) hz
              rw [ho] at hp1
              rw [hg] at hp2
              have n1 : p ≠ target := fun hc => hp2 (by rw [hc])
              have n2 : p ≠ old := fun hc => hp1 (by rw [hc])
              rw [if_neg n1, if_neg n2]
            · intro hnd hot hoo htt d hd hdz
              have hnd1 := List.nodup_cons.mp hnd
              rcases List.mem_cons.mp hd with hda | hdd
              · subst hda
                have hot1 : old ≠ target := fun hc =>
                  hot d hd d hd hdz hdz old ho (by rw [hg, hc])
                refine ⟨old, target, ho, hg, ?_, ?_⟩
                · rw [i1 old, hstep old, if_neg hot1, if_pos rfl]
                  intro d1 hd1 hd1z
                  have hne : d ≠ d1 := fun hc => hnd1.1 (by rw [hc]; exact hd1)
                  exact ⟨fun hc => hoo d hd d1 (List.mem_cons_of_mem d hd1) hdz hd1z hne old ho hc,
                    fun hc => hot d hd d1 (List.mem_cons_of_mem d hd1) hdz hd1z old ho hc⟩
                · rw [i1 target, hstep target, if_pos rfl]
                  intro d1 hd1 hd1z
                  have hne : d ≠ d1 := fun hc => hnd1.1 (by rw [hc]; exact hd1)
                  exact ⟨fun hc => hot d1 (List.mem_cons_of_mem d hd1) d hd hd1z hdz target hc hg,
                    fun hc => htt d hd d1 (List.mem_cons_of_mem d hd1) hdz hd1z hne target hg hc⟩
              · exact i2 hnd1.2
                  (fun x hx y hy => hot x (List.mem_cons_of_mem a hx) y (List.mem_cons_of_mem a hy))
                  (fun x hx y hy => hoo x (List.mem_cons_of_mem a hx) y (List.mem_cons_of_mem a hy))
                  (fun x hx y hy => htt x (List.mem_cons_of_mem a hx) y (List.mem_cons_of_mem a hy))
                  d hdd hdz
    · rw [if_neg hz] at h
      obtain ⟨i1, i2⟩ := ih _ _ h
      refine ⟨?_, ?_⟩
      · intro p hp
        exact i1 p (fun d hd hdz => hp d (List.mem_cons_of_mem a hd) hdz)
      · intro hnd hot hoo htt d hd hdz
        have hnd1 := List.nodup_cons.mp hnd
        rcases List.mem_cons.mp hd with hda | hdd
        · subst hda
          exact absurd hdz hz
        · exact i2 hnd1.2
            (fun x hx y hy => hot x (List.mem_cons_of_mem a hx) y (List.mem_cons_of_mem a hy))
            (fun x hx y hy => hoo x (List.mem_cons_of_mem a hx) y (List.mem_cons_of_mem a hy))
            (fun x hx y hy => htt x (List.mem_cons_of_mem a hx) y (List.mem_cons_of_mem a hy))
            d hdd hdz

/-- A turn of the loop of `Commit` that retires an entry runs the loop over its outputs, and
nothing else of the turn touches a register. -/
theorem commitOne_outputs (NI NF id : Nat) (t t1 : OoOThread)
    (h : commitOne NI NF id t = ⟨t1, .ok true⟩) :
    ∃ ta t2, (∀ p, ta.reg p = t.reg p) ∧
      commitOutputs NI NF (t.robEntries id)
        (t.robEntries id).DynamicInst.StaticInst.OutputDependencies ta = ⟨t2, .ok ()⟩ ∧
      (∀ p, t1.reg p = t2.reg p) := by
  have key : ∀ ta : OoOThread, (∀ p, ta.reg p = t.reg p) →
      commitRetire NI NF id (t.robEntries id) ta = ⟨t1, .ok true⟩ →
      ∃ ta t2, (∀ p, ta.reg p = t.reg p) ∧
        commitOutputs NI NF (t.robEntries id)
          (t.robEntries id).DynamicInst.StaticInst.OutputDependencies ta = ⟨t2, .ok ()⟩ ∧
        (∀ p, t1.reg p = t2.reg p) := by
    intro ta hta hk
    unfold commitRetire at hk
    cases ho : commitOutputs NI NF (t.robEntries id)
        (t.robEntries id).DynamicInst.StaticInst.OutputDependencies ta with
    | mk t2 r2 =>
      rw [ho] at hk
      cases r2 with
      | error q => simp at hk
      | ok u =>
        simp only [Outcome.mk.injEq, and_true] at hk
        refine ⟨ta, t2, hta, ho, ?_⟩
        intro p
        rw [← hk]
        obtain ⟨pf, pi⟩ := p
        cases pf <;> rfl
  unfold commitOne at h
  simp only [] at h
  by_cases hc : (t.robEntries id).Completed = true
  · simp only [hc, Bool.not_true, Bool.false_eq_true, if_false] at h
    by_cases hs : (t.robEntries id).Speculative = true
    · simp only [hs, if_true] at h
      split at h
      · simp at h
      · simp at h
    · simp only [hs, Bool.false_eq_true, if_false] at h
      by_cases hea : (t.robEntries id).EffectiveAddressComputation = true
      · simp only [hea, if_true] at h
        cases hl : (t.robEntries id).LoadStoreBufferEntry with
        | none =>
          rw [hl] at h
          simp at h
        | some l =>
          rw [hl] at h
          simp only [] at h
          by_cases hlc : (t.lsqEntries l).Completed = true
          · simp only [hlc, Bool.not_true, Bool.false_eq_true, if_false] at h
            refine key _ ?_ h
            intro p
            obtain ⟨pf, pi⟩ := p
            cases pf <;> rfl
          · have hlc1 : (t.lsqEntries l).Completed = false := by simpa using hlc
            simp [hlc1] at h
      · simp only [hea, Bool.false_eq_true, if_false] at h
        exact key t (fun _ => rfl) h
  · have hc1 : (t.robEntries id).Completed = false := by simpa using hc
    simp [hc1] at h

/-- C22: in a turn of the loop of `Commit` that retires the entry `id`, whose output dependencies
are in range, differ from each other and have old and target registers that all differ: an
output dependency has the flat index 0 exactly when it is the zero register `(INT, 0)`; for every
output dependency that is not the zero register the old register of the entry is reclaimed (it
ends `AVAILABLE`) and the target register is committed (it ends `ARCH_REGISTER`); and every
register that is neither of these, as the old and the target register of an output `(INT, 0)`,
is left as it was: neither `Reclaim` nor `Commit` is applied to it. -/
theorem commit_skips_zero_register (NI NF id : Nat) (t t1 : OoOThread)
    (hNI : 0 < NI) (hsum : NI + NF < 4294967296)
    (h : commitOne NI NF id t = ⟨t1, .ok true⟩)
    (hrange : ∀ d, d ∈ (t.robEntries id).DynamicInst.StaticInst.OutputDependencies →
      (d.DependencyType = .INT → d.Num < NI) ∧ (d.DependencyType = .FP → d.Num < NF) ∧
      (d.DependencyType = .MISC → NI + NF + d.Num < 4294967296))
    (hnd : (t.robEntries id).DynamicInst.StaticInst.OutputDependencies.Nodup)
    (hot : ∀ d, d ∈ (t.robEntries id).DynamicInst.StaticInst.OutputDependencies →
      ∀ d1, d1 ∈ (t.robEntries id).DynamicInst.StaticInst.OutputDependencies →
      d.toRegisterDependency ≠ ⟨.INT, 0⟩ → d1.toRegisterDependency ≠ ⟨.INT, 0⟩ →
      ∀ p, (t.robEntries id).OldPhysicalRegisters.get d = some p →
        (t.robEntries id).TargetPhysicalRegisters.get d1 ≠ some p)
    (hoo : ∀ d, d ∈ (t.robEntries id).DynamicInst.StaticInst.OutputDependencies →
      ∀ d1, d1 ∈ (t.robEntries id).DynamicInst.StaticInst.OutputDependencies →
      d.toRegisterDependency ≠ ⟨.INT, 0⟩ → d1.toRegisterDependency ≠ ⟨.INT, 0⟩ → d ≠ d1 →
      ∀ p, (t.robEntries id).OldPhysicalRegisters.get d = some p →
        (t.robEntries id).OldPhysicalRegisters.get d1 ≠ some p)
    (htt : ∀ d, d ∈ (t.robEntries id).DynamicInst.StaticInst.OutputDependencies →
      ∀ d1, d1 ∈ (t.robEntries id).DynamicInst.StaticInst.OutputDependencies →
      d.toRegisterDependency ≠ ⟨.INT, 0⟩ → d1.toRegisterDependency ≠ ⟨.INT, 0⟩ → d ≠ d1 →
      ∀ p, (t.robEntries id).TargetPhysicalRegisters.get d = some p →
        (t.robEntries id).TargetPhysicalRegisters.get d1 ≠ some p) :
    (∀ d, d ∈ (t.robEntries id).DynamicInst.StaticInst.OutputDependencies →
      (d.ToInt NI NF = 0 ↔ d.toRegisterDependency = ⟨.INT, 0⟩)) ∧
    (∀ d, d ∈ (t.robEntries id).DynamicInst.StaticInst.OutputDependencies →
      d.toRegisterDependency ≠ ⟨.INT, 0⟩ →
      ∃ old target, (t.robEntries id).OldPhysicalRegisters.get d = some old ∧
        (t.robEntries id).TargetPhysicalRegisters.get d = some target ∧
        (t1.reg old).State = .AVAILABLE ∧ (t1.reg target).State = .ARCH_REGISTER) ∧
    (∀ p, (∀ d, d ∈ (t.robEntries id).DynamicInst.StaticInst.OutputDependencies →
        d.toRegisterDependency ≠ ⟨.INT, 0⟩ →
        (t.robEntries id).OldPhysicalRegisters.get d ≠ some p ∧
        (t.robEntries id).TargetPhysicalRegisters.get d ≠ some p) →
      t1.reg p = t.reg p) := by
  have hz : ∀ d, d ∈ (t.robEntries id).DynamicInst.StaticInst.OutputDependencies →
      (d.ToInt NI NF = 0 ↔ d.toRegisterDependency = ⟨.INT, 0⟩) := by
    intro d hd
    obtain ⟨r1, r2, r3⟩ := hrange d hd
    exact toInt_zero_iff NI NF hNI hsum d.toRegisterDependency r1 r2 r3
  have hnz : ∀ d, d ∈ (t.robEntries id).DynamicInst.StaticInst.OutputDependencies →
      d.ToInt NI NF ≠ 0 → d.toRegisterDependency ≠ ⟨.INT, 0⟩ :=
    fun d hd h0 hc => h0 ((hz d hd).mpr hc)
  obtain ⟨ta, t2, e1, e2, e3⟩ := commitOne_outputs NI NF id t t1 h
  obtain ⟨c1, c2⟩ := commitOutputs_effect NI NF _ _ _ _ e2
  refine ⟨hz, ?_, ?_⟩
  · intro d hd hdz
    obtain ⟨old, target, q1, q2, q3, q4⟩ := c2 hnd
      (fun x hx y hy hxz hyz => hot x hx y hy (hnz x hx hxz) (hnz y hy hyz))
      (fun x hx y hy hxz hyz => hoo x hx y hy (hnz x hx hxz) (hnz y hy hyz))
      (fun x hx y hy hxz hyz => htt x hx y hy (hnz x hx hxz) (hnz y hy hyz))
      d hd (fun h0 => hdz ((hz d hd).mp h0))
    refine ⟨old, target, q1, q2, ?_, ?_⟩
    · rw [e3]; exact q3
    · rw [e3]; exact q4
  · intro p hp
    rw [e3, c1 p (fun d hd hdz => hp d hd (hnz d hd hdz)), e1]

/-- C22, for the retirement of `r1 := r4 + r5` by the sample thread: the old register of `r1` is
reclaimed and its target register is committed. -/
theorem commit_skips_zero_register_witness :
    ∃ old target,
      (sampleCompleted.robEntries 0).OldPhysicalRegisters.get (sampleRegister 1) = some old ∧
      (sampleCompleted.robEntries 0).TargetPhysicalRegisters.get (sampleRegister 1) = some target ∧
      ((commitOne 32 32 0 sampleCompleted).thread.reg old).State = .AVAILABLE ∧
      ((commitOne 32 32 0 sampleCompleted).thread.reg target).State = .ARCH_REGISTER :=
  have houts : (sampleCompleted.robEntries 0).DynamicInst.StaticInst.OutputDependencies
      = [sampleRegister 1] := by decide
  (commit_skips_zero_register 32 32 0 sampleCompleted (commitOne 32 32 0 sampleCompleted).thread
    (by norm_num) (by norm_num) rfl
    (by
      intro d hd
      rw [houts, List.mem_singleton] at hd
      subst hd
      exact ⟨fun _ => (by decide), fun hc => (by cases hc), fun hc => (by cases hc)⟩)
    (by rw [houts]; decide)
    (by
      intro d hd d1 hd1 _ _ p h1 h2
      rw [houts, List.mem_singleton] at hd hd1
      subst hd
      subst hd1
      exact absurd (h1.trans h2.symm) (by decide))
    (by
      intro d hd d1 hd1 _ _ hne
      rw [houts, List.mem_singleton] at hd hd1
      exact absurd (hd.trans hd1.symm) hne)
    (by
      intro d hd d1 hd1 _ _ hne
      rw [houts, List.mem_singleton] at hd hd1
      exact absurd (hd.trans hd1.symm) hne)).2.1 (sampleRegister 1) (by decide) (by decide)

/-! ## Squash -/

/-- The loop of `Squash` over the outputs of an entry changes the register files and the rename
table only; it fails only on an output without target register. -/
theorem squashOutputs_frame (NI NF : Nat) (e : ReorderBufferEntry)
    (outs : List DependencyRef) :
    ∀ (t t1 : OoOThread) (r : Except Panic Unit),
      squashOutputs NI NF e outs t = ⟨t1, r⟩ →
      SameButRegisters t t1 ∧ (r = .ok () ∨ r = .error .NilPointer) ∧
      ((∀ d, d ∈ outs → d.ToInt NI NF ≠ 0 → (e.TargetPhysicalRegisters.get d).isSome = true) →
        r = .ok ()) := by
  induction outs with
  | nil =>
    intro t t1 r h
    simp only [squashOutputs, Outcome.mk.injEq] at h
    rw [← h.1, ← h.2]
    exact ⟨sameButRegisters_refl t, Or.inl rfl, fun _ => rfl⟩
  | cons d ds ih =>
    intro t t1 r h
    rw [squashOutputs] at h
    by_cases hz : d.ToInt NI NF ≠ 0
    · rw [if_pos hz] at h
      cases hg : e.TargetPhysicalRegisters.get d with
      | none =>
        rw [hg] at h
        simp only [Outcome.mk.injEq] at h
        rw [← h.1, ← h.2]
        refine ⟨sameButRegisters_refl t, Or.inr rfl, ?_⟩
        intro hT
        have := hT d (List.mem_cons_self d ds) hz
        rw [hg] at this
        cases this
      | some target =>
        rw [hg] at h
        simp only [] at h
        obtain ⟨i1, i2, i3⟩ := ih _ _ _ h
        have hs : SameButRegisters t
            { t.setPhysicalRegisterFile target.File
                ((t.GetPhysicalRegisterFile target.File).Recover target.Index) with
              RenameTable := fun k =>
                if k = d then e.OldPhysicalRegisters.get d
                else (t.setPhysicalRegisterFile target.File
                  ((t.GetPhysicalRegisterFile target.File).Recover
                    target.Index)).RenameTable k } := by
          cases target.File <;> rfl
        exact ⟨sameButRegisters_trans hs i1, i2,
          fun hT => i3 (fun x hx => hT x (List.mem_cons_of_mem d hx))⟩
    · rw [if_neg hz] at h
      obtain ⟨i1, i2, i3⟩ := ih _ _ _ h
      exact ⟨i1, i2, fun hT => i3 (fun x hx => hT x (List.mem_cons_of_mem d hx))⟩

/-- The loop of `Squash`: what it keeps, how it can end, and what it leaves of the reorder buffer
and of the load/store queue. -/
theorem squashLoop_spec (NI NF : Nat) :
    ∀ (fuel : Nat) (t t1 : OoOThread) (r : Except Panic Unit),
      squashLoop NI NF fuel t = ⟨t1, r⟩ → t.ReorderBuffer.Entries.length ≤ fuel →
      (t1.BranchPredictor = t.BranchPredictor ∧ t1.Context = t.Context ∧
        t1.FetchNpc = t.FetchNpc ∧ t1.FetchNnpc = t.FetchNnpc ∧
        t1.numDynamicInsts = t.numDynamicInsts) ∧
      (r = .ok () ∨ r = .error .NilPointer) ∧
      (r = .ok () → t1.ReorderBuffer.Entries = [] ∧
        ∀ l, l ∈ t1.LoadStoreQueue.Entries → l ∈ t.LoadStoreQueue.Entries ∧
          ∀ id, id ∈ t.ReorderBuffer.Entries →
            (t.robEntries id).EffectiveAddressComputation = true →
            (t.robEntries id).LoadStoreBufferEntry ≠ some l) ∧
      ((∀ id, id ∈ t.ReorderBuffer.Entries →
          ∀ d, d ∈ (t.robEntries id).DynamicInst.StaticInst.OutputDependencies →
            d.ToInt NI NF ≠ 0 → ((t.robEntries id).TargetPhysicalRegisters.get d).isSome = true) →
        t.ReorderBuffer.Entries.Nodup → r = .ok ()) := by
  intro fuel
  induction fuel with
  | zero =>
    intro t t1 r h hlen
    have he : t.ReorderBuffer.Entries = [] := List.length_eq_zero.mp (Nat.le_zero.mp hlen)
    simp only [squashLoop, PipelineBuffer.Empty, he, List.isEmpty_nil, if_true,
      Outcome.mk.injEq] at h
    rw [← h.1, ← h.2]
    exact ⟨⟨rfl, rfl, rfl, rfl, rfl⟩, Or.inl rfl,
      fun _ => ⟨he, fun l hl => ⟨hl, fun id hid => (by rw [he] at hid; simp at hid)⟩⟩,
      fun _ _ => rfl⟩
  | succ fuel ih =>
    intro t t1 r h hlen
    rw [squashLoop] at h
    cases hg : t.ReorderBuffer.Entries.getLast? with
    | none =>
      have he : t.ReorderBuffer.Entries = [] := List.getLast?_eq_none_iff.mp hg
      rw [hg] at h
      simp only [Outcome.mk.injEq] at h
      rw [← h.1, ← h.2]
      exact ⟨⟨rfl, rfl, rfl, rfl, rfl⟩, Or.inl rfl,
        fun _ => ⟨he, fun l hl => ⟨hl, fun id hid => (by rw [he] at hid; simp at hid)⟩⟩,
        fun _ _ => rfl⟩
    | some id =>
      obtain ⟨init, he⟩ := List.getLast?_eq_some_iff.mp hg
      rw [hg] at h
      simp only [] at h
      -- the thread before the loop over the outputs
      generalize hta : ({ (if (t.robEntries id).EffectiveAddressComputation = true then
          OoOThread.removeFromLoadStoreQueue
            { t with
                Core := t.Core.RemoveFromQueues
                  (Option.map EntryRef.lsq (t.robEntries id).LoadStoreBufferEntry) }
            (t.robEntries id).LoadStoreBufferEntry
          else t) with
          Core := (if (t.robEntries id).EffectiveAddressComputation = true then
            OoOThread.removeFromLoadStoreQueue
              { t with
                  Core := t.Core.RemoveFromQueues
                    (Option.map EntryRef.lsq (t.robEntries id).LoadStoreBufferEntry) }
              (t.robEntries id).LoadStoreBufferEntry
            else t).Core.RemoveFromQueues (some (EntryRef.rob id)) } : OoOThread) = ta at h
      have fa : ta.BranchPredictor = t.BranchPredictor ∧ ta.Context = t.Context ∧
          ta.FetchNpc = t.FetchNpc ∧ ta.FetchNnpc = t.FetchNnpc ∧
          ta.numDynamicInsts = t.numDynamicInsts ∧ ta.robEntries = t.robEntries ∧
          ta.ReorderBuffer = t.ReorderBuffer ∧
          ta.LoadStoreQueue.Entries =
            (if (t.robEntries id).EffectiveAddressComputation = true then
              t.LoadStoreQueue.Entries.filter (fun entry =>
                decide (some entry ≠ (t.robEntries id).LoadStoreBufferEntry))
            else t.LoadStoreQueue.Entries) := by
        rw [← hta]
        split_ifs <;> exact ⟨rfl, rfl, rfl, rfl, rfl, rfl, rfl, rfl⟩
      obtain ⟨a1, a2, a3, a4, a5, a6, a7, a8⟩ := fa
      cases ho : squashOutputs NI NF (t.robEntries id)
          (t.robEntries id).DynamicInst.StaticInst.OutputDependencies ta with
      | mk t3 r3 =>
        obtain ⟨f, fr, fs⟩ := squashOutputs_frame _ _ _ _ _ _ _ ho
        unfold SameButRegisters at f
        have b1 : t3.BranchPredictor = ta.BranchPredictor := by
          have := congrArg OoOThread.BranchPredictor f; exact this
        have b2 : t3.Context = ta.Context := by
          have := congrArg OoOThread.Context f; exact this
        have b3 : t3.FetchNpc = ta.FetchNpc := by
          have := congrArg OoOThread.FetchNpc f; exact this
        have b4 : t3.FetchNnpc = ta.FetchNnpc := by
          have := congrArg OoOThread.FetchNnpc f; exact this
        have b5 : t3.numDynamicInsts = ta.numDynamicInsts := by
          have := congrArg OoOThread.numDynamicInsts f; exact this
        have b6 : t3.robEntries = ta.robEntries := by
          have := congrArg OoOThread.robEntries f; exact this
        have b7 : t3.ReorderBuffer = ta.ReorderBuffer := by
          have := congrArg OoOThread.ReorderBuffer f; exact this
        have b8 : t3.LoadStoreQueue = ta.LoadStoreQueue := by
          have := congrArg OoOThread.LoadStoreQueue f; exact this
        rw [ho] at h
        cases r3 with
        | error q =>
          simp only [Outcome.mk.injEq] at h
          rw [← h.1, ← h.2]
          refine ⟨⟨b1.trans a1, b2.trans a2, b3.trans a3, b4.trans a4, b5.trans a5⟩, ?_,
            fun hc => (by cases hc), ?_⟩
          · rcases fr with fr | fr
            · cases fr
            · exact Or.inr fr
          · intro hT _
            have := fs (hT id (by rw [he]; simp))
            cases this
        | ok u =>
          simp only [] at h
          have hrob : t3.ReorderBuffer.Entries.take (t3.ReorderBuffer.Entries.length - 1)
              = init := by
            rw [b7, a7, he]
            simp
          have hlen1 : init.length ≤ fuel := by
            rw [he] at hlen
            simp only [List.length_append, List.length_singleton] at hlen
            omega
          obtain ⟨c1, c2, c3, c4⟩ := ih _ t1 r h (by
            show (t3.ReorderBuffer.Entries.take (t3.ReorderBuffer.Entries.length - 1)).length
              ≤ fuel
            rw [hrob]
            exact hlen1)
          obtain ⟨c11, c12, c13, c14, c15⟩ := c1
          have hfield : ∀ i, ((if i = id then
                { t3.robEntries id with TargetPhysicalRegisters := RegMap.empty }
              else t3.robEntries i).EffectiveAddressComputation
                = (t.robEntries i).EffectiveAddressComputation) ∧
              ((if i = id then
                { t3.robEntries id with TargetPhysicalRegisters := RegMap.empty }
              else t3.robEntries i).LoadStoreBufferEntry
                = (t.robEntries i).LoadStoreBufferEntry) := by
            intro i
            rw [b6, a6]
            split_ifs with hi
            · rw [hi]; exact ⟨rfl, rfl⟩
            · exact ⟨rfl, rfl⟩
          refine ⟨⟨c11.trans (b1.trans a1), c12.trans (b2.trans a2), c13.trans (b3.trans a3),
            c14.trans (b4.trans a4), c15.trans (b5.trans a5)⟩, c2, ?_, ?_⟩
          · intro hr
            obtain ⟨d1, d2⟩ := c3 hr
            refine ⟨d1, ?_⟩
            intro l hl
            obtain ⟨e1, e2⟩ := d2 l hl
            have e1' : l ∈ ta.LoadStoreQueue.Entries := by
              rw [← b8]; exact e1
            rw [a8] at e1'
            have hlt : l ∈ t.LoadStoreQueue.Entries := by
              split_ifs at e1' with hx
              · exact (List.mem_filter.mp e1').1
              · exact e1'
            refine ⟨hlt, ?_⟩
            intro id1 hid1 hea1
            rw [he] at hid1
            rcases List.mem_append.mp hid1 with hid1 | hid1
            · have := e2 id1 (by
                show id1 ∈ t3.ReorderBuffer.Entries.take (t3.ReorderBuffer.Entries.length - 1)
                rw [hrob]; exact hid1) (by
                show (if id1 = id then
                    { t3.robEntries id with TargetPhysicalRegisters := RegMap.empty }
                  else t3.robEntries id1).EffectiveAddressComputation = true
                rw [(hfield id1).1]; exact hea1)
              intro hc
              apply this
              show (if id1 = id then
                  { t3.robEntries id with TargetPhysicalRegisters := RegMap.empty }
                else t3.robEntries id1).LoadStoreBufferEntry = some l
              rw [(hfield id1).2]; exact hc
            · rw [List.mem_singleton] at hid1
              subst hid1
              rw [if_pos hea1] at e1'
              have := (List.mem_filter.mp e1').2
              intro hc
              rw [hc] at this
              simp at this
          · intro hT hnd
            rw [he] at hnd
            have hnd1 := List.nodup_append.mp hnd
            apply c4
            · intro id1 hid1 d hd hdz
              have hid1' : id1 ∈ init := by
                have : id1 ∈ t3.ReorderBuffer.Entries.take
                    (t3.ReorderBuffer.Entries.length - 1) := hid1
                rw [hrob] at this
                exact this
              have hne : id1 ≠ id := by
                intro hc
                exact hnd1.2.2 hid1' (by rw [hc]; simp)
              have hrob1 : (if id1 = id then
                  { t3.robEntries id with TargetPhysicalRegisters := RegMap.empty }
                else t3.robEntries id1) = t.robEntries id1 := by
                rw [if_neg hne, b6, a6]
              have hd' : d ∈ (t.robEntries id1).DynamicInst.StaticInst.OutputDependencies := by
                rw [← hrob1]; exact hd
              have := hT id1 (by rw [he]; exact List.mem_append_left _ hid1') d hd' hdz
              show ((if id1 = id then
                  { t3.robEntries id with TargetPhysicalRegisters := RegMap.empty }
                else t3.robEntries id1).TargetPhysicalRegisters.get d).isSome = true
              rw [hrob1]
              exact this
            · show (t3.ReorderBuffer.Entries.take (t3.ReorderBuffer.Entries.length - 1)).Nodup
              rw [hrob]
              exact hnd1.1

/-- `Squash` as a whole, from its loop. -/
theorem squash_cases (NI NF : Nat) (t : OoOThread) :
    ∃ (t1 : OoOThread) (r : Except Panic Unit),
      squashLoop NI NF t.ReorderBuffer.Entries.length t = ⟨t1, r⟩ ∧
      ((∃ p, r = .error p ∧ t.Squash NI NF = ⟨t1, .error p⟩) ∨
        (r = .ok () ∧
          (!t1.ReorderBuffer.Empty || !t1.LoadStoreQueue.Empty) = true ∧
          t.Squash NI NF = ⟨t1, .error .Impossible⟩) ∨
        (r = .ok () ∧ t1.ReorderBuffer.Entries = [] ∧ t1.LoadStoreQueue.Entries = [] ∧
          t.Squash NI NF =
            ⟨{ t1 with
                Core := { t1.Core with FUPool := t1.Core.FUPool.ReleaseAll },
                DecodeBuffer := { t1.DecodeBuffer with Entries := [] } },
              .ok ()⟩)) := by
  unfold OoOThread.Squash
  cases hl : squashLoop NI NF t.ReorderBuffer.Entries.length t with
  | mk t1 r =>
    refine ⟨t1, r, rfl, ?_⟩
    cases r with
    | error p => exact Or.inl ⟨p, rfl, rfl⟩
    | ok u =>
      right
      simp only []
      by_cases hc : (!t1.ReorderBuffer.Empty || !t1.LoadStoreQueue.Empty) = true
      · left
        rw [if_pos hc]
        exact ⟨trivial, hc, rfl⟩
      · right
        rw [if_neg hc]
        simp only [Bool.or_eq_true, Bool.not_eq_true', not_or, Bool.not_eq_false,
          PipelineBuffer.Empty, List.isEmpty_iff] at hc
        exact ⟨trivial, hc.1, hc.2, rfl⟩

/-- C24: in every state in which each entry of the load/store queue is the paired entry of some
entry of the reorder buffer that has `EffectiveAddressComputation` set, `Squash` does not reach
its assertion `Impossible` and its loop ends; when it returns it leaves the reorder buffer, the
load/store queue and the decode buffer empty and every descriptor of the pool of functional units
with `NumFree = Quantity`; and it returns when, besides, the entries of the reorder buffer differ
from each other and have a target register for each output that is not the zero register. -/
theorem squash_empties_buffers (NI NF : Nat) (t : OoOThread)
    (hpair : ∀ l, l ∈ t.LoadStoreQueue.Entries →
      ∃ id, id ∈ t.ReorderBuffer.Entries ∧
        (t.robEntries id).EffectiveAddressComputation = true ∧
        (t.robEntries id).LoadStoreBufferEntry = some l) :
    (t.Squash NI NF).res ≠ .error .Impossible ∧ (t.Squash NI NF).res ≠ .error .OutOfFuel ∧
    ((t.Squash NI NF).res = .ok () →
      (t.Squash NI NF).thread.ReorderBuffer.Entries = [] ∧
      (t.Squash NI NF).thread.LoadStoreQueue.Entries = [] ∧
      (t.Squash NI NF).thread.DecodeBuffer.Entries = [] ∧
      ∀ fuType fuDescriptor,
        (t.Squash NI NF).thread.Core.FUPool.Descriptors fuType = some fuDescriptor →
        fuDescriptor.NumFree = fuDescriptor.Quantity) ∧
    ((∀ id, id ∈ t.ReorderBuffer.Entries →
        ∀ d, d ∈ (t.robEntries id).DynamicInst.StaticInst.OutputDependencies →
          d.ToInt NI NF ≠ 0 → ((t.robEntries id).TargetPhysicalRegisters.get d).isSome = true) →
      t.ReorderBuffer.Entries.Nodup → (t.Squash NI NF).res = .ok ()) := by
  obtain ⟨t1, r, hl, hcases⟩ := squash_cases NI NF t
  obtain ⟨_, s2, s3, s4⟩ := squashLoop_spec NI NF _ t t1 r hl (Nat.le_refl _)
  have hempty : r = .ok () → t1.ReorderBuffer.Entries = [] ∧ t1.LoadStoreQueue.Entries = [] := by
    intro hr
    obtain ⟨e1, e2⟩ := s3 hr
    refine ⟨e1, ?_⟩
    apply List.eq_nil_iff_forall_not_mem.mpr
    intro l hl1
    obtain ⟨m1, m2⟩ := e2 l hl1
    obtain ⟨id, i1, i2, i3⟩ := hpair l m1
    exact m2 id i1 i2 i3
  rcases hcases with ⟨p, hp, hs⟩ | ⟨hr, hne, hs⟩ | ⟨hr, _, _, hs⟩
  · rw [hs]
    subst hp
    have hp1 : p = .NilPointer := by
      rcases s2 with s2 | s2
      · cases s2
      · injection s2
    subst hp1
    refine ⟨fun hc => (by cases hc), fun hc => (by cases hc), fun hc => (by cases hc), ?_⟩
    intro hT hnd
    have := s4 hT hnd
    cases this
  · exfalso
    obtain ⟨e1, e2⟩ := hempty hr
    simp [PipelineBuffer.Empty, e1, e2] at hne
  · rw [hs]
    refine ⟨fun hc => (by cases hc), fun hc => (by cases hc), ?_, fun _ _ => rfl⟩
    intro _
    obtain ⟨e1, e2⟩ := hempty hr
    refine ⟨e1, e2, rfl, ?_⟩
    intro fuType fuDescriptor hd
    simp only [FUPool.ReleaseAll] at hd
    cases hx : t1.Core.FUPool.Descriptors fuType with
    | none =>
      rw [hx] at hd
      cases hd
    | some d0 =>
      rw [hx] at hd
      simp only [Option.map_some', Option.some.injEq] at hd
      rw [← hd]
      rfl

/-- C24, for the sample thread with an addition, a store and a load in flight: `Squash` returns
and leaves the three buffers empty. -/
theorem squash_empties_buffers_witness :
    (sampleUnknownData.Squash 32 32).res = .ok () ∧
    (sampleUnknownData.ReorderBuffer.Entries = [0, 1, 2] ∧
      sampleUnknownData.LoadStoreQueue.Entries = [1, 2]) ∧
    (sampleUnknownData.Squash 32 32).thread.ReorderBuffer.Entries = [] ∧
    (sampleUnknownData.Squash 32 32).thread.LoadStoreQueue.Entries = [] :=
  have h := squash_empties_buffers 32 32 sampleUnknownData (by decide)
  have hr : (sampleUnknownData.Squash 32 32).res = .ok () := rfl
  ⟨hr, ⟨by decide, by decide⟩, (h.2.2.1 hr).1, (h.2.2.1 hr).2.1⟩

/-! ## Commit at a speculative entry -/

/-- The end of a turn of the loop of `Commit` is no `break` and keeps the context. -/
theorem commitRetire_context (NI NF id : Nat) (e : ReorderBufferEntry) (ta t1 : OoOThread)
    (r : Except Panic Bool) (h : commitRetire NI NF id e ta = ⟨t1, r⟩) :
    r ≠ .ok false ∧ t1.Context = ta.Context := by
  unfold commitRetire at h
  cases ho : commitOutputs NI NF e e.DynamicInst.StaticInst.OutputDependencies ta with
  | mk t2 r2 =>
    obtain ⟨f, _⟩ := commitOutputs_frame _ _ _ _ _ _ _ ho
    unfold SameButRegisters at f
    have f1 : t2.Context = ta.Context := by
      have := congrArg OoOThread.Context f; exact this
    rw [ho] at h
    cases r2 with
    | error p =>
      simp only [Outcome.mk.injEq] at h
      rw [← h.1, ← h.2]
      exact ⟨fun hc => (by cases hc), f1⟩
    | ok u =>
      simp only [Outcome.mk.injEq] at h
      rw [← h.1, ← h.2]
      exact ⟨fun hc => (by cases hc), f1⟩

/-- A turn of the loop of `Commit` on an entry that is ready to be retired and not speculative
is no `break` and keeps the context. -/
theorem commitOne_ready (NI NF id : Nat) (t t1 : OoOThread) (r : Except Panic Bool)
    (hs : (t.robEntries id).Speculative = false) (hready : CommitReady t id)
    (h : commitOne NI NF id t = ⟨t1, r⟩) :
    r ≠ .ok false ∧ t1.Context = t.Context := by
  obtain ⟨hc, hl⟩ := hready
  unfold commitOne at h
  simp only [hc, hs, Bool.not_true, Bool.false_eq_true, if_false] at h
  by_cases hea : (t.robEntries id).EffectiveAddressComputation = true
  · obtain ⟨l, h1, h2⟩ := hl hea
    simp only [hea, if_true, h1, h2, Bool.not_true, Bool.false_eq_true, if_false] at h
    obtain ⟨g1, g2⟩ := commitRetire_context _ _ _ _ _ _ _ h
    exact ⟨g1, g2⟩
  · simp only [hea, Bool.false_eq_true, if_false] at h
    exact commitRetire_context _ _ _ _ _ _ _ h

/-- A turn of the loop of `Commit` on an entry that is completed and speculative. -/
theorem commitOne_speculative (NI NF id : Nat) (t t1 : OoOThread) (r : Except Panic Bool)
    (hc : (t.robEntries id).Completed = true) (hs : (t.robEntries id).Speculative = true)
    (h : commitOne NI NF id t = ⟨t1, r⟩) :
    r ≠ .ok true ∧
    (r = .ok false →
      t1.BranchPredictor =
        { t.BranchPredictor with
            ReturnAddressStackTop := (t.robEntries id).ReturnAddressStackRecoverTop } ∧
      t1.Context = t.Context.ExitSpeculativeState ∧
      t1.FetchNpc = t.Context.ArchitectedRegs.Npc ∧
      t1.FetchNnpc = t.Context.ArchitectedRegs.Nnpc ∧
      t1.numDynamicInsts = t.numDynamicInsts ∧
      t1.ReorderBuffer.Entries = [] ∧ t1.LoadStoreQueue.Entries = [] ∧
      t1.DecodeBuffer.Entries = []) := by
  unfold commitOne at h
  simp only [hc, hs, Bool.not_true, Bool.false_eq_true, if_false, if_true] at h
  generalize htb : ({ t with
      BranchPredictor :=
        { t.BranchPredictor with
            ReturnAddressStackTop := (t.robEntries id).ReturnAddressStackRecoverTop },
      Context := t.Context.ExitSpeculativeState,
      FetchNpc := t.Context.ExitSpeculativeState.Regs.Npc,
      FetchNnpc := t.Context.ExitSpeculativeState.Regs.Nnpc } : OoOThread) = tb at h
  have fb : tb.BranchPredictor =
        { t.BranchPredictor with
            ReturnAddressStackTop := (t.robEntries id).ReturnAddressStackRecoverTop } ∧
      tb.Context = t.Context.ExitSpeculativeState ∧
      tb.FetchNpc = t.Context.ArchitectedRegs.Npc ∧
      tb.FetchNnpc = t.Context.ArchitectedRegs.Nnpc ∧
      tb.numDynamicInsts = t.numDynamicInsts := by
    rw [← htb]
    exact ⟨rfl, rfl, rfl, rfl, rfl⟩
  obtain ⟨b1, b2, b3, b4, b5⟩ := fb
  obtain ⟨t2, r2, hl, hcases⟩ := squash_cases NI NF tb
  obtain ⟨⟨s1, s2, s3, s4, s5⟩, _, _, _⟩ := squashLoop_spec NI NF _ tb t2 r2 hl (Nat.le_refl _)
  rcases hcases with ⟨p, _, hq⟩ | ⟨_, _, hq⟩ | ⟨_, e1, e2, hq⟩
  · rw [hq] at h
    simp only [Outcome.mk.injEq] at h
    rw [← h.2]
    exact ⟨fun hx => (by cases hx), fun hx => (by cases hx)⟩
  · rw [hq] at h
    simp only [Outcome.mk.injEq] at h
    rw [← h.2]
    exact ⟨fun hx => (by cases hx), fun hx => (by cases hx)⟩
  · rw [hq] at h
    simp only [Outcome.mk.injEq] at h
    rw [← h.1, ← h.2]
    refine ⟨fun hx => (by cases hx), fun _ => ⟨?_, ?_, ?_, ?_, ?_, e1, e2, rfl⟩⟩
    · exact s1.trans b1
    · exact s2.trans b2
    · exact s3.trans b3
    · exact s4.trans b4
    · exact s5.trans b5

/-- The loop of `Commit` up to a completed speculative entry: the older entries are retired and
the turn on the entry ends the loop. -/
theorem commitLoop_reaches (NI NF id : Nat) (post : List Nat) (pre : List Nat) :
    ∀ (fuel : Nat) (t : OoOThread) (n : Nat) (t1 : OoOThread),
      commitLoop NI NF fuel t n = ⟨t1, .ok ()⟩ →
      t.ReorderBuffer.Entries.length ≤ fuel →
      t.ReorderBuffer.Entries = pre ++ id :: post →
      n + pre.length < t.Core.CommitWidth →
      (∀ x, x ∈ pre → CommitReady t x ∧ (t.robEntries x).Speculative = false) →
      (t.robEntries id).Completed = true → (t.robEntries id).Speculative = true →
      ∃ tm, tm.robEntries = t.robEntries ∧ tm.Context = t.Context ∧
        tm.numDynamicInsts = t.numDynamicInsts + pre.length ∧
        commitOne NI NF id tm = ⟨t1, .ok false⟩ := by
  induction pre with
  | nil =>
    intro fuel t n t1 h hlen he hw _ hc hs
    rw [List.nil_append] at he
    cases fuel with
    | zero =>
      rw [he] at hlen
      simp at hlen
    | succ fuel =>
      rw [commitLoop] at h
      have hcond : (!t.ReorderBuffer.Empty && decide (n < t.Core.CommitWidth)) = true := by
        simp only [PipelineBuffer.Empty, he, List.isEmpty_cons, Bool.not_false, Bool.true_and,
          decide_eq_true_eq]
        simpa using hw
      rw [if_pos hcond, he] at h
      simp only [] at h
      cases hco : commitOne NI NF id t with
      | mk ta ra =>
        obtain ⟨q1, _⟩ := commitOne_speculative NI NF id t ta ra hc hs hco
        rw [hco] at h
        cases ra with
        | error p => simp at h
        | ok b =>
          cases b with
          | true => exact absurd rfl q1
          | false =>
            simp only [Outcome.mk.injEq, and_true] at h
            subst h
            exact ⟨t, rfl, rfl, rfl, hco⟩
  | cons x pre ih =>
    intro fuel t n t1 h hlen he hw hpre hc hs
    rw [List.cons_append] at he
    cases fuel with
    | zero =>
      rw [he] at hlen
      simp at hlen
    | succ fuel =>
      rw [commitLoop] at h
      have hcond : (!t.ReorderBuffer.Empty && decide (n < t.Core.CommitWidth)) = true := by
        simp only [PipelineBuffer.Empty, he, List.isEmpty_cons, Bool.not_false, Bool.true_and,
          decide_eq_true_eq]
        omega
      rw [if_pos hcond, he] at h
      simp only [] at h
      obtain ⟨hx1, hx2⟩ := hpre x (List.mem_cons_self x pre)
      cases hco : commitOne NI NF x t with
      | mk ta ra =>
        obtain ⟨c1, c2, c3, _, c4⟩ := commitOne_spec NI NF x t ta ra (fun _ => hx2) hco
        obtain ⟨d1, d2⟩ := commitOne_ready NI NF x t ta ra hx2 hx1 hco
        rw [hco] at h
        rcases c4 with ⟨c5, _, c7, c8⟩ | ⟨c5, _, _⟩
        · subst c5
          simp only [] at h
          rw [he] at c7
          simp only [List.drop_succ_cons, List.drop_zero] at c7
          have hready : ∀ y, CommitReady ta y ↔ CommitReady t y := by
            intro y
            unfold CommitReady
            rw [c1, c2]
          obtain ⟨tm, m1, m2, m3, m4⟩ := ih fuel ta (n + 1) t1 h
            (by
              rw [c7]
              rw [he] at hlen
              simpa using hlen)
            c7
            (by
              rw [c3]
              simp only [List.length_cons] at hw
              omega)
            (by
              intro y hy
              obtain ⟨y1, y2⟩ := hpre y (List.mem_cons_of_mem x hy)
              rw [c1]
              exact ⟨(hready y).mpr y1, y2⟩)
            (by rw [c1]; exact hc) (by rw [c1]; exact hs)
          refine ⟨tm, m1.trans c1, m2.trans d2, ?_, m4⟩
          rw [m3, c8]
          simp only [List.length_cons]
          omega
        · exfalso
          cases ra with
          | error p => simp at h
          | ok b =>
            cases b with
            | true => exact c5 rfl
            | false => exact d1 rfl

/-- C21: when `Commit` returns after it has come to an entry `id` of the reorder buffer that is
completed and speculative, the older entries being ready to be retired and fewer than
`CommitWidth`: the top of the return address stack is the top saved in the entry, the context has
left the speculative state, `FetchNpc` and `FetchNnpc` are the `Npc` and `Nnpc` of the architected
registers of the context, the reorder buffer, the load/store queue and the decode buffer are
empty, and the counter of retired instructions has grown by the number of the older entries only:
neither the entry nor a younger one is counted. -/
theorem commit_squashes_at_speculative_entry (NI NF : Nat) (t : OoOThread) (pre : List Nat)
    (id : Nat) (post : List Nat)
    (hrob : t.ReorderBuffer.Entries = pre ++ id :: post)
    (hw : pre.length < t.Core.CommitWidth)
    (hpre : ∀ x, x ∈ pre → CommitReady t x ∧ (t.robEntries x).Speculative = false)
    (hc : (t.robEntries id).Completed = true) (hs : (t.robEntries id).Speculative = true)
    (hret : (t.Commit NI NF).res = .ok ()) :
    (t.Commit NI NF).thread.BranchPredictor.ReturnAddressStackTop =
      (t.robEntries id).ReturnAddressStackRecoverTop ∧
    (t.Commit NI NF).thread.Context = t.Context.ExitSpeculativeState ∧
    (t.Commit NI NF).thread.Context.Speculative = false ∧
    (t.Commit NI NF).thread.FetchNpc = t.Context.ArchitectedRegs.Npc ∧
    (t.Commit NI NF).thread.FetchNnpc = t.Context.ArchitectedRegs.Nnpc ∧
    (t.Commit NI NF).thread.ReorderBuffer.Entries = [] ∧
    (t.Commit NI NF).thread.LoadStoreQueue.Entries = [] ∧
    (t.Commit NI NF).thread.DecodeBuffer.Entries = [] ∧
    (t.Commit NI NF).thread.numDynamicInsts = t.numDynamicInsts + pre.length := by
  have hp : ∀ tp : OoOThread, tp.ReorderBuffer = t.ReorderBuffer → tp.robEntries = t.robEntries →
      tp.lsqEntries = t.lsqEntries → tp.Core = t.Core → tp.Context = t.Context →
      tp.numDynamicInsts = t.numDynamicInsts →
      (commitLoop NI NF tp.ReorderBuffer.Entries.length tp 0).res = .ok () →
      (commitLoop NI NF tp.ReorderBuffer.Entries.length tp
          0).thread.BranchPredictor.ReturnAddressStackTop =
        (t.robEntries id).ReturnAddressStackRecoverTop ∧
      (commitLoop NI NF tp.ReorderBuffer.Entries.length tp 0).thread.Context =
        t.Context.ExitSpeculativeState ∧
      (commitLoop NI NF tp.ReorderBuffer.Entries.length tp 0).thread.Context.Speculative
        = false ∧
      (commitLoop NI NF tp.ReorderBuffer.Entries.length tp 0).thread.FetchNpc =
        t.Context.ArchitectedRegs.Npc ∧
      (commitLoop NI NF tp.ReorderBuffer.Entries.length tp 0).thread.FetchNnpc =
        t.Context.ArchitectedRegs.Nnpc ∧
      (commitLoop NI NF tp.ReorderBuffer.Entries.length tp 0).thread.ReorderBuffer.Entries
        = [] ∧
      (commitLoop NI NF tp.ReorderBuffer.Entries.length tp 0).thread.LoadStoreQueue.Entries
        = [] ∧
      (commitLoop NI NF tp.ReorderBuffer.Entries.length tp 0).thread.DecodeBuffer.Entries
        = [] ∧
      (commitLoop NI NF tp.ReorderBuffer.Entries.length tp 0).thread.numDynamicInsts =
        t.numDynamicInsts + pre.length := by
    intro tp p1 p2 p3 p4 p5 p6 hres
    have hready : ∀ x, CommitReady tp x ↔ CommitReady t x := by
      intro x
      unfold CommitReady
      rw [p2, p3]
    have hrun : commitLoop NI NF tp.ReorderBuffer.Entries.length tp 0 =
        ⟨(commitLoop NI NF tp.ReorderBuffer.Entries.length tp 0).thread, .ok ()⟩ := by
      rw [← hres]
    obtain ⟨tm, m1, m2, m3, m4⟩ := commitLoop_reaches NI NF id post pre _ tp 0 _ hrun
      (Nat.le_refl _) (by rw [p1]; exact hrob) (by rw [p4, Nat.zero_add]; exact hw)
      (by
        intro x hx
        obtain ⟨x1, x2⟩ := hpre x hx
        rw [p2]
        exact ⟨(hready x).mpr x1, x2⟩)
      (by rw [p2]; exact hc) (by rw [p2]; exact hs)
    have hcm : (tm.robEntries id).Completed = true := by rw [m1, p2]; exact hc
    have hsm : (tm.robEntries id).Speculative = true := by rw [m1, p2]; exact hs
    obtain ⟨_, q⟩ := commitOne_speculative NI NF id tm _ _ hcm hsm m4
    obtain ⟨q1, q2, q3, q4, q5, q6, q7, q8⟩ := q rfl
    refine ⟨?_, ?_, ?_, ?_, ?_, q6, q7, q8, ?_⟩
    · rw [q1, m1, p2]
    · rw [q2, m2, p5]
    · rw [q2]; rfl
    · rw [q3, m2, p5]
    · rw [q4, m2, p5]
    · rw [q5, m3, p6]
  unfold OoOThread.Commit at hret ⊢
  simp only [] at hret ⊢
  split_ifs at hret ⊢
  · exact hp _ rfl rfl rfl rfl rfl rfl hret
  · exact hp _ rfl rfl rfl rfl rfl rfl hret
  · exact hp _ rfl rfl rfl rfl rfl rfl hret

/-- C21, for the sample thread whose oldest entry is completed and speculative: `Commit` returns,
the buffers are empty and no instruction is counted as retired. -/
theorem commit_squashes_at_speculative_entry_witness :
    (sampleSpeculative.Commit 32 32).res = .ok () ∧
    sampleSpeculative.ReorderBuffer.Entries = [0, 1, 2] ∧
    (sampleSpeculative.Commit 32 32).thread.BranchPredictor.ReturnAddressStackTop =
      (sampleSpeculative.robEntries 0).ReturnAddressStackRecoverTop ∧
    (sampleSpeculative.Commit 32 32).thread.ReorderBuffer.Entries = [] ∧
    (sampleSpeculative.Commit 32 32).thread.LoadStoreQueue.Entries = [] ∧
    (sampleSpeculative.Commit 32 32).thread.DecodeBuffer.Entries = [] ∧
    (sampleSpeculative.Commit 32 32).thread.numDynamicInsts =
      sampleSpeculative.numDynamicInsts + ([] : List Nat).length :=
  have hr : (sampleSpeculative.Commit 32 32).res = .ok () := rfl
  have h := commit_squashes_at_speculative_entry 32 32 sampleSpeculative [] 0 [1, 2]
    (by decide) (by decide) (fun x hx => by simp at hx) (by decide) (by decide) hr
  ⟨hr, by decide, h.1, h.2.2.2.2.2.1, h.2.2.2.2.2.2.1, h.2.2.2.2.2.2.2.1, h.2.2.2.2.2.2.2.2⟩

/-! ## Squash after rename -/

/-- C23, as the code has it: `Squash` does not undo the rename of an instruction that has the
zero register `(INT, 0)` among its outputs. `RegisterRenameOne` allocates a target register for
this output as for any other, while the loop of `Squash` over the outputs leaves out the outputs
of flat index 0. On a new thread, after the rename of `r0 := r1 + r2` and `Squash`, the rename
table maps `(INT, 0)` to the register 32 allocated by the rename and not to the register 0 as
before, the register 32 is still allocated, and the integer file has 7 free registers, one fewer
than before. After the rename of `r3 := r1 + r2` and `Squash`, the mapping of `(INT, 3)` and the
8 free registers are as before. -/
theorem squash_keeps_rename_of_zero_register :
    ((sampleThread [sampleEntry 0 .INT_COMP [sampleRegister 1, sampleRegister 2] [sampleRegister 0]
        0]).RegisterRenameOne).res = .ok true ∧
    ((sampleRenamed [sampleEntry 0 .INT_COMP [sampleRegister 1, sampleRegister 2] [sampleRegister 0] 0]).Squash
        32 32).res = .ok () ∧
    (sampleThread [sampleEntry 0 .INT_COMP [sampleRegister 1, sampleRegister 2] [sampleRegister 0] 0]).RenameTable
        (sampleRegister 0) = some ⟨.INT, 0⟩ ∧
    ((sampleRenamed [sampleEntry 0 .INT_COMP [sampleRegister 1, sampleRegister 2] [sampleRegister 0] 0]).Squash
        32 32).thread.RenameTable (sampleRegister 0) = some ⟨.INT, 32⟩ ∧
    ((sampleThread [sampleEntry 0 .INT_COMP [sampleRegister 1, sampleRegister 2] [sampleRegister 0]
        0]).reg ⟨.INT, 32⟩).State = .AVAILABLE ∧
    (((sampleRenamed [sampleEntry 0 .INT_COMP [sampleRegister 1, sampleRegister 2] [sampleRegister 0] 0]).Squash
        32 32).thread.reg ⟨.INT, 32⟩).State = .RENAME_BUFFER_BUT_NOT_READY ∧
    (sampleThread [sampleEntry 0 .INT_COMP [sampleRegister 1, sampleRegister 2] [sampleRegister 0]
        0]).IntPhysicalRegs.NumFreePhysicalRegisters = 8 ∧
    ((sampleRenamed [sampleEntry 0 .INT_COMP [sampleRegister 1, sampleRegister 2] [sampleRegister 0] 0]).Squash
        32 32).thread.IntPhysicalRegs.NumFreePhysicalRegisters = 7 ∧
    ((sampleRenamed [sampleEntry 0 .INT_COMP [sampleRegister 1, sampleRegister 2] [sampleRegister 3] 0]).Squash
        32 32).thread.RenameTable (sampleRegister 3) = some ⟨.INT, 3⟩ ∧
    ((sampleRenamed [sampleEntry 0 .INT_COMP [sampleRegister 1, sampleRegister 2] [sampleRegister 3] 0]).Squash
        32 32).thread.IntPhysicalRegs.NumFreePhysicalRegisters = 8 :=
  ⟨rfl, rfl, by decide, by decide, by decide, by decide, by decide, by decide, by decide,
    by decide⟩

/-! ## The free units of the pool -/

/-- The two ways of `acquire`: nothing changes but a stall counter, or a unit is taken and an
increment scheduled. -/
theorem acquire_cases (s : FUPoolState) (op : FUOperationType) :
    ((s.Acquire op).1.pool.Descriptors = s.pool.Descriptors ∧
        (s.Acquire op).1.pending = s.pending) ∨
      ∃ fuType d0, s.pool.Descriptors fuType = some d0 ∧ d0.NumFree ≠ 0 ∧
        (s.Acquire op).1.pool.Descriptors =
          (fun t => if t = fuType then some { d0 with NumFree := d0.NumFree - 1 }
            else s.pool.Descriptors t) ∧
        (s.Acquire op).1.pending =
          (fun t => if t = fuType then s.pending t + 1 else s.pending t) := by
  unfold FUPoolState.Acquire
  split
  · exact Or.inl ⟨rfl, rfl⟩
  · rename_i fuType _
    split
    · exact Or.inl ⟨rfl, rfl⟩
    · rename_i d0 hd0
      split_ifs with hfull
      · exact Or.inl ⟨rfl, rfl⟩
      · exact Or.inr ⟨fuType, d0, hd0, hfull, rfl, rfl⟩

/-- What `acquire` and the firing of the increments keep: the free units and the increments
pending add up to the quantity. -/
theorem fuPool_step_balance (s : FUPoolState) (step : FUPoolStep)
    (hne : step = .releaseAll → ∀ t, s.pending t = 0)
    (h : ∀ t d, s.pool.Descriptors t = some d →
      d.NumFree + s.pending t = d.Quantity ∧ d.Quantity < 4294967296) :
    ∀ t d, (s.step step).pool.Descriptors t = some d →
      d.NumFree + (s.step step).pending t = d.Quantity ∧ d.Quantity < 4294967296 := by
  intro t d hd
  cases step with
  | acquire op =>
    simp only [FUPoolState.step] at hd ⊢
    rcases acquire_cases s op with ⟨a1, a2⟩ | ⟨fuType, d0, a0, a3, a1, a2⟩
    · rw [a1] at hd
      rw [a2]
      exact h t d hd
    · rw [a1] at hd
      rw [a2]
      obtain ⟨b1, b2⟩ := h fuType d0 a0
      by_cases ht : t = fuType
      · subst ht
        simp only [if_true, Option.some.injEq] at hd ⊢
        rw [← hd]
        simp only []
        constructor
        · omega
        · exact b2
      · simp only [if_neg ht] at hd ⊢
        exact h t d hd
  | fire fuType =>
    simp only [FUPoolState.step, FUPoolState.Fire] at hd ⊢
    by_cases hp : s.pending fuType = 0
    · rw [if_pos hp] at hd ⊢
      exact h t d hd
    · rw [if_neg hp] at hd ⊢
      simp only [] at hd ⊢
      by_cases ht : t = fuType
      · subst ht
        simp only [if_true] at hd ⊢
        cases h2 : s.pool.Descriptors t with
        | none =>
          rw [h2] at hd
          cases hd
        | some d0 =>
          rw [h2] at hd
          simp only [Option.map_some', Option.some.injEq] at hd
          obtain ⟨b1, b2⟩ := h t d0 h2
          rw [← hd]
          simp only [u32]
          constructor
          · omega
          · exact b2
      · simp only [if_neg ht] at hd ⊢
        exact h t d hd
  | releaseAll =>
    simp only [FUPoolState.step, FUPool.ReleaseAll] at hd ⊢
    cases h2 : s.pool.Descriptors t with
    | none =>
      rw [h2] at hd
      cases hd
    | some d0 =>
      rw [h2] at hd
      simp only [Option.map_some', Option.some.injEq] at hd
      obtain ⟨_, b2⟩ := h t d0 h2
      rw [← hd, hne rfl t]
      exact ⟨rfl, b2⟩

/-- C26, as the steps described allow it: in every state reached from `NewFUPool` by `acquire`,
by the firing of the increments that `acquire` scheduled, and by `ReleaseAll` issued when no
increment is pending, the free units and the pending increments of every descriptor add up to its
quantity, so that `NumFree` is at most `Quantity` (and, a `uint32`, at least 0). -/
theorem fu_num_free_bounded (steps : List FUPoolStep)
    (hquiet : ∀ pre post, steps = pre ++ FUPoolStep.releaseAll :: post →
      ∀ t, (FUPoolState.run pre).pending t = 0) :
    ∀ t d, (FUPoolState.run steps).pool.Descriptors t = some d →
      d.NumFree + (FUPoolState.run steps).pending t = d.Quantity ∧ d.NumFree ≤ d.Quantity := by
  have key : ∀ t d, (FUPoolState.run steps).pool.Descriptors t = some d →
      d.NumFree + (FUPoolState.run steps).pending t = d.Quantity ∧
        d.Quantity < 4294967296 := by
    induction steps using List.reverseRecOn with
    | nil =>
      intro t d hd
      cases t <;>
        (simp only [FUPoolState.run, List.foldl_nil] at hd ⊢
         injection hd with hd
         rw [← hd]
         exact ⟨rfl, by decide⟩)
    | append_singleton pre step ih =>
      have hrun : FUPoolState.run (pre ++ [step]) = (FUPoolState.run pre).step step := by
        simp only [FUPoolState.run, List.foldl_append, List.foldl_cons, List.foldl_nil]
      rw [hrun]
      apply fuPool_step_balance
      · intro hs
        subst hs
        exact hquiet pre [] rfl
      · apply ih
        intro pre1 post1 he
        apply hquiet pre1 (post1 ++ [step])
        rw [he]
        simp
  intro t d hd
  obtain ⟨k1, _⟩ := key t d hd
  exact ⟨k1, by omega⟩

/-- C26, for a division acquired, its increment fired, and `ReleaseAll` after that: the
descriptor `INT_MULT_DIV` is within its quantity. -/
theorem fu_num_free_bounded_witness :
    ∃ d, (FUPoolState.run [.acquire .INT_DIV, .fire .INT_MULT_DIV,
        .releaseAll]).pool.Descriptors .INT_MULT_DIV = some d ∧
      d.NumFree + (FUPoolState.run [.acquire .INT_DIV, .fire .INT_MULT_DIV,
        .releaseAll]).pending .INT_MULT_DIV = d.Quantity ∧
      d.NumFree ≤ d.Quantity := by
  have hthm := fu_num_free_bounded [.acquire .INT_DIV, .fire .INT_MULT_DIV, .releaseAll] (by
    intro pre post he t
    rcases pre with _ | ⟨a, pre⟩
    · simp at he
    · rcases pre with _ | ⟨b, pre⟩
      · simp at he
      · rcases pre with _ | ⟨c, pre⟩
        · simp only [List.cons_append, List.nil_append, List.cons.injEq] at he
          obtain ⟨h1, h2, _⟩ := he
          subst h1
          subst h2
          cases t <;> rfl
        · simp at he)
  cases hx : (FUPoolState.run [.acquire .INT_DIV, .fire .INT_MULT_DIV,
      .releaseAll]).pool.Descriptors .INT_MULT_DIV with
  | none =>
    have hs : ((FUPoolState.run [.acquire .INT_DIV, .fire .INT_MULT_DIV,
        .releaseAll]).pool.Descriptors .INT_MULT_DIV).isSome = true := by decide
    rw [hx] at hs
    cases hs
  | some d => exact ⟨d, rfl, hthm _ d hx⟩

/-- C26 fails as stated: an `acquire` of a division, `ReleaseAll` before the increment it
scheduled has fired, and then this increment leave the descriptor `INT_MULT_DIV`, of quantity 2,
with 3 free units. -/
theorem fu_num_free_counterexample :
    ((FUPoolState.run [.acquire .INT_DIV, .releaseAll, .fire .INT_MULT_DIV]).pool.Descriptors
        .INT_MULT_DIV).map (fun d => (d.NumFree, d.Quantity)) = some (3, 2) ∧
    ((FUPoolState.run [.acquire .INT_DIV]).pool.Descriptors
        .INT_MULT_DIV).map (fun d => (d.NumFree, d.Quantity)) = some (1, 2) ∧
    (FUPoolState.run [.acquire .INT_DIV]).pending .INT_MULT_DIV = 1 := by
  refine ⟨by decide, by decide, by decide⟩

/-! ## Refresh of the load/store queue, twice -/

/-- A pass of the loop over a ready load queue that holds all that the pass yields from another
queue appends nothing. -/
theorem refreshLoop_saturated (h : Nat → LoadStoreQueueEntry) (ids : List Nat) :
    ∀ (std : List Int) (q q2 : List EntryRef),
      (∀ x, x ∈ refreshLoop h ids std q → x ∈ q2) → refreshLoop h ids std q2 = q2 := by
  induction ids with
  | nil =>
    intro std q q2 _
    rfl
  | cons id rest ih =>
    intro std q q2 hsub
    rw [refreshLoop] at hsub ⊢
    cases hs : refreshStore (h id) std with
    | none => rfl
    | some std1 =>
      rw [hs] at hsub
      simp only [] at hsub ⊢
      obtain ⟨added, a1, _, _⟩ := refreshLoop_added h rest std1 (refreshLoad id (h id) std1 q)
      have hq1 : ∀ x, x ∈ refreshLoad id (h id) std1 q → x ∈ q2 := by
        intro x hx
        apply hsub
        rw [a1]
        exact List.mem_append_left _ hx
      have hload : refreshLoad id (h id) std1 q2 = q2 := by
        rw [refreshLoad_eq]
        by_cases hc : (h id).DynamicInst.StaticInst.Mnemonic.StaticInstType = .LD ∧
            (h id).Dispatched = true ∧ (h id).Issued = false ∧ (h id).Completed = false ∧
            (h id).AllOperandReady = true ∧ EntryRef.lsq id ∉ q2 ∧
            (h id).EffectiveAddress ∉ std1
        · exfalso
          obtain ⟨c1, c2, c3, c4, c5, c6, c7⟩ := hc
          apply c6
          apply hq1
          rw [refreshLoad_eq]
          by_cases hin : EntryRef.lsq id ∈ q
          · exact List.mem_append_left _ hin
          · rw [if_pos ⟨c1, c2, c3, c4, c5, hin, c7⟩]
            simp
        · rw [if_neg hc, List.append_nil]
      rw [hload]
      exact ih std1 (refreshLoad id (h id) std1 q) q2 hsub

/-- C31: `RefreshLoadStoreQueue` only appends to the ready load queue and is idempotent. For every
thread, the ready load queue before the refresh is a prefix of the queue after it; the load/store
queue, the reorder buffer, the rename table, the entries themselves and the four other queues of
the core are unchanged, as is all the rest of the thread; and a second refresh right after the
first changes nothing. -/
theorem refresh_idempotent (t : OoOThread) :
    (∃ added, (t.RefreshLoadStoreQueue).Core.ReadyLoadQueue = t.Core.ReadyLoadQueue ++ added) ∧
    ((t.RefreshLoadStoreQueue).LoadStoreQueue = t.LoadStoreQueue ∧
      (t.RefreshLoadStoreQueue).ReorderBuffer = t.ReorderBuffer ∧
      (t.RefreshLoadStoreQueue).RenameTable = t.RenameTable ∧
      (t.RefreshLoadStoreQueue).lsqEntries = t.lsqEntries ∧
      (t.RefreshLoadStoreQueue).robEntries = t.robEntries ∧
      (t.RefreshLoadStoreQueue).Core.ReadyInstructionQueue = t.Core.ReadyInstructionQueue ∧
      (t.RefreshLoadStoreQueue).Core.WaitingInstructionQueue = t.Core.WaitingInstructionQueue ∧
      (t.RefreshLoadStoreQueue).Core.ReadyStoreQueue = t.Core.ReadyStoreQueue ∧
      (t.RefreshLoadStoreQueue).Core.WaitingStoreQueue = t.Core.WaitingStoreQueue) ∧
    t.RefreshLoadStoreQueue =
      { t with
          Core :=
            { t.Core with ReadyLoadQueue := (t.RefreshLoadStoreQueue).Core.ReadyLoadQueue } } ∧
    (t.RefreshLoadStoreQueue).RefreshLoadStoreQueue = t.RefreshLoadStoreQueue := by
  refine ⟨?_, ⟨rfl, rfl, rfl, rfl, rfl, rfl, rfl, rfl, rfl⟩, rfl, ?_⟩
  · obtain ⟨added, a1, _, _⟩ :=
      refreshLoop_added t.lsqEntries t.LoadStoreQueue.Entries [] t.Core.ReadyLoadQueue
    exact ⟨added, a1⟩
  · have hsat := refreshLoop_saturated t.lsqEntries t.LoadStoreQueue.Entries []
      t.Core.ReadyLoadQueue
      (refreshLoop t.lsqEntries t.LoadStoreQueue.Entries [] t.Core.ReadyLoadQueue)
      (fun x hx => hx)
    show ({ t.RefreshLoadStoreQueue with
        Core :=
          { (t.RefreshLoadStoreQueue).Core with
              ReadyLoadQueue :=
                refreshLoop t.lsqEntries t.LoadStoreQueue.Entries []
                  (refreshLoop t.lsqEntries t.LoadStoreQueue.Entries []
                    t.Core.ReadyLoadQueue) } } : OoOThread) = t.RefreshLoadStoreQueue
    rw [hsat]
    rfl

end Cpu

end Heo
